import Mathlib

/-!
Verification development for the CMN register-manual text-parsing core
(`l1_pdf_analysis.py`).  The Python source is shallowly embedded: strings
are Lean `String`s (lists of `Char`), the hand-written regular expressions
of the source are realised as executable character-list matchers with the
same matching discipline, and the stateful scanning loops are realised as
fuel-indexed structural recursions over the line list.
-/

namespace CmnRead

/-- Python whitespace class `\s` (and the default `str.strip` character set)
restricted to the code points that can occur in the extracted text. -/
def pySpace (c : Char) : Bool :=
  c = ' ' || c = '\t' || c = '\n' || c = '\r' || c = '\x0b' || c = '\x0c'

/-- Python word-character class `\w` on the ASCII range used by the manuals. -/
def isWordChar (c : Char) : Bool := c.isAlphanum || c = '_'

/-- Character class `[0-9A-Fa-f]` used by the offset regexes. -/
def isHexChar (c : Char) : Bool :=
  c.isDigit || ('a' ≤ c && c ≤ 'f') || ('A' ≤ c && c ≤ 'F')

/-- ASCII letter class `[A-Za-z]`. -/
def isLetterChar (c : Char) : Bool :=
  ('a' ≤ c && c ≤ 'z') || ('A' ≤ c && c ≤ 'Z')

/-- Character class `[A-Za-z_]` (identifier head). -/
def isIdentHead (c : Char) : Bool := isLetterChar c || c = '_'

/-- Character class `[A-Za-z0-9_]` (identifier body). -/
def isIdentChar (c : Char) : Bool := isLetterChar c || c.isDigit || c = '_'

/-- ASCII-lowercase a character, as Python `str.lower` does on ASCII text. -/
def lcChar (c : Char) : Char := c.toLower

/-- ASCII-lowercase a whole string (Python `str.lower`). -/
def pyLower (s : String) : String := String.mk (s.data.map lcChar)

/-- Python `str.strip()` on a character list: drop whitespace at both ends. -/
def pyStripL (l : List Char) : List Char :=
  ((l.dropWhile pySpace).reverse.dropWhile pySpace).reverse

/-- Python `str.strip()`. -/
def pyStrip (s : String) : String := String.mk (pyStripL s.data)

/-- Python `str.strip(chars)` for an explicit character set. -/
def pyStripChars (cs : List Char) (s : String) : String :=
  String.mk (((s.data.dropWhile (cs.contains ·)).reverse.dropWhile (cs.contains ·)).reverse)

/-- Python `str.lstrip()` restricted to what the source needs (whitespace). -/
def pyLStrip (s : String) : String := String.mk (s.data.dropWhile pySpace)

/-- Consume an exact literal at the head of the input, returning the rest. -/
def eatLit : List Char → List Char → Option (List Char)
  | [], s => some s
  | _, [] => none
  | c :: lit, d :: s => if c = d then eatLit lit s else none

/-- Consume an exact literal case-insensitively (for `re.IGNORECASE` patterns). -/
def eatLitCI : List Char → List Char → Option (List Char)
  | [], s => some s
  | _, [] => none
  | c :: lit, d :: s => if lcChar c = lcChar d then eatLitCI lit s else none

/-- Consume a non-empty maximal run of characters satisfying `p`
(a greedy `p+` whose follower cannot re-enter the class). -/
def eatRun1 (p : Char → Bool) (s : List Char) : Option (List Char × List Char) :=
  match s.takeWhile p with
  | [] => none
  | run => some (run, s.dropWhile p)

/-- Consume a possibly-empty maximal run of characters satisfying `p`. -/
def eatRun0 (p : Char → Bool) (s : List Char) : List Char × List Char :=
  (s.takeWhile p, s.dropWhile p)

/-- Greedy `\s+`: at least one whitespace character, consumed maximally. -/
def eatSpaces1 (s : List Char) : Option (List Char) :=
  match s with
  | [] => none
  | c :: rest => if pySpace c then some (rest.dropWhile pySpace) else none

/-- Greedy `\s*`. -/
def eatSpaces0 (s : List Char) : List Char := s.dropWhile pySpace

/-- Substring occurrence test (Python `needle in haystack`). -/
def containsSub (haystack needle : String) : Bool :=
  decide (needle.data <:+: haystack.data)

/-- Python `str.startswith`. -/
def pyStartsWith (s pre : String) : Bool := decide (pre.data <+: s.data)

/-- Python `str.endswith`. -/
def pyEndsWith (s post : String) : Bool := decide (post.data <:+ s.data)

/-- Drop `n` characters from the end of a string (used to strip a matched
type token from a name). -/
def dropEnd (s : String) (n : Nat) : String :=
  String.mk (s.data.take (s.data.length - n))

/-- Python `str.split()` (no argument): split on whitespace runs, dropping
empty fields.  The accumulator holds the current field reversed. -/
def splitWSAux : List Char → List Char → List String
  | [], acc => if acc.isEmpty then [] else [String.mk acc.reverse]
  | c :: rest, acc =>
    if pySpace c then
      if acc.isEmpty then splitWSAux rest []
      else String.mk acc.reverse :: splitWSAux rest []
    else splitWSAux rest (c :: acc)

/-- Python `str.split()` with no argument. -/
def pySplitWS (s : String) : List String := splitWSAux s.data []

/-- Digit character for a value below the base (`0-9a-f`). -/
def digitChar (d : Nat) : Char :=
  if d < 10 then Char.ofNat (48 + d) else Char.ofNat (87 + d)

/-- Big-endian digit list of `n` in the given base; the fuel (one unit per
digit) keeps the recursion structural so the kernel can evaluate it. -/
def toDigitsAux (base : Nat) : Nat → Nat → List Char
  | 0, _ => []
  | _ + 1, 0 => []
  | fuel + 1, n => toDigitsAux base fuel (n / base) ++ [digitChar (n % base)]

/-- Decimal digit list of a positive natural number (big-endian). -/
def natDigitChars (n : Nat) : List Char := toDigitsAux 10 n n

/-- Decimal rendering of a natural number, as Python `str(int)` prints it. -/
def natStr (n : Nat) : String :=
  if n = 0 then "0" else String.mk (natDigitChars n)

/-- Value of a big-endian decimal digit-character list (Python `int(str)`). -/
def digitsToNat (l : List Char) : Nat :=
  l.foldl (fun a c => a * 10 + (c.toNat - 48)) 0

/-! Basic lemmas about runs and literals over rendered text. -/

theorem takeWhile_append_all {p : Char → Bool} {l : List Char} (r : List Char)
    (h : ∀ c ∈ l, p c = true) : (l ++ r).takeWhile p = l ++ r.takeWhile p := by
  induction l with
  | nil => simp
  | cons c cs ih =>
    have hc := h c (by simp)
    simp only [List.cons_append, List.takeWhile_cons, hc, if_true]
    rw [ih (fun d hd => h d (by simp [hd]))]

theorem dropWhile_append_all {p : Char → Bool} {l : List Char} (r : List Char)
    (h : ∀ c ∈ l, p c = true) : (l ++ r).dropWhile p = r.dropWhile p := by
  induction l with
  | nil => simp
  | cons c cs ih =>
    have hc := h c (by simp)
    simp only [List.cons_append, List.dropWhile_cons, hc, if_true]
    exact ih (fun d hd => h d (by simp [hd]))

theorem takeWhile_cons_neg {p : Char → Bool} {c : Char} (r : List Char)
    (h : p c = false) : (c :: r).takeWhile p = [] := by
  simp [List.takeWhile_cons, h]

theorem dropWhile_cons_neg {p : Char → Bool} {c : Char} (r : List Char)
    (h : p c = false) : (c :: r).dropWhile p = c :: r := by
  simp [List.dropWhile_cons, h]

theorem eatLit_append (lit r : List Char) : eatLit lit (lit ++ r) = some r := by
  induction lit with
  | nil => simp [eatLit]
  | cons c cs ih => simp [eatLit, ih]

theorem eatRun1_exact {p : Char → Bool} {l : List Char} {c : Char} (r : List Char)
    (hl : ∀ d ∈ l, p d = true) (hne : l ≠ []) (hc : p c = false) :
    eatRun1 p (l ++ c :: r) = some (l, c :: r) := by
  unfold eatRun1
  rw [takeWhile_append_all (c :: r) hl, takeWhile_cons_neg r hc,
    dropWhile_append_all (c :: r) hl, dropWhile_cons_neg r hc]
  cases l with
  | nil => exact absurd rfl hne
  | cons d ds => simp

theorem eatRun1_exact_nil {p : Char → Bool} {l : List Char}
    (hl : ∀ d ∈ l, p d = true) (hne : l ≠ []) :
    eatRun1 p l = some (l, []) := by
  unfold eatRun1
  rw [show l = l ++ ([] : List Char) by simp, takeWhile_append_all [] hl,
    dropWhile_append_all [] hl]
  cases l with
  | nil => exact absurd rfl hne
  | cons d ds => simp

/-! The access-token tables of the source (`TYPE_TOKENS`,
`SORTED_TYPE_TOKENS`, `HEADER_LABELS`, boilerplate string sets). -/

/-- The access-mode token set `TYPE_TOKENS` of the source. -/
def TYPE_TOKENS : List String :=
  ["RO", "RW", "WO", "R/W", "R/W1C", "R/W1S", "R/W1P", "R/WC", "R/W0C",
   "R/W0S", "R/W0P", "R/W0", "R/W1", "R/WS", "R/WP", "R/C", "R/S", "R0",
   "W1C", "W1S", "W1P", "RWL"]

/-- `SORTED_TYPE_TOKENS`: the same tokens sorted longest-first, as the
source pre-sorts them for longest-first suffix matching.  Within one
length at most one token can match a given position, so the order inside a
length class is immaterial. -/
def SORTED_TYPE_TOKENS : List String :=
  ["R/W1C", "R/W1S", "R/W1P", "R/W0C", "R/W0S", "R/W0P",
   "R/WC", "R/W0", "R/W1", "R/WS", "R/WP",
   "R/W", "R/C", "R/S", "W1C", "W1S", "W1P", "RWL",
   "RO", "RW", "WO", "R0"]

/-- Source predicate `is_type_token`. -/
def is_type_token (s : String) : Bool := TYPE_TOKENS.contains s

/-- The column-header label set `HEADER_LABELS`. -/
def HEADER_LABELS : List String :=
  ["offset", "name", "type", "description", "reset", "bits"]

/-- `MIN_NAME_LENGTH` of the source. -/
def MIN_NAME_LENGTH : Nat := 3

/-- `LONG_NAME_THRESHOLD` of the source. -/
def LONG_NAME_THRESHOLD : Nat := 10

/-- The `EXPLICIT_BOILERPLATE_STRINGS` set of the source. -/
def EXPLICIT_BOILERPLATE_STRINGS : List String :=
  ["This register is owned in the Non-secure space and is accessible using Non-secure, Secure,",
   "This register is owned in the Non-secure space and is accessible using Non-secure, Secure",
   "This register is owned in the Non-secure space",
   "This register is accessible using Non-secure, Secure,",
   "This register is accessible using Non-secure, Secure",
   "Root, and Realm transactions.",
   "Root, and Realm transactions",
   "Bit descriptions"]

/-- The `BAD_NAME_PREFIXES` set of the source (strings a register name may
never start with). -/
def BAD_NAME_STARTS : List String :=
  ["reset value", "reset values", "see individual bit resets",
   "attributes", "attribute", "bits", "name", "description", "type",
   "offset", "usage constraints", "usage constraint", "non-confidential"]

/-- The `ADDR_SEPARATORS` set. -/
def ADDR_SEPARATORS : List String := [":", "-", "–", ",", ";"]

/-! Name/type de-concatenation (`separate_name_and_type` and its guard
`is_valid_name_type_separation`). -/

/-- Regex `^[a-z][a-z0-9_]*[a-z0-9]$` with `re.IGNORECASE`: a simple
identifier shape of length at least two. -/
def simpleIdentShape (s : String) : Bool :=
  match s.data with
  | [] => false
  | [_] => false
  | c :: rest =>
    isLetterChar c &&
      rest.dropLast.all (fun d => isLetterChar d || d.isDigit || d = '_') &&
      (match rest.getLast? with
       | some d => isLetterChar d || d.isDigit
       | none => false)

/-- Source guard `is_valid_name_type_separation`: validates splitting
`original_name` into `potential_name ++ token`. -/
def is_valid_name_type_separation (potential_name : String) (_token : String)
    (_original_name : String) : Bool :=
  if potential_name = "" then false
  else if !(potential_name.data.any isIdentHead) then false
  else if potential_name.length < MIN_NAME_LENGTH then false
  else if (match potential_name.data.getLast? with
           | some c => c.isDigit || c = '-'
           | none => false) then true
  else if pyEndsWith potential_name "_" then true
  else if LONG_NAME_THRESHOLD ≤ potential_name.length then true
  else simpleIdentShape potential_name

/-- Longest-first scan over `SORTED_TYPE_TOKENS` for a directly
concatenated trailing type token whose removal passes the validity guard
(the second half of `separate_name_and_type`). -/
def findConcatSplit : List String → String → Option (String × String)
  | [], _ => none
  | tok :: rest, name =>
    if pyEndsWith name tok then
      let potential := dropEnd name tok.length
      if is_valid_name_type_separation potential tok name then some (potential, tok)
      else findConcatSplit rest name
    else findConcatSplit rest name

/-- Source function `separate_name_and_type`: first split off a
space-separated trailing type token, then try the concatenated form. -/
def separate_name_and_type (name : String) : String × String :=
  if name = "" then (name, "") else
  let parts := pySplitWS name
  match parts.getLast? with
  | some last =>
    if 2 ≤ parts.length ∧ is_type_token last then
      (" ".intercalate parts.dropLast, last)
    else
      match findConcatSplit SORTED_TYPE_TOKENS name with
      | some (n, t) => (n, t)
      | none => (name, "")
  | none =>
    match findConcatSplit SORTED_TYPE_TOKENS name with
    | some (n, t) => (n, t)
    | none => (name, "")

/-! Lemmas characterising `separate_name_and_type` on space-free names. -/

theorem splitWSAux_all_nonspace {l : List Char} (acc : List Char)
    (h : ∀ c ∈ l, pySpace c = false) :
    splitWSAux l acc =
      if (acc.reverse ++ l).isEmpty then [] else [String.mk (acc.reverse ++ l)] := by
  induction l generalizing acc with
  | nil => simp [splitWSAux, List.isEmpty_iff]
  | cons c cs ih =>
    have hc := h c (by simp)
    simp only [splitWSAux, hc, Bool.false_eq_true, if_false]
    rw [ih (c :: acc) (fun d hd => h d (by simp [hd]))]
    simp [List.isEmpty_iff]

theorem pySplitWS_all_nonspace {s : String} (hne : s ≠ "")
    (h : ∀ c ∈ s.data, pySpace c = false) : pySplitWS s = [s] := by
  have hdata : s.data ≠ [] := fun hd => hne (by cases s; simp_all)
  unfold pySplitWS
  rw [splitWSAux_all_nonspace [] h]
  simp [List.isEmpty_iff, hdata]

theorem findConcatSplit_sound {toks : List String} {name n t : String}
    (h : findConcatSplit toks name = some (n, t)) :
    t ∈ toks ∧ pyEndsWith name t = true ∧ n = dropEnd name t.length ∧
      is_valid_name_type_separation n t name = true := by
  induction toks with
  | nil => simp [findConcatSplit] at h
  | cons tok rest ih =>
    by_cases he : pyEndsWith name tok = true
    · by_cases hg : is_valid_name_type_separation (dropEnd name tok.length) tok name = true
      · simp only [findConcatSplit, he, if_true, hg, Option.some.injEq, Prod.mk.injEq] at h
        obtain ⟨rfl, rfl⟩ := h
        exact ⟨by simp, he, rfl, hg⟩
      · simp only [findConcatSplit, he, if_true, hg, Bool.false_eq_true, if_false] at h
        obtain ⟨h1, h2, h3, h4⟩ := ih h
        exact ⟨by simp [h1], h2, h3, h4⟩
    · simp only [findConcatSplit, he, Bool.false_eq_true, if_false] at h
      obtain ⟨h1, h2, h3, h4⟩ := ih h
      exact ⟨by simp [h1], h2, h3, h4⟩

theorem dropEnd_append_of_endsWith {name t : String} (h : pyEndsWith name t = true) :
    dropEnd name t.length ++ t = name := by
  rw [pyEndsWith, decide_eq_true_iff] at h
  obtain ⟨pre, hpre⟩ := h
  cases name with
  | mk nd =>
    cases t with
    | mk td =>
      have hpre' : pre ++ td = nd := hpre
      show String.mk (nd.take (nd.length - td.length)) ++ String.mk td = String.mk nd
      have h1 : nd.length - td.length = pre.length := by
        rw [← hpre']; simp
      have h2 : String.mk (nd.take (nd.length - td.length)) ++ String.mk td
          = String.mk (nd.take (nd.length - td.length) ++ td) := rfl
      rw [h2, h1, ← hpre', List.take_left]

theorem sorted_tokens_are_type_tokens :
    ∀ t ∈ SORTED_TYPE_TOKENS, is_type_token t = true := by decide

/-- C3: Artifact Repair's name/type de-concatenation splits a register
name ending in a recognized access token only when the remaining prefix
passes the validity guard (`is_valid_name_type_separation`); on the
concrete inputs, `"sys_cache_reg0-3RW"` with empty type becomes
`("sys_cache_reg0-3", "RW")` and `"ARROW"` is returned unchanged with no
extracted type. -/
theorem C3_name_type_separation :
    separate_name_and_type "sys_cache_reg0-3RW" = ("sys_cache_reg0-3", "RW") ∧
    separate_name_and_type "ARROW" = ("ARROW", "") ∧
    ∀ name n t, (∀ c ∈ name.data, pySpace c = false) →
      separate_name_and_type name = (n, t) → t ≠ "" →
        is_type_token t = true ∧ n ++ t = name ∧
        is_valid_name_type_separation n t name = true := by
  refine ⟨by decide, by decide, ?_⟩
  intro name n t hns hsep hne
  by_cases h0 : name = ""
  · subst h0
    have hval : separate_name_and_type "" = ("", "") := by decide
    rw [hval, Prod.mk.injEq] at hsep
    exact absurd hsep.2.symm hne
  · rw [separate_name_and_type, if_neg h0, pySplitWS_all_nonspace h0 hns] at hsep
    simp only [List.getLast?_singleton, List.length_singleton] at hsep
    rw [if_neg (fun hcon => by omega)] at hsep
    cases hfc : findConcatSplit SORTED_TYPE_TOKENS name with
    | none =>
      rw [hfc] at hsep
      simp only [Prod.mk.injEq] at hsep
      exact absurd hsep.2.symm hne
    | some p =>
      obtain ⟨n', t'⟩ := p
      rw [hfc] at hsep
      simp only [Prod.mk.injEq] at hsep
      obtain ⟨rfl, rfl⟩ := hsep
      obtain ⟨hmem, hend, hdrop, hguard⟩ := findConcatSplit_sound hfc
      exact ⟨sorted_tokens_are_type_tokens _ hmem,
        by rw [hdrop]; exact dropEnd_append_of_endsWith hend, hguard⟩

/-- Witness for C3: the general clause applied at the concrete concatenated
name `"register_nameRO"`. -/
theorem C3_witness :
    is_type_token "RO" = true ∧ "register_name" ++ "RO" = "register_nameRO" ∧
    is_valid_name_type_separation "register_name" "RO" "register_nameRO" = true :=
  C3_name_type_separation.2.2 "register_nameRO" "register_name" "RO"
    (by decide) (by decide) (by decide)

/-! The document-boilerplate search regex `document_boilerplate_re`.  Each
alternative of the alternation is realised as a small matcher; the leading
and trailing `\b` anchors are checked against the actual neighbouring
characters.  At any position at most one alternative can match (their
leading literals differ), so trying them in source order is faithful. -/

/-- The registered-sign character `®` used inside `document_boilerplate_re`. -/
def regSign : Char := Char.ofNat 174

/-- Consume an optional `s`/`S` (the regex fragment `s?`; backtracking is
unnecessary because the follower of the optional letter can never be the
letter itself). -/
def consumeOptS : List Char → List Char
  | [] => []
  | c :: r => if lcChar c = 's' then r else c :: r

/-- Alternative `Non-Confidential`. -/
def docAlt1 (s : List Char) : Option (List Char) := eatLitCI "Non-Confidential".data s

/-- Alternative `Arm\s*®\s*Neoverse`. -/
def docAlt2 (s : List Char) : Option (List Char) := do
  let s ← eatLitCI "Arm".data s
  let s := eatSpaces0 s
  let s ← eatLit [regSign] s
  let s := eatSpaces0 s
  eatLitCI "Neoverse".data s

/-- Alternative `Technical\s+Reference\s+Manual`. -/
def docAlt3 (s : List Char) : Option (List Char) := do
  let s ← eatLitCI "Technical".data s
  let s ← eatSpaces1 s
  let s ← eatLitCI "Reference".data s
  let s ← eatSpaces1 s
  eatLitCI "Manual".data s

/-- Alternative `Document\s+ID`. -/
def docAlt4 (s : List Char) : Option (List Char) := do
  let s ← eatLitCI "Document".data s
  let s ← eatSpaces1 s
  eatLitCI "ID".data s

/-- Alternative `Issue\s+\d+`. -/
def docAlt5 (s : List Char) : Option (List Char) := do
  let s ← eatLitCI "Issue".data s
  let s ← eatSpaces1 s
  match eatRun1 (·.isDigit) s with
  | some (_, r) => some r
  | none => none

/-- Alternative `Programmers?\s+model`. -/
def docAlt6 (s : List Char) : Option (List Char) := do
  let s ← eatLitCI "Programmer".data s
  let s := consumeOptS s
  let s ← eatSpaces1 s
  eatLitCI "model".data s

/-- Alternative `®\s*Neoverse`. -/
def docAlt7 (s : List Char) : Option (List Char) := do
  let s ← eatLit [regSign] s
  let s := eatSpaces0 s
  eatLitCI "Neoverse".data s

/-- Alternative `CMN\s*S3`. -/
def docAlt8 (s : List Char) : Option (List Char) := do
  let s ← eatLitCI "CMN".data s
  let s := eatSpaces0 s
  eatLitCI "S3".data s

/-- Alternative `Coherent\s+Mesh\s+Network`. -/
def docAlt9 (s : List Char) : Option (List Char) := do
  let s ← eatLitCI "Coherent".data s
  let s ← eatSpaces1 s
  let s ← eatLitCI "Mesh".data s
  let s ← eatSpaces1 s
  eatLitCI "Network".data s

/-- Try the nine alternatives of `document_boilerplate_re` in source order. -/
def docAltAny (s : List Char) : Option (List Char) :=
  (docAlt1 s).orElse fun _ => (docAlt2 s).orElse fun _ => (docAlt3 s).orElse fun _ =>
  (docAlt4 s).orElse fun _ => (docAlt5 s).orElse fun _ => (docAlt6 s).orElse fun _ =>
  (docAlt7 s).orElse fun _ => (docAlt8 s).orElse fun _ => docAlt9 s

/-- Trailing word-boundary check after a match that ends in a word
character: the next character must not be a word character. -/
def tailBoundaryOK : List Char → Bool
  | [] => true
  | d :: _ => !isWordChar d

/-- Scan for the leftmost `document_boilerplate_re` match, tracking whether
the previous character was a word character (for the leading `\b`).
Returns the match's starting character index. -/
def docScan (prevW : Bool) (pos : Nat) : List Char → Option Nat
  | [] => none
  | c :: rest =>
    let here : Option Nat :=
      if prevW != isWordChar c then
        match docAltAny (c :: rest) with
        | some r => if tailBoundaryOK r then some pos else none
        | none => none
      else none
    match here with
    | some p => some p
    | none => docScan (isWordChar c) (pos + 1) rest

/-- `document_boilerplate_re.search(s)` as a Boolean. -/
def document_boilerplate_search (s : String) : Bool := (docScan false 0 s.data).isSome

/-- `document_boilerplate_re.split(s)[0]`: the text before the leftmost
match (the whole string when there is none). -/
def document_boilerplate_split0 (s : String) : String :=
  match docScan false 0 s.data with
  | some p => String.mk (s.data.take p)
  | none => s

/-! The sentence-opener regex `boilerplate_sentence_re` (a prefix match). -/

/-- One alternative of `boilerplate_sentence_re`: a case-insensitive word
sequence separated by `\s+`. -/
def bsWords (ws : List String) (s : List Char) : Option (List Char) :=
  match ws with
  | [] => some s
  | [w] => eatLitCI w.data s
  | w :: rest => do
    let s ← eatLitCI w.data s
    let s ← eatSpaces1 s
    bsWords rest s

/-- `boilerplate_sentence_re.match(s)` as a Boolean: one of the openers
matches at the start of the string. -/
def boilerplate_sentence_match (s : String) : Bool :=
  (bsWords ["This", "register", "is", "owned"] s.data).isSome ||
  (bsWords ["This", "register", "is", "accessible"] s.data).isSome ||
  (bsWords ["Usage", "constraint"] s.data).isSome ||
  (bsWords ["Non-secure", "space"] s.data).isSome ||
  (bsWords ["Secure", "space"] s.data).isSome ||
  (bsWords ["The", "following", "image", "shows"] s.data).isSome ||
  (match (do
      let s2 ← eatLitCI "Figure".data s.data
      let s2 ← eatSpaces1 s2
      match s2 with
      | c :: r => if c.isDigit then some r else none
      | [] => none) with
   | some _ => true
   | none => false)

/-! The reset-noise regex `RESET_NOISE_RE`
(`\b(reset\s+value|reset\s+values|see\s+individual\s+bit\s+resets?)\b`). -/

/-- Match one of the reset-noise alternatives at the current position,
including the trailing boundary; tried in source order (the plural
alternative is reached when the singular one fails its boundary). -/
def resetNoiseHere (s : List Char) : Bool :=
  (match bsWords ["reset", "value"] s with
   | some r => tailBoundaryOK r
   | none => false) ||
  (match bsWords ["reset", "values"] s with
   | some r => tailBoundaryOK r
   | none => false) ||
  (match (do
      let s2 ← bsWords ["see", "individual", "bit", "reset"] s
      pure (consumeOptS s2)) with
   | some r => tailBoundaryOK r
   | none => false)

/-- `RESET_NOISE_RE.search(s)` as a Boolean. -/
def resetNoiseScan (prevW : Bool) : List Char → Bool
  | [] => false
  | c :: rest =>
    ((prevW != isWordChar c) && resetNoiseHere (c :: rest)) ||
      resetNoiseScan (isWordChar c) rest

/-- `RESET_NOISE_RE.search(s)` on a string. -/
def reset_noise_search (s : String) : Bool := resetNoiseScan false s.data

/-! Reserved-artifact detection and repair. -/

/-- Source predicate `is_reserved_concatenation_artifact`: the name starts
with `Reserved` and the suffix matches `^\d+.*[a-zA-Z]` (equivalently: the
suffix starts with a digit and some later character is a letter, since the
`.*` can absorb everything up to the letter). -/
def is_reserved_concatenation_artifact (name : String) : Bool :=
  if !pyStartsWith name "Reserved" then false
  else if name.length ≤ 8 then false
  else
    match name.data.drop 8 with
    | [] => false
    | c :: rest => c.isDigit && rest.any isLetterChar

/-- Source function `clean_reserved_name`. -/
def clean_reserved_name (name : String) : String :=
  if name = "ReservedReserved" then "Reserved"
  else if name = "RESRES" ∨ name = "IMPLIMPLEM" then "Reserved"
  else name

/-- Regex `\. [A-Z]` searched anywhere in the string (multi-sentence
detection). -/
def multiSentence : List Char → Bool
  | a :: b :: c :: rest =>
    (a = '.' && b = ' ' && 'A' ≤ c && c ≤ 'Z') || multiSentence (b :: c :: rest)
  | _ => false

/-! The row records produced by the Table Reconstructor. -/

/-- A register-summary row (`rows.append({...})` in
`parse_register_tables`). -/
structure RegisterRow where
  table : String
  offset : String
  name : String
  type : String
  description : String
deriving DecidableEq, Repr

/-- An attribute-table row (`rows.append({...})` in
`parse_attribute_tables`). -/
structure AttributeRow where
  table : String
  register_name : String
  bits : String
  field_name : String
  description : String
  type : String
  reset : String
deriving DecidableEq, Repr

/-! Artifact Repair: `clean_rows`. -/

/-- The sequence of name checks in `clean_rows` whose failure drops the
row (each is a `continue` in the source loop). -/
def nameChecksDrop (nm : String) : Bool :=
  let lower := pyLower nm
  let stripped := pyStrip (pyStripChars ['"'] nm)
  (lower = "non-confidential" || lower = "usage constraints" || lower = "usage constraint") ||
  document_boilerplate_search nm ||
  boilerplate_sentence_match nm ||
  EXPLICIT_BOILERPLATE_STRINGS.contains stripped ||
  pyStartsWith stripped "This register is owned in the Non-secure space" ||
  decide (120 < nm.length) ||
  multiSentence nm.data ||
  is_reserved_concatenation_artifact nm

/-- Unicode-dash normalisation of a field value (`clean_rows` key loop). -/
def fixDash (v : String) : String :=
  if v = "‑" ∨ v = "−" then "-" else v

/-- Unicode-dash plus empty-field normalisation (applied to the `type`,
`reset` and `description` keys). -/
def fixDashEmpty (v : String) : String :=
  let v := fixDash v
  if v = "" then "-" else v

/-- `clean_rows` applied to one register row (the loop body; `none` means
the row is dropped). -/
def cleanRowReg (row : RegisterRow) : Option RegisterRow :=
  if nameChecksDrop row.name then none
  else
    let sep := separate_name_and_type row.name
    let nm := clean_reserved_name sep.1
    let ty := if sep.2 ≠ "" ∧ (row.type = "" ∨ row.type = "-") then sep.2 else row.type
    let nm2 := fixDash nm
    let ty2 := fixDashEmpty ty
    let desc := fixDashEmpty row.description
    let desc2 := if nm2 = "Reserved" ∧ (desc = "" ∨ desc = "-")
      then "Reserved for future use" else desc
    some { table := fixDash row.table, offset := fixDash row.offset,
           name := nm2, type := ty2, description := desc2 }

/-- `clean_rows` applied to one attribute row. -/
def cleanRowAttr (row : AttributeRow) : Option AttributeRow :=
  if nameChecksDrop row.field_name then none
  else
    let sep := separate_name_and_type row.field_name
    let nm := clean_reserved_name sep.1
    let ty := if sep.2 ≠ "" ∧ (row.type = "" ∨ row.type = "-") then sep.2 else row.type
    let nm2 := fixDash nm
    let ty2 := fixDashEmpty ty
    let reset2 := fixDashEmpty row.reset
    let desc := fixDashEmpty row.description
    let desc2 := if nm2 = "Reserved" ∧ (desc = "" ∨ desc = "-")
      then "Reserved for future use" else desc
    some { table := fixDash row.table, register_name := fixDash row.register_name,
           bits := fixDash row.bits, field_name := nm2,
           description := desc2, type := ty2, reset := reset2 }

/-- `clean_rows(rows, is_attr=False)`. -/
def clean_rows_reg (rows : List RegisterRow) : List RegisterRow :=
  rows.filterMap cleanRowReg

/-- `clean_rows(rows, is_attr=True)`. -/
def clean_rows_attr (rows : List AttributeRow) : List AttributeRow :=
  rows.filterMap cleanRowAttr

/-- C5: Artifact Repair drops every row whose name is a Reserved
concatenation artifact (`Reserved` followed directly by digits and later a
letter), keeps rows named exactly `Reserved` and rows named with a
`Reserved_` underscore suffix, and rewrites the name `ReservedReserved`
to `Reserved` instead of dropping that row. -/
theorem C5_reserved_policy :
    (∀ row : RegisterRow, is_reserved_concatenation_artifact row.name = true →
      cleanRowReg row = none) ∧
    is_reserved_concatenation_artifact "Reserved6332node_id3116node_type150" = true ∧
    cleanRowReg { table := "T", offset := "0x0", name := "Reserved",
                  type := "RO", description := "-" } =
      some { table := "T", offset := "0x0", name := "Reserved",
             type := "RO", description := "Reserved for future use" } ∧
    cleanRowReg { table := "T", offset := "0x8", name := "Reserved_field",
                  type := "RO", description := "d" } =
      some { table := "T", offset := "0x8", name := "Reserved_field",
             type := "RO", description := "d" } ∧
    cleanRowReg { table := "T", offset := "0x10", name := "ReservedReserved",
                  type := "RO", description := "d" } =
      some { table := "T", offset := "0x10", name := "Reserved",
             type := "RO", description := "d" } := by
  refine ⟨?_, by decide, by decide, by decide, by decide⟩
  intro row h
  have hdrop : nameChecksDrop row.name = true := by
    unfold nameChecksDrop
    simp [h]
  simp [cleanRowReg, hdrop]

/-- Witness for C5: the universal clause applied to a concrete
artifact-named row. -/
theorem C5_witness :
    cleanRowReg { table := "T", offset := "0x18",
                  name := "Reserved6332node_id3116node_type150",
                  type := "RO", description := "d" } = none :=
  C5_reserved_policy.1 _ (by decide)

theorem type_token_ne_empty_dash {t : String} (h : is_type_token t = true) :
    t ≠ "" ∧ t ≠ "-" ∧ t ≠ "‑" ∧ t ≠ "−" := by
  have hmem : t ∈ TYPE_TOKENS := by
    simpa [is_type_token] using h
  fin_cases hmem <;> refine ⟨by decide, by decide, by decide, by decide⟩

/-- C10: a `type` field that already holds a recognized access token is
never overwritten by `clean_rows`: a token extracted from a concatenated
name replaces the `type` field only when that field was empty or `"-"`. -/
theorem C10_type_frame :
    ∀ (row row' : RegisterRow), is_type_token row.type = true →
      cleanRowReg row = some row' → row'.type = row.type := by
  intro row row' htok hclean
  obtain ⟨hne, hnd, hu1, hu2⟩ := type_token_ne_empty_dash htok
  unfold cleanRowReg at hclean
  by_cases hdrop : nameChecksDrop row.name = true
  · simp [hdrop] at hclean
  · simp only [Bool.not_eq_true] at hdrop
    simp only [hdrop, Bool.false_eq_true, if_false] at hclean
    have hty : (if (separate_name_and_type row.name).2 ≠ "" ∧
        (row.type = "" ∨ row.type = "-") then (separate_name_and_type row.name).2
        else row.type) = row.type := by
      rw [if_neg]
      rintro ⟨-, h | h⟩
      · exact hne h
      · exact hnd h
    rw [hty] at hclean
    have hproj : row'.type = fixDashEmpty row.type := by
      cases hclean
      rfl
    have h2 : fixDashEmpty row.type = row.type := by
      simp only [fixDashEmpty, fixDash]
      rw [if_neg (show ¬(row.type = "‑" ∨ row.type = "−") from fun hc => hc.elim hu1 hu2),
        if_neg hne]
    rw [hproj, h2]

/-- Witness for C10: applied at a concrete row whose `type` is `RW` and
whose name carries a concatenated token. -/
theorem C10_witness :
    is_type_token "RW" = true ∧
    cleanRowReg { table := "T", offset := "0x20", name := "some_registerRO",
                  type := "RW", description := "d" } =
      some { table := "T", offset := "0x20", name := "some_register",
             type := "RW", description := "d" } ∧
    ({ table := "T", offset := "0x20", name := "some_register",
       type := "RW", description := "d" } : RegisterRow).type =
      ({ table := "T", offset := "0x20", name := "some_registerRO",
         type := "RW", description := "d" } : RegisterRow).type :=
  ⟨by decide, by decide,
    C10_type_frame _ _ (by decide) (by decide)⟩

/-! Line classifiers: the token regexes of the source
(`heading_re`, `section_re`, `offset_re`, `bits_re`, `range_re`,
`addr_line_re`) realised as matchers. -/

/-- The apostrophe character of the `16'h` Verilog-style hex marker. -/
def tick : Char := Char.ofNat 39

/-- The hex marker alternation `(?:0x|16\'h)`, tried in source order. -/
def hexHead (s : List Char) : Option (List Char) :=
  match eatLit ['0', 'x'] s with
  | some r => some r
  | none => eatLit ['1', '6', tick, 'h'] s

/-- `heading_re`: `^Table\s+\d+-\d+:\s+.*$` (case-insensitive). -/
def isHeading (s : String) : Bool :=
  (do
    let r ← eatLitCI "Table".data s.data
    let r ← eatSpaces1 r
    let (_, r) ← eatRun1 Char.isDigit r
    let r ← eatLit ['-'] r
    let (_, r) ← eatRun1 Char.isDigit r
    let r ← eatLit [':'] r
    eatSpaces1 r).isSome

/-- `section_re`: `^\d+(\.\d+)+` — digits then at least one `.digits`
group (a prefix match, so one group decides). -/
def isSectionHeading (s : String) : Bool :=
  match eatRun1 Char.isDigit s.data with
  | none => false
  | some (_, rest) =>
    match rest with
    | '.' :: r2 => (eatRun1 Char.isDigit r2).isSome
    | _ => false

/-- `offset_re`: `^(?:0x|16\'h)[0-9A-Fa-f]+$`. -/
def is_offset_token (s : String) : Bool :=
  match hexHead s.data with
  | none => false
  | some r =>
    match eatRun1 isHexChar r with
    | some (_, []) => true
    | _ => false

/-- `bits_re` core: consume `\[\d+(?::\d+)?\]`, returning the matched text
and the rest. -/
def bitsTokenEat (s : List Char) : Option (String × List Char) :=
  match s with
  | '[' :: r =>
    match eatRun1 Char.isDigit r with
    | none => none
    | some (d1, r1) =>
      match r1 with
      | ':' :: r2 =>
        (match eatRun1 Char.isDigit r2 with
         | none => none
         | some (d2, r3) =>
           match r3 with
           | ']' :: r4 => some (String.mk ('[' :: (d1 ++ ':' :: (d2 ++ [']']))), r4)
           | _ => none)
      | ']' :: r2 => some (String.mk ('[' :: (d1 ++ [']'])), r2)
      | _ => none
  | _ => none

/-- `bits_re`: `^\[\d+(?::\d+)?\]$`. -/
def is_bits_token (s : String) : Bool :=
  match bitsTokenEat s.data with
  | some (_, []) => true
  | _ => false

/-- Closing part `\s*\}$` of `range_re`. -/
def rangeClose (s : List Char) : Bool :=
  match eatSpaces0 s with
  | ['}'] => true
  | _ => false

/-- `range_re`: `^\{\s*\d+(?:\s*-\s*\d+)?\s*\}$`. -/
def is_range_token (s : String) : Bool :=
  match s.data with
  | '{' :: r =>
    (match eatRun1 Char.isDigit (eatSpaces0 r) with
     | none => false
     | some (_, r1) =>
       match eatSpaces0 r1 with
       | '-' :: r2 =>
         (match eatRun1 Char.isDigit (eatSpaces0 r2) with
          | none => false
          | some (_, r3) => rangeClose r3)
       | r2 => rangeClose r2)
  | _ => false

/-- Source predicate `is_addr_sep`. -/
def is_addr_sep (s : String) : Bool := ADDR_SEPARATORS.contains s

/-- Source predicate `is_addr_token`. -/
def is_addr_token (s : String) : Bool :=
  is_offset_token s || is_range_token s || is_addr_sep s

/-- Non-anchored brace-range token of `addr_token_re`
(`\{\s*\d+(?:\s*-\s*\d+)?\s*\}`), returning the rest on success. -/
def braceRangeEat (s : List Char) : Option (List Char) :=
  match s with
  | '{' :: r =>
    (match eatRun1 Char.isDigit (eatSpaces0 r) with
     | none => none
     | some (_, r1) =>
       match eatSpaces0 r1 with
       | '-' :: r2 =>
         (match eatRun1 Char.isDigit (eatSpaces0 r2) with
          | none => none
          | some (_, r3) =>
            match eatSpaces0 r3 with
            | '}' :: r4 => some r4
            | _ => none)
       | r2 =>
         match eatSpaces0 r2 with
         | '}' :: r4 => some r4
         | _ => none)
  | _ => none

/-- Possible rests after one `addr_token_re` token at this position.  The
hex alternative can stop after any non-empty digit prefix (the regex
engine backtracks through the greedy `[0-9A-Fa-f]+`), so all split points
are produced, longest first. -/
def addrTokSplits (s : List Char) : List (List Char) :=
  match s with
  | '{' :: _ => (braceRangeEat s).toList
  | ':' :: r => [r]
  | ',' :: r => [r]
  | '–' :: r => [r]
  | '-' :: r => [r]
  | _ =>
    match hexHead s with
    | some r =>
      let run := r.takeWhile isHexChar
      (List.range run.length).reverse.map (fun k => r.drop (k + 1))
    | none => []

/-- `addr_line_re` body: `^(?:\s*TOK\s*)+$` with backtracking across the
token split points; the fuel is an upper bound on the number of tokens
(each consumes at least one character). -/
def addrLineGo : Nat → List Char → Bool
  | 0, _ => false
  | fuel + 1, s =>
    let s := eatSpaces0 s
    (addrTokSplits s).any (fun r =>
      let r2 := eatSpaces0 r
      r2.isEmpty || addrLineGo fuel r2)

/-- `is_addr_line`: the whole line is address tokens and separators. -/
def is_addr_line (s : String) : Bool := addrLineGo (s.data.length + 1) s.data

/-- Regex `^\d+-$` (digits-hyphen artifact names). -/
def digitsHyphenWhole (s : String) : Bool :=
  match eatRun1 Char.isDigit s.data with
  | some (_, ['-']) => true
  | _ => false

/-- Regex `^\d+-` as a prefix match (sub-bit description fragments). -/
def digitHyphenStart (s : String) : Bool :=
  match eatRun1 Char.isDigit s.data with
  | some (_, '-' :: _) => true
  | _ => false

/-- Regex `^[\d\-]+$`. -/
def digitsHyphensOnly (s : String) : Bool :=
  !s.data.isEmpty && s.data.all (fun c => c.isDigit || c = '-')

/-- Source predicate `is_probable_name` (the reject-list for register
names), with the checks in source order. -/
def is_probable_name (s : String) : Bool :=
  if s = "" then false else
  let sStripped := pyStrip (pyStripChars ['"'] s)
  if EXPLICIT_BOILERPLATE_STRINGS.contains sStripped then false
  else if pyStartsWith sStripped "This register is owned in the Non-secure space" then false
  else
  let low := pyLower s
  if HEADER_LABELS.contains low then false
  else if BAD_NAME_STARTS.any (fun p => pyStartsWith low p) then false
  else if reset_noise_search s then false
  else if is_addr_line s || is_addr_token s || isHeading s || isSectionHeading s ||
      is_type_token s then false
  else if pyStartsWith s "__PAGE_BREAK_" then false
  else if document_boilerplate_search s then false
  else if boilerplate_sentence_match s then false
  else if 120 < s.length then false
  else if is_reserved_concatenation_artifact s then false
  else if s = "Arm" then false
  else if multiSentence s.data then false
  else if s = "ReservedReserved" then true
  else if s = "+" ∨ s = "*" ∨ s = "/" ∨ s = "%" then true
  else if digitsHyphenWhole s then false
  else if s = "-" ∨ digitsHyphensOnly s then false
  else s.data.any isIdentHead

/-- Source predicate `is_name_continuation` (wrapped name fragments). -/
def is_name_continuation (s : String) : Bool :=
  if s = "" || pyStartsWith s "__PAGE_BREAK_" then false
  else if is_type_token s || isHeading s || isSectionHeading s then false
  else
  let low := pyLower s
  if HEADER_LABELS.contains low || BAD_NAME_STARTS.any (fun p => pyStartsWith low p) then false
  else if reset_noise_search s then false
  else !s.data.isEmpty && s.data.all isIdentChar

/-! Attribute-table parsing helpers. -/

/-- Field-name part of the attribute row regex:
`[a-zA-Z_][a-zA-Z0-9_]*(?:#\{[^}]+\}[a-zA-Z0-9_]*)?`.  When the optional
template group cannot complete, the regex falls back to the bare
identifier (the group is optional). -/
def fieldNameEat (s : List Char) : Option (List Char × List Char) :=
  match s with
  | c :: r =>
    if isIdentHead c then
      let run := r.takeWhile isIdentChar
      let r2 := r.dropWhile isIdentChar
      match r2 with
      | '#' :: '{' :: r3 =>
        let inner := r3.takeWhile (fun d => d ≠ '}')
        let r4 := r3.dropWhile (fun d => d ≠ '}')
        if inner.isEmpty then some (c :: run, r2)
        else
          (match r4 with
           | '}' :: r5 =>
             let run2 := r5.takeWhile isIdentChar
             some (c :: (run ++ '#' :: '{' :: (inner ++ '}' :: run2)), r5.dropWhile isIdentChar)
           | _ => some (c :: run, r2))
      | _ => some (c :: run, r2)
    else none
  | [] => none

/-- First attribute row regex (template-expression field names):
`^(\[\d+(?::\d+)?\])\s+([a-zA-Z_][a-zA-Z0-9_]*(?:#\{[^}]+\}[a-zA-Z0-9_]*)?)\s+(.*?)$`,
returning `(bits, field_name, remaining.strip())`. -/
def attrMatchTemplate (s : List Char) : Option (String × String × String) := do
  let (bits, r) ← bitsTokenEat s
  let r ← eatSpaces1 r
  let (fieldCs, r2) ← fieldNameEat r
  let r3 ← eatSpaces1 r2
  pure (bits, String.mk fieldCs, pyStrip (String.mk r3))

/-- Fallback attribute row regex: `^(\[\d+(?::\d+)?\])\s+(\S+)(?:\s+(.*?))?$`,
returning `(bits, field_name, remaining.strip())` (empty when the optional
tail group is absent). -/
def attrMatchSimple (s : List Char) : Option (String × String × String) := do
  let (bits, r) ← bitsTokenEat s
  let r ← eatSpaces1 r
  let (field, r2) ← eatRun1 (fun c => !pySpace c) r
  pure (bits, String.mk field, pyStrip (String.mk r2))

/-- The attribute row match of the source: the template regex first, the
simple one as fallback. -/
def attrMatchNew (s : List Char) : Option (String × String × String) :=
  match attrMatchTemplate s with
  | some r => some r
  | none => attrMatchSimple s

/-- Sub-bit skip test of the single-line attribute branch. -/
def subBitSkipNew (bits field : String) : Bool :=
  let bv := pyStripChars ['[', ']'] bits
  (!containsSub bv ":") && (!bv.data.isEmpty) && bv.data.all Char.isDigit &&
    (digitHyphenStart field ||
      ["snoop", "allocate", "cacheable", "device", "ewa"].contains (pyLower field))

/-- Last `\b token \b` occurrence of one access token in the text
(`re.finditer` with word boundaries; matches cannot overlap because each
needs non-word characters on both sides). -/
def tokLastOcc (tok : List Char) : Bool → Nat → List Char → Option Nat → Option Nat
  | _, _, [], best => best
  | prevW, pos, c :: rest, best =>
    let best' :=
      if prevW != isWordChar c then
        match eatLit tok (c :: rest) with
        | some r => if tailBoundaryOK r then some pos else best
        | none => best
      else best
    tokLastOcc tok (isWordChar c) (pos + 1) rest best'

/-- Source function `find_type_token_position`: the rightmost
word-bounded access-token occurrence, scanning tokens longest-first and
keeping a strictly more-to-the-right start. -/
def find_type_token_position (text : String) : Option (Nat × Nat × String) :=
  SORTED_TYPE_TOKENS.foldl (fun best tok =>
    match tokLastOcc tok.data false 0 text.data none with
    | some p =>
      (match best with
       | none => some (p, p + tok.length, tok)
       | some (bp, be, bt) => if bp < p then some (p, p + tok.length, tok) else some (bp, be, bt))
    | none => best) none

/-- Regex `^(0x[0-9a-fA-F]+|0b[01]+|\d+|-)$`. -/
def resetLitSimple (s : String) : Bool :=
  (match eatLit ['0', 'x'] s.data with
   | some r => (match eatRun1 isHexChar r with
     | some (_, []) => true
     | _ => false)
   | none => false) ||
  (match eatLit ['0', 'b'] s.data with
   | some r => (match eatRun1 (fun c => c = '0' || c = '1') r with
     | some (_, []) => true
     | _ => false)
   | none => false) ||
  (match eatRun1 Char.isDigit s.data with
   | some (_, []) => true
   | _ => false) ||
  s = "-"

/-- Regex `^(0x[0-9a-fA-F]+|0b[01]+|\d+|Configuration dependent|Implementation defined|-)$`. -/
def resetLitFull (s : String) : Bool :=
  resetLitSimple s || s = "Configuration dependent" || s = "Implementation defined"

/-- Value of a binary digit list (Python `int(x, 2)`). -/
def binToNat (l : List Char) : Nat :=
  l.foldl (fun a c => a * 2 + (if c = '1' then 1 else 0)) 0

/-- Lowercase hexadecimal rendering of a natural number
(Python `f"0x{v:x}"`, with the source's explicit `0x0` for zero). -/
def natHexStr (n : Nat) : String :=
  if n = 0 then "0x0" else "0x" ++ String.mk (toDigitsAux 16 n n)

/-- First success of `f` over a list. -/
def firstSome {α β : Type} (f : α → Option β) : List α → Option β
  | [] => none
  | a :: rest =>
    match f a with
    | some b => some b
    | none => firstSome f rest

/-- Reset-literal alternation `(0b[01]+|0x[0-9A-Fa-f]+|-)` of the embedded
type/reset pattern, returning the matched literal and the rest (the three
alternatives have distinct prefixes, so no backtracking arises). -/
def embResetEat (s : List Char) : Option (String × List Char) :=
  match eatLit ['0', 'b'] s with
  | some r =>
    (match eatRun1 (fun c => c = '0' || c = '1') r with
     | some (run, r2) => some ("0b" ++ String.mk run, r2)
     | none => none)
  | none =>
    match eatLit ['0', 'x'] s with
    | some r =>
      (match eatRun1 isHexChar r with
       | some (run, r2) => some ("0x" ++ String.mk run, r2)
       | none => none)
    | none =>
      match s with
      | '-' :: r => some ("-", r)
      | _ => none

/-- One attempt of the `extract_embedded_type_and_reset` pattern
`\s+(tok...)\s+(0b[01]+|0x[0-9A-Fa-f]+|-)\s*$` at the current position:
each token alternative is tried (longest first, as the source joins the
pre-sorted list) with the full continuation. -/
def embAtPos (s : List Char) : Option (String × String) := do
  let s1 ← eatSpaces1 s
  firstSome (fun tok => do
    let r ← eatLit (String.data tok) s1
    let r ← eatSpaces1 r
    let (lit, r2) ← embResetEat r
    if (eatSpaces0 r2).isEmpty then pure (tok, lit) else none) SORTED_TYPE_TOKENS

/-- Leftmost-position scan for the embedded type/reset pattern. -/
def embScan (pos : Nat) : List Char → Option (Nat × String × String)
  | [] => none
  | c :: rest =>
    match embAtPos (c :: rest) with
    | some (tok, lit) => some (pos, tok, lit)
    | none => embScan (pos + 1) rest

/-- Source function `extract_embedded_type_and_reset`: recover a trailing
`<access-token> <reset-literal>` from a description, converting binary
literals to hexadecimal. -/
def extract_embedded_type_and_reset (description : String) : String × String × String :=
  if description = "" then ("", "", description) else
  match embScan 0 description.data with
  | some (p, tok, lit) =>
    let hexLit :=
      if pyStartsWith lit "0b" then natHexStr (binToNat (lit.data.drop 2))
      else lit
    (tok, hexLit, pyStrip (String.mk (description.data.take p)))
  | none => ("", "", description)

/-- Leftmost `0b[01]` occurrence at index at least one
(the lazy `^(.+?)(0b[01]+)` split point). -/
def binAtHead : List Char → Bool
  | '0' :: 'b' :: d :: _ => d = '0' || d = '1'
  | _ => false

def binFind (pos : Nat) : List Char → Option Nat
  | [] => none
  | c :: rest =>
    if 1 ≤ pos && binAtHead (c :: rest) then some pos
    else binFind (pos + 1) rest

/-- First space outside `{...}` template braces (the split scan of
`separate_field_name_from_description`), mirroring the source's depth and
flag bookkeeping. -/
def braceSplitPos : Int → Bool → Nat → List Char → Option Nat
  | _, _, _, [] => none
  | depth, inB, pos, c :: rest =>
    if c = '{' then braceSplitPos (depth + 1) true (pos + 1) rest
    else if c = '}' then
      braceSplitPos (depth - 1) (if depth - 1 = 0 then false else inB) (pos + 1) rest
    else if c = ' ' ∧ inB = false then some pos
    else braceSplitPos depth inB (pos + 1) rest

/-- Source function `separate_field_name_from_description`. -/
def separate_field_name_from_description (nameStr : String) : String × String :=
  if nameStr = "" then ("", "") else
  let ns := pyStrip nameStr
  match binFind 0 ns.data with
  | some k =>
    let field := String.mk (ns.data.take k)
    let after := ns.data.drop (k + 2)
    let run := after.takeWhile (fun c => c = '0' || c = '1')
    let binval := "0b" ++ String.mk run
    let rest := pyStrip (String.mk (after.dropWhile (fun c => c = '0' || c = '1')))
    (field, if rest ≠ "" then binval ++ " " ++ rest else binval)
  | none =>
    match braceSplitPos 0 false 0 ns.data with
    | some pos =>
      if 0 < pos then (String.mk (ns.data.take pos), String.mk (ns.data.drop (pos + 1)))
      else (ns, "")
    | none => (ns, "")

/-- Source function `infer_missing_type_and_reset`: the keyword cascade
for fields with no parsed type/reset. -/
def infer_missing_type_and_reset (field_name table_name : String) : String × String :=
  if field_name = "" then ("RW", "0x0") else
  let f := pyLower field_name
  let t := pyLower table_name
  if containsSub f "ierr" || containsSub f "serr" || containsSub f "errstatus" ||
      containsSub f "error" then ("RO", "-")
  else if containsSub f "pmu_event" && containsSub f "_id" then ("RW", "0x0")
  else if containsSub f "num_" || containsSub f "_crds" || containsSub f "credits" then
    ("RW", "0x0")
  else if containsSub f "_ctl" || containsSub f "_cfg" || containsSub f "_config" ||
      containsSub f "_control" then ("RW", "0x0")
  else if containsSub f "_sel" || containsSub f "_en" || containsSub f "_enable" ||
      containsSub f "_disable" then ("RW", "0x0")
  else if containsSub f "memory_attributes" || containsSub f "capabilities" ||
      containsSub f "_cap" then ("RO", "-")
  else if containsSub f "offset" || containsSub f "address" || containsSub f "_addr" then
    ("RW", "0x0")
  else if containsSub f "registeroffset" then ("RO", "-")
  else if containsSub f "archver" || containsSub f "archrevision" ||
      containsSub f "archpart" then ("RO", "-")
  else if containsSub f "status" then ("RO", "0x0")
  else if f = "change" then ("RO", "0x0")
  else if containsSub f "cache" || containsSub f "allocate" || containsSub f "cacheable" then
    ("RW", "0x0")
  else if containsSub t "_ctl" || containsSub t "_cfg" || containsSub t "_config" then
    ("RW", "0x0")
  else ("RW", "0x0")

/-! The attribute-table scanner `parse_attribute_tables`, embedded as a
fuel-indexed loop over the line list.  The fuel only bounds the recursion;
claim C9 proves that `length + 1` always suffices. -/

/-- Indexed line access (`lines[i]`). -/
def getLine (lines : List String) (i : Nat) : String := lines.getD i ""

/-- Column-header pattern `^Bits\s+Name\s+`. -/
def bitsNameHeader (s : String) : Bool :=
  (do
    let r ← eatLit "Bits".data s.data
    let r ← eatSpaces1 r
    let r ← eatLit "Name".data r
    eatSpaces1 r).isSome

/-- Register-name extraction from an attribute-table heading:
`^Table\s+\d+-\d+:\s+(\S+)\s+attributes` (case-insensitive). -/
def attrHeadingRegName (s : String) : Option String := do
  let r ← eatLitCI "Table".data s.data
  let r ← eatSpaces1 r
  let (_, r) ← eatRun1 Char.isDigit r
  let r ← eatLit ['-'] r
  let (_, r) ← eatRun1 Char.isDigit r
  let r ← eatLit [':'] r
  let r ← eatSpaces1 r
  let (nm, r2) ← eatRun1 (fun c => !pySpace c) r
  let r3 ← eatSpaces1 r2
  let _ ← eatLitCI "attributes".data r3
  pure (String.mk nm)

/-- Description-column continuation collection of the single-line branch:
gather following lines indented by at least 25 columns. -/
def attrContLoop (lines : List String) : Nat → Nat → List String → Nat × List String
  | 0, j, acc => (j, acc)
  | fuel + 1, j, acc =>
    if j < lines.length then
      let next_line := getLine lines j
      let ns := pyStrip next_line
      if ns ≠ "" ∧ ¬pyStartsWith ns "[" ∧ isHeading ns = false ∧ bitsNameHeader ns = false ∧
          ¬pyStartsWith ns "__PAGE_BREAK_" ∧ HEADER_LABELS.contains (pyLower ns) = false then
        let indent := next_line.length - (pyLStrip next_line).length
        if 25 ≤ indent then attrContLoop lines fuel (j + 1) (acc ++ [ns])
        else (j, acc)
      else (j, acc)
    else (j, acc)

/-- Type-token anchoring of the single-line branch: split the collected
text at the rightmost access token into description, type and reset,
folding a non-literal second reset token back into the description. -/
def attrParseRest (fullText : String) : String × String × String :=
  if fullText = "" then ("", "-", "-") else
  match find_type_token_position fullText with
  | some (st, en, tok) =>
    let desc := pyStrip (String.mk (fullText.data.take st))
    let resetText := pyStrip (String.mk (fullText.data.drop en))
    if resetText ≠ "" then
      match pySplitWS resetText with
      | [] => (desc, tok, "-")
      | r :: extra =>
        if extra ≠ [] then
          let extraDesc := " ".intercalate extra
          if resetLitSimple extraDesc = false then
            ((if desc ≠ "" then desc ++ " " ++ extraDesc else extraDesc), tok, r)
          else (desc, tok, r)
        else (desc, tok, r)
    else (desc, tok, "-")
  | none => (fullText, "-", "-")

/-- Reset-value validation and auto-correction of the single-line branch
(`parse_attribute_tables` lines 1271-1292), returning the possibly grown
description and the corrected reset. -/
def validateReset (desc reset : String) : String × String :=
  if reset ≠ "" ∧ reset ≠ "-" ∧ reset ≠ "0" ∧ reset ≠ "1" then
    if reset = "Configuration" then (desc, "Configuration dependent")
    else if reset = "Implementation" then (desc, "Implementation defined")
    else if reset = "dependent" ∨ reset = "defined" then
      ((if desc ≠ "" then desc ++ " " ++ reset else reset), "-")
    else if resetLitFull reset = false then
      if pyStartsWith reset "0X" then (desc, "0x" ++ reset.drop 2)
      else if pyStartsWith reset "0B" then (desc, "0b" ++ reset.drop 2)
      else ((if desc ≠ "" then desc ++ " " ++ reset else reset), "-")
    else (desc, reset)
  else (desc, reset)

/-- Header/page-break skip loop shared by the multi-line branch. -/
def skipHdrLoop (lines : List String) : Nat → Nat → Nat
  | 0, i => i
  | fuel + 1, i =>
    if i < lines.length ∧
        (HEADER_LABELS.contains (pyLower (getLine lines i)) ∨
          pyStartsWith (getLine lines i) "__PAGE_BREAK_") then
      skipHdrLoop lines fuel (i + 1)
    else i

/-- Wrapped-fragment joining loop (`is_name_continuation` consumers); both
source branches concatenate without a separator. -/
def nameContLoop (lines : List String) : Nat → Nat → String → Nat × String
  | 0, i, name => (i, name)
  | fuel + 1, i, name =>
    if i < lines.length ∧ is_name_continuation (getLine lines i) then
      nameContLoop lines fuel (i + 1) (name ++ getLine lines i)
    else (i, name)

/-- Field-name-with-following-space shape
`^[A-Za-z_][A-Za-z0-9_#{}]*(?:\[[^\]]*\])?\s` used by the multi-line
branch to pull a name out of the first description line. -/
def fieldNameSpaceShape (s : String) : Bool :=
  match s.data with
  | c :: r =>
    if isIdentHead c then
      let r2 := r.dropWhile (fun d => isIdentChar d || d = '#' || d = '{' || d = '}')
      match r2 with
      | '[' :: r3 =>
        (match r3.dropWhile (fun d => d ≠ ']') with
         | ']' :: d :: _ => pySpace d
         | _ => false)
      | d :: _ => pySpace d
      | [] => false
    else false
  | [] => false

/-- Description-accumulation loop of the multi-line branch, which may also
capture a missing field name from the first description line. -/
def oldDescLoop (lines : List String) : Nat → Nat → String → List String →
    Nat × String × List String
  | 0, i, name, acc => (i, name, acc)
  | fuel + 1, i, name, acc =>
    if i < lines.length then
      let t := getLine lines i
      if is_type_token t || isHeading t || isSectionHeading t then (i, name, acc)
      else if HEADER_LABELS.contains (pyLower t) || pyStartsWith t "__PAGE_BREAK_" then
        oldDescLoop lines fuel (i + 1) name acc
      else if is_bits_token t && !acc.isEmpty then (i, name, acc)
      else if is_addr_line t || is_offset_token t || is_range_token t || is_addr_token t then
        (i, name, acc)
      else if BAD_NAME_STARTS.any (fun p => pyStartsWith (pyLower t) p) ||
          reset_noise_search t then (i, name, acc)
      else if name = "" ∧ acc = [] then
        if fieldNameSpaceShape t then oldDescLoop lines fuel (i + 1) t acc
        else oldDescLoop lines fuel (i + 1) name (acc ++ [t])
      else oldDescLoop lines fuel (i + 1) name (acc ++ [t])
    else (i, name, acc)

/-- Sub-bit skip test at a bare bits token (multi-line branch). -/
def subBitSkipOld (lines : List String) (i : Nat) (bits : String) : Bool :=
  (!containsSub bits ":") && (!bits.data.isEmpty) && bits.data.all Char.isDigit &&
    (i + 1 < lines.length &&
      (let nl := pyStrip (getLine lines (i + 1))
       digitHyphenStart nl ||
         (nl ≠ "" && nl.length < 30 && is_probable_name nl = false) ||
         ["snoop", "allocate", "cacheable", "device", "ewa"].any
           (fun p => pyStartsWith (pyLower nl) p)))

/-- One multi-line (`is_bits_token`) branch of `parse_attribute_tables`:
from the bare bits token at `i`, consume name, description, type and
reset lines and build the row.  Returns the new index and the row. -/
def oldBitsBranch (lines : List String) (i : Nat) (table regName : Option String) :
    Nat × AttributeRow :=
  let N := lines.length
  let bits := pyStripChars ['[', ']'] (getLine lines i)
  let i1 := skipHdrLoop lines (N - (i + 1) + 1) (i + 1)
  let (i2, name0) :=
    if i1 < N ∧ is_probable_name (getLine lines i1) then
      nameContLoop lines (N - (i1 + 1) + 1) (i1 + 1) (pyStrip (getLine lines i1))
    else (i1, "")
  let (i3, name1, descParts) := oldDescLoop lines (N - i2 + 1) i2 name0 []
  let (i4, typ, reset) :=
    if i3 < N ∧ is_type_token (getLine lines i3) then
      let ty := pyStrip (getLine lines i3)
      let i3a := skipHdrLoop lines (N - (i3 + 1) + 1) (i3 + 1)
      if i3a < N ∧ ¬(is_bits_token (getLine lines i3a) ∨ isHeading (getLine lines i3a) ∨
          isSectionHeading (getLine lines i3a)) then
        let cand := pyStrip (getLine lines i3a)
        if ¬(BAD_NAME_STARTS.any (fun p => pyStartsWith (pyLower cand) p) ∨
            reset_noise_search cand = true) then
          (i3a + 1, ty, cand)
        else (i3a + 1, ty, "")
      else (i3a, ty, "")
    else (i3, "", "")
  let sep := separate_field_name_from_description name1
  let field_name := sep.1
  let extracted_desc := sep.2
  let joined := pyStrip (" ".intercalate descParts)
  let final_description :=
    if joined = "" ∧ extracted_desc ≠ "" then extracted_desc
    else if extracted_desc ≠ "" ∧ joined ≠ "" ∧ ¬pyStartsWith joined extracted_desc then
      extracted_desc ++ " " ++ joined
    else if joined = "" ∧ extracted_desc = "" ∧ descParts = [] then ""
    else joined
  let emb := extract_embedded_type_and_reset final_description
  let extracted_type := emb.1
  let extracted_reset := emb.2.1
  let cleaned_description := emb.2.2
  let final_type := if typ ≠ "" ∧ typ ≠ "-" then typ else extracted_type
  let final_reset0 := if reset ≠ "" ∧ reset ≠ "-" then reset else extracted_reset
  let final_description2 := if extracted_type ≠ "" then cleaned_description
    else final_description
  let (final_type2, final_reset2) :=
    if final_type = "" ∨ final_type = "-" then
      let inf := infer_missing_type_and_reset
        (if field_name ≠ "" then field_name else name1) (table.getD "")
      if inf.2 = "" ∨ inf.2 = "-" then
        (inf.1, if extracted_reset ≠ "" then extracted_reset else inf.2)
      else (inf.1, inf.2)
    else (final_type, final_reset0)
  (i4,
   { table := table.getD "", register_name := regName.getD "", bits := bits,
     field_name := if field_name ≠ "" then field_name else name1,
     description := final_description2, type := final_type2, reset := final_reset2 })

/-- Row construction of the single-line branch: collect indented
continuation lines, anchor on the rightmost access token, validate the
reset, and build the row. -/
def attrNewRow (lines : List String) (i : Nat) (table regName : Option String)
    (bits field remaining : String) : AttributeRow :=
  let contLines := (attrContLoop lines (lines.length - (i + 1) + 1) (i + 1) []).2
  let fullText :=
    if contLines ≠ [] then
      (if remaining ≠ "" then remaining ++ " " ++ " ".intercalate contLines
       else " ".intercalate contLines)
    else remaining
  let prs := attrParseRest fullText
  let vr := validateReset prs.1 prs.2.2
  { table := table.getD "", register_name := regName.getD "", bits := bits,
    field_name := field, description := vr.1, type := prs.2.1, reset := vr.2 }

/-- The main scanning loop of `parse_attribute_tables`.  `none` means the
fuel was exhausted (C9 shows it never is for the chosen bound). -/
def parseAttrLoop (lines : List String) : Nat → Nat → Bool → Option String → Option String →
    List AttributeRow → Option (List AttributeRow)
  | 0, _, _, _, _, _ => none
  | fuel + 1, i, inAttr, table, regName, acc =>
    if i < lines.length then
      if isHeading (getLine lines i) then
        parseAttrLoop lines fuel (i + 1)
          (containsSub (pyLower (getLine lines i)) "attribute") (some (getLine lines i))
          (if containsSub (pyLower (getLine lines i)) "attribute" then
            match attrHeadingRegName (getLine lines i) with
            | some r => some r
            | none => regName
           else regName) acc
      else if inAttr = false then parseAttrLoop lines fuel (i + 1) inAttr table regName acc
      else if pyStartsWith (getLine lines i) "__PAGE_BREAK_" ||
          HEADER_LABELS.contains (pyLower (getLine lines i)) ||
          bitsNameHeader (getLine lines i) then
        parseAttrLoop lines fuel (i + 1) inAttr table regName acc
      else
        match attrMatchNew (getLine lines i).data with
        | some (bits, field, remaining) =>
          if subBitSkipNew bits field then
            parseAttrLoop lines fuel (i + 1) inAttr table regName acc
          else
            parseAttrLoop lines fuel
              ((if (attrContLoop lines (lines.length - (i + 1) + 1) (i + 1) []).2 ≠ [] then
                  (attrContLoop lines (lines.length - (i + 1) + 1) (i + 1) []).1 - 1
                else i) + 1) inAttr table regName
              (if field ≠ "" ∧ is_probable_name field = true ∧
                  is_reserved_concatenation_artifact field = false then
                acc ++ [attrNewRow lines i table regName bits field remaining]
              else acc)
        | none =>
          if is_bits_token (getLine lines i) then
            if subBitSkipOld lines i (pyStripChars ['[', ']'] (getLine lines i)) then
              parseAttrLoop lines fuel (i + 1) inAttr table regName acc
            else
              parseAttrLoop lines fuel (oldBitsBranch lines i table regName).1
                inAttr table regName (acc ++ [(oldBitsBranch lines i table regName).2])
          else parseAttrLoop lines fuel (i + 1) inAttr table regName acc
    else some acc

/-- `parse_attribute_tables` with the fuel bound of claim C9. -/
def parse_attribute_tablesOpt (lines : List String) : Option (List AttributeRow) :=
  parseAttrLoop lines (lines.length + 1) 0 false none none []

/-- `parse_attribute_tables` as a total function. -/
def parse_attribute_tables (lines : List String) : List AttributeRow :=
  (parse_attribute_tablesOpt lines).getD []

/-! De-duplication (`pandas.drop_duplicates`), keep-first semantics. -/

/-- Keep-first de-duplication by key with an explicit seen-key list
(`drop_duplicates(subset=..., keep="first")`). -/
def dedupBySeen {α β : Type} [DecidableEq β] (key : α → β) :
    List α → List β → List α
  | [], _ => []
  | a :: rest, seen =>
    if seen.contains (key a) then dedupBySeen key rest seen
    else a :: dedupBySeen key rest (key a :: seen)

/-- Keep-first de-duplication by key. -/
def dedupBy {α β : Type} [DecidableEq β] (key : α → β) (l : List α) : List α :=
  dedupBySeen key l []

/-- The identifying key `(table, offset, name)` of a register row. -/
def regKey (r : RegisterRow) : String × String × String := (r.table, r.offset, r.name)

/-- The de-duplication step of `extract` for attribute rows
(`df_attrs.drop_duplicates()`: exact-row identity). -/
def dedupAttrs (rows : List AttributeRow) : List AttributeRow :=
  dedupBy (fun r => r) rows

/-- The attribute half of the `extract` pipeline after parsing:
`clean_rows(..., is_attr=True)` then exact-duplicate removal. -/
def attrPipeline (lines : List String) : List AttributeRow :=
  dedupAttrs (clean_rows_attr (parse_attribute_tables lines))

theorem dedupBySeen_subset {α β : Type} [DecidableEq β] (key : α → β)
    (l : List α) (seen : List β) : ∀ r ∈ dedupBySeen key l seen, r ∈ l := by
  induction l generalizing seen with
  | nil => intro r hr; simp [dedupBySeen] at hr
  | cons a rest ih =>
    intro r hr
    rw [dedupBySeen] at hr
    by_cases hc : seen.contains (key a)
    · rw [if_pos hc] at hr
      exact List.mem_cons_of_mem a (ih seen r hr)
    · rw [if_neg hc] at hr
      rcases List.mem_cons.mp hr with h | h
      · simp [h]
      · exact List.mem_cons_of_mem a (ih (key a :: seen) r h)

theorem dedupBySeen_keys_fresh {α β : Type} [DecidableEq β] (key : α → β)
    (l : List α) (seen : List β) :
    ∀ r ∈ dedupBySeen key l seen, key r ∉ seen := by
  induction l generalizing seen with
  | nil => intro r hr; simp [dedupBySeen] at hr
  | cons a rest ih =>
    intro r hr
    rw [dedupBySeen] at hr
    by_cases hc : seen.contains (key a)
    · rw [if_pos hc] at hr
      exact ih seen r hr
    · rw [if_neg hc] at hr
      rcases List.mem_cons.mp hr with h | h
      · subst h
        simpa using hc
      · have := ih (key a :: seen) r h
        exact fun hmem => this (by simp [hmem])

theorem dedupBySeen_pairwise {α β : Type} [DecidableEq β] (key : α → β)
    (l : List α) (seen : List β) :
    (dedupBySeen key l seen).Pairwise (fun a b => key a ≠ key b) := by
  induction l generalizing seen with
  | nil => simp [dedupBySeen]
  | cons a rest ih =>
    rw [dedupBySeen]
    by_cases hc : seen.contains (key a)
    · rw [if_pos hc]; exact ih seen
    · rw [if_neg hc]
      refine List.Pairwise.cons ?_ (ih (key a :: seen))
      intro b hb heq
      have := dedupBySeen_keys_fresh key rest (key a :: seen) b hb
      exact this (by simp [heq])

theorem dedupBySeen_first {α β : Type} [DecidableEq β] (key : α → β)
    (l : List α) (seen : List β) :
    ∀ r ∈ dedupBySeen key l seen,
      ∃ pre post, l = pre ++ r :: post ∧ ∀ r' ∈ pre, key r' ≠ key r := by
  induction l generalizing seen with
  | nil => intro r hr; simp [dedupBySeen] at hr
  | cons a rest ih =>
    intro r hr
    rw [dedupBySeen] at hr
    by_cases hc : seen.contains (key a)
    · rw [if_pos hc] at hr
      obtain ⟨pre, post, hsplit, hpre⟩ := ih seen r hr
      have hfresh := dedupBySeen_keys_fresh key rest seen r hr
      refine ⟨a :: pre, post, by simp [hsplit], ?_⟩
      intro r' hr'
      rcases List.mem_cons.mp hr' with h | h
      · subst h
        intro heq
        rw [List.contains_iff_exists_mem_beq] at hc
        exact hfresh (by rw [← heq]; simpa using hc)
      · exact hpre r' h
    · rw [if_neg hc] at hr
      rcases List.mem_cons.mp hr with h | h
      · subst h
        exact ⟨[], rest, rfl, by simp⟩
      · obtain ⟨pre, post, hsplit, hpre⟩ := ih (key a :: seen) r h
        have hfresh := dedupBySeen_keys_fresh key rest (key a :: seen) r h
        refine ⟨a :: pre, post, by simp [hsplit], ?_⟩
        intro r' hr'
        rcases List.mem_cons.mp hr' with hx | hx
        · subst hx
          intro heq
          exact hfresh (by simp [heq])
        · exact hpre r' hx

/-- C2 counterexample: two attribute lines in the same table with the same
bits and field name but different descriptions survive the final
de-duplication as two distinct rows sharing the `(table, bits, field_name)`
triple, so that triple does not uniquely identify attribute rows. -/
theorem C2_counterexample :
    attrPipeline ["Table 2-2: myreg attributes",
                  "[3:0] foo descA RW 0x0",
                  "[3:0] foo descB RW 0x0"] =
      [{ table := "Table 2-2: myreg attributes", register_name := "myreg",
         bits := "[3:0]", field_name := "foo", description := "descA",
         type := "RW", reset := "0x0" },
       { table := "Table 2-2: myreg attributes", register_name := "myreg",
         bits := "[3:0]", field_name := "foo", description := "descB",
         type := "RW", reset := "0x0" }] ∧
    ({ table := "Table 2-2: myreg attributes", register_name := "myreg",
       bits := "[3:0]", field_name := "foo", description := "descA",
       type := "RW", reset := "0x0" } : AttributeRow) ≠
      { table := "Table 2-2: myreg attributes", register_name := "myreg",
        bits := "[3:0]", field_name := "foo", description := "descB",
        type := "RW", reset := "0x0" } := by
  constructor
  · decide
  · decide

/-- C2 (amended): after the final de-duplication, `(table, offset, name)`
is a unique key for register rows and each surviving register row is the
first input occurrence of its key; for attribute rows only exact
duplicates are removed, so the de-duplicated attribute list is merely
free of exact-duplicate rows (full-row identity is the unique key). -/
theorem C2_dedup_keys :
    (∀ rows : List RegisterRow,
      (dedupBy regKey rows).Pairwise (fun a b => regKey a ≠ regKey b)) ∧
    (∀ rows : List RegisterRow, ∀ r ∈ dedupBy regKey rows,
      ∃ pre post, rows = pre ++ r :: post ∧ ∀ r' ∈ pre, regKey r' ≠ regKey r) ∧
    (∀ rows : List AttributeRow, (dedupAttrs rows).Pairwise (fun a b => a ≠ b)) := by
  refine ⟨fun rows => dedupBySeen_pairwise regKey rows [],
    fun rows => dedupBySeen_first regKey rows [], fun rows => ?_⟩
  exact dedupBySeen_pairwise (fun r => r) rows []

/-- A pair of register rows sharing the `(table, offset, name)` key, used
to witness the dedup theorem. -/
def keyClashRowA : RegisterRow := ⟨"T", "0x0", "a", "RW", "1"⟩

/-- Second row of the key-clash pair. -/
def keyClashRowB : RegisterRow := ⟨"T", "0x0", "a", "RO", "2"⟩

/-- Witness for C2's amended theorem: the keep-first register dedup at a
concrete two-row list with a duplicated key. -/
theorem C2_witness :
    dedupBy regKey [keyClashRowA, keyClashRowB] = [keyClashRowA] ∧
    (∃ pre post, [keyClashRowA, keyClashRowB] = pre ++ keyClashRowA :: post ∧
      ∀ r' ∈ pre, regKey r' ≠ regKey keyClashRowA) :=
  ⟨by decide, C2_dedup_keys.2.1 [keyClashRowA, keyClashRowB] keyClashRowA (by decide)⟩

/-- C4 counterexample: for the attribute-table line whose remaining text
after the bits token and field name is `some text RW 0b101`, the emitted
row's reset is the raw literal `0b101`, not the hexadecimal `0x5` the
claim asserts (no binary conversion happens on the single-line path). -/
theorem C4_counterexample :
    attrPipeline ["Table 2-2: myreg attributes",
                  "[3:0] myfield some text RW 0b101"] =
      [{ table := "Table 2-2: myreg attributes", register_name := "myreg",
         bits := "[3:0]", field_name := "myfield", description := "some text",
         type := "RW", reset := "0b101" }] ∧
    ("0b101" : String) ≠ "0x5" := by
  constructor
  · decide
  · decide

/-- C4 (amended): the single-line extraction yields type `RW`, description
`some text` and the raw reset literal `0b101`; the binary-to-hexadecimal
conversion belongs to the description-embedded recovery path, where
`extract_embedded_type_and_reset` on the same text yields
`("RW", "0x5", "some text")`. -/
theorem C4_reset_literal :
    attrPipeline ["Table 2-2: myreg attributes",
                  "[3:0] myfield some text RW 0b101"] =
      [{ table := "Table 2-2: myreg attributes", register_name := "myreg",
         bits := "[3:0]", field_name := "myfield", description := "some text",
         type := "RW", reset := "0b101" }] ∧
    extract_embedded_type_and_reset "some text RW 0b101" = ("RW", "0x5", "some text") := by
  constructor
  · decide
  · decide

/-! Claim C7: well-formedness of the `bits` field of every attribute row. -/

/-- Parse a `bits` value (brackets optional) into the normalized
`(low, high)` pair: a single bit `n` gives `(n, n)` and a two-ended range
gives `(min, max)` regardless of the order the two ends appeared in. -/
def bitsLowHigh (s : String) : Option (Nat × Nat) :=
  let core := (pyStripChars ['[', ']'] s).data
  match eatRun1 Char.isDigit core with
  | some (d1, []) => some (digitsToNat d1, digitsToNat d1)
  | some (d1, ':' :: r) =>
    (match eatRun1 Char.isDigit r with
     | some (d2, []) =>
       some (min (digitsToNat d1) (digitsToNat d2), max (digitsToNat d1) (digitsToNat d2))
     | _ => none)
  | _ => none

theorem eatRun1_inv {p : Char → Bool} {s run rest : List Char}
    (h : eatRun1 p s = some (run, rest)) :
    s = run ++ rest ∧ run ≠ [] ∧ ∀ c ∈ run, p c = true := by
  unfold eatRun1 at h
  cases htw : s.takeWhile p with
  | nil => rw [htw] at h; exact absurd h (by simp)
  | cons a rs =>
    rw [htw] at h
    simp only [Option.some.injEq, Prod.mk.injEq] at h
    obtain ⟨hrun, hrest⟩ := h
    refine ⟨?_, ?_, ?_⟩
    · rw [← hrun, ← hrest, ← htw, List.takeWhile_append_dropWhile]
    · rw [← hrun]; simp
    · intro c hc
      rw [← hrun] at hc
      rw [← htw] at hc
      exact List.mem_takeWhile_imp hc

theorem dropWhile_all_neg {p : Char → Bool} {l : List Char}
    (h : ∀ c ∈ l, p c = false) : l.dropWhile p = l := by
  cases l with
  | nil => rfl
  | cons a r =>
    rw [List.dropWhile_cons, if_neg (by simp [h a (List.mem_cons_self a r)])]

theorem dropWhile_head_neg {p : Char → Bool} {l : List Char} (hne : l ≠ [])
    (hh : ∀ c, l.head? = some c → p c = false) : l.dropWhile p = l := by
  cases l with
  | nil => exact absurd rfl hne
  | cons a rest =>
    have := hh a rfl
    simp [List.dropWhile_cons, this]

theorem stripChars_noop_of_all {cs : List Char} (l : List Char)
    (hall : ∀ c ∈ l, (cs.contains c) = false) :
    pyStripChars cs (String.mk l) = String.mk l := by
  unfold pyStripChars
  congr 1
  rw [show (String.mk l).data = l from rfl]
  rw [dropWhile_all_neg hall]
  rw [dropWhile_all_neg (fun c hc => hall c (List.mem_reverse.mp hc))]
  exact List.reverse_reverse l

theorem getLast?_mem_own : ∀ {l : List Char} {c : Char}, l.getLast? = some c → c ∈ l := by
  intro l
  induction l with
  | nil => intro c hc; simp at hc
  | cons a r ih =>
    intro c hc
    cases r with
    | nil =>
      have : a = c := by simpa using hc
      simp [this]
    | cons b s =>
      rw [List.getLast?_cons_cons] at hc
      exact List.mem_cons_of_mem a (ih hc)

theorem stripBrackets_wrap {mid : List Char} (hne : mid ≠ [])
    (hh : ∀ c, mid.head? = some c → (['[', ']'].contains c) = false)
    (hl : ∀ c, mid.getLast? = some c → (['[', ']'].contains c) = false) :
    pyStripChars ['[', ']'] (String.mk ('[' :: (mid ++ [']']))) = String.mk mid := by
  unfold pyStripChars
  congr 1
  rw [show (String.mk ('[' :: (mid ++ [']']))).data = '[' :: (mid ++ [']']) from rfl]
  have h1 : ('[' :: (mid ++ [']'])).dropWhile (['[', ']'].contains ·) = mid ++ [']'] := by
    rw [List.dropWhile_cons]
    simp only [show ((['[', ']'] : List Char).contains '[') = true from rfl, if_true]
    apply dropWhile_head_neg
    · cases mid <;> simp
    · intro c hc
      cases mid with
      | nil => exact absurd rfl hne
      | cons a rest =>
        have : a = c := by simpa using hc
        exact this ▸ hh a rfl
  rw [h1]
  have h2 : (mid ++ [']']).reverse = ']' :: mid.reverse := by simp
  rw [h2, List.dropWhile_cons]
  simp only [show ((['[', ']'] : List Char).contains ']') = true from rfl, if_true]
  have h3 : mid.reverse.dropWhile (['[', ']'].contains ·) = mid.reverse := by
    apply dropWhile_head_neg
    · simpa using hne
    · intro c hc
      apply hl
      rw [List.getLast?_eq_head?_reverse]
      exact hc
  rw [h3, List.reverse_reverse]

theorem digit_not_bracket {c : Char} (h : c.isDigit = true) :
    (['[', ']'].contains c) = false := by
  by_contra hfalse
  have htrue : (['[', ']'].contains c) = true := by
    revert hfalse
    cases (['[', ']'].contains c) <;> simp
  have hmem : c ∈ ['[', ']'] := by simpa using htrue
  rcases (by simpa using hmem : c = '[' ∨ c = ']') with rfl | rfl <;> simp at h

theorem colon_not_bracket : ((['[', ']'] : List Char).contains ':') = false := by decide

theorem bitsLowHigh_single {d1 : List Char} (h1 : d1 ≠ [])
    (hd1 : ∀ c ∈ d1, c.isDigit = true) :
    bitsLowHigh (String.mk d1) = some (digitsToNat d1, digitsToNat d1) := by
  simp only [bitsLowHigh]
  rw [stripChars_noop_of_all d1 (fun c hc => digit_not_bracket (hd1 c hc))]
  rw [show (String.mk d1).data = d1 from rfl]
  simp only [eatRun1_exact_nil hd1 h1]

theorem bitsLowHigh_pair {d1 d2 : List Char} (h1 : d1 ≠ []) (h2 : d2 ≠ [])
    (hd1 : ∀ c ∈ d1, c.isDigit = true) (hd2 : ∀ c ∈ d2, c.isDigit = true) :
    bitsLowHigh (String.mk (d1 ++ ':' :: d2)) =
      some (min (digitsToNat d1) (digitsToNat d2),
            max (digitsToNat d1) (digitsToNat d2)) := by
  simp only [bitsLowHigh]
  have hall : ∀ c ∈ d1 ++ ':' :: d2, ((['[', ']'] : List Char).contains c) = false := by
    intro c hc
    rcases List.mem_append.mp hc with h | h
    · exact digit_not_bracket (hd1 c h)
    · rcases List.mem_cons.mp h with rfl | h
      · exact colon_not_bracket
      · exact digit_not_bracket (hd2 c h)
  rw [stripChars_noop_of_all _ hall]
  rw [show (String.mk (d1 ++ ':' :: d2)).data = d1 ++ ':' :: d2 from rfl]
  rw [eatRun1_exact d2 hd1 h1 (by decide)]
  simp only [eatRun1_exact_nil hd2 h2]

theorem stripBrackets_wrap_single {d1 : List Char} (h1 : d1 ≠ [])
    (hd1 : ∀ c ∈ d1, c.isDigit = true) :
    pyStripChars ['[', ']'] (String.mk ('[' :: (d1 ++ [']']))) = String.mk d1 := by
  apply stripBrackets_wrap h1
  · intro c hc
    have hm : c ∈ d1 := by
      cases d1 with
      | nil => simp at hc
      | cons a r =>
        have : a = c := by simpa using hc
        simp [← this]
    exact digit_not_bracket (hd1 c hm)
  · intro c hc
    exact digit_not_bracket (hd1 c (getLast?_mem_own hc))

theorem stripBrackets_wrap_pair {d1 d2 : List Char} (h1 : d1 ≠ []) (h2 : d2 ≠ [])
    (hd1 : ∀ c ∈ d1, c.isDigit = true) (hd2 : ∀ c ∈ d2, c.isDigit = true) :
    pyStripChars ['[', ']'] (String.mk ('[' :: ((d1 ++ ':' :: d2) ++ [']']))) =
      String.mk (d1 ++ ':' :: d2) := by
  apply stripBrackets_wrap (by simp)
  · intro c hc
    have hm : c ∈ d1 := by
      cases d1 with
      | nil => exact absurd rfl h1
      | cons a r =>
        have : a = c := by simpa using hc
        simp [← this]
    exact digit_not_bracket (hd1 c hm)
  · intro c hc
    rw [List.getLast?_append_of_ne_nil d1 (by simp)] at hc
    have hm : c ∈ d2 := by
      cases d2 with
      | nil => exact absurd rfl h2
      | cons b s =>
        rw [List.getLast?_cons_cons] at hc
        exact getLast?_mem_own hc
    exact digit_not_bracket (hd2 c hm)

theorem bitsLowHigh_brack_single {d1 : List Char} (h1 : d1 ≠ [])
    (hd1 : ∀ c ∈ d1, c.isDigit = true) :
    bitsLowHigh (String.mk ('[' :: (d1 ++ [']']))) =
      some (digitsToNat d1, digitsToNat d1) := by
  simp only [bitsLowHigh]
  rw [stripBrackets_wrap_single h1 hd1]
  rw [show (String.mk d1).data = d1 from rfl]
  simp only [eatRun1_exact_nil hd1 h1]

theorem bitsLowHigh_brack_pair {d1 d2 : List Char} (h1 : d1 ≠ []) (h2 : d2 ≠ [])
    (hd1 : ∀ c ∈ d1, c.isDigit = true) (hd2 : ∀ c ∈ d2, c.isDigit = true) :
    bitsLowHigh (String.mk ('[' :: ((d1 ++ ':' :: d2) ++ [']']))) =
      some (min (digitsToNat d1) (digitsToNat d2),
            max (digitsToNat d1) (digitsToNat d2)) := by
  simp only [bitsLowHigh]
  rw [stripBrackets_wrap_pair h1 h2 hd1 hd2]
  rw [show (String.mk (d1 ++ ':' :: d2)).data = d1 ++ ':' :: d2 from rfl]
  rw [eatRun1_exact d2 hd1 h1 (by decide)]
  simp only [eatRun1_exact_nil hd2 h2]

theorem bitsTokenEat_inv {l : List Char} {bits : String} {rest : List Char}
    (h : bitsTokenEat l = some (bits, rest)) :
    l = bits.data ++ rest ∧ (bitsLowHigh bits).isSome = true ∧
    (bitsLowHigh (pyStripChars ['[', ']'] bits)).isSome = true := by
  rw [bitsTokenEat.eq_def] at h
  split at h
  case _ r =>
    cases hr1 : eatRun1 Char.isDigit r with
    | none => rw [hr1] at h; simp at h
    | some p1 =>
      obtain ⟨d1, r1⟩ := p1
      obtain ⟨hsplit1, hne1, hdig1⟩ := eatRun1_inv hr1
      rw [hr1] at h
      simp only at h
      split at h
      case _ r2 =>
        cases hr2 : eatRun1 Char.isDigit r2 with
        | none => rw [hr2] at h; simp at h
        | some p2 =>
          obtain ⟨d2, r3⟩ := p2
          obtain ⟨hsplit2, hne2, hdig2⟩ := eatRun1_inv hr2
          rw [hr2] at h
          simp only at h
          split at h
          case _ r4 =>
            simp only [Option.some.injEq, Prod.mk.injEq] at h
            obtain ⟨hb, hrest⟩ := h
            subst hrest
            have hshape : String.mk ('[' :: (d1 ++ ':' :: (d2 ++ [']']))) =
                String.mk ('[' :: ((d1 ++ ':' :: d2) ++ [']'])) := by
              congr 1
              simp
            refine ⟨?_, ?_, ?_⟩
            · subst hsplit1 hsplit2
              rw [← hb]
              simp
            · rw [← hb, hshape, bitsLowHigh_brack_pair hne1 hne2 hdig1 hdig2]
              rfl
            · rw [← hb, hshape, stripBrackets_wrap_pair hne1 hne2 hdig1 hdig2,
                bitsLowHigh_pair hne1 hne2 hdig1 hdig2]
              rfl
          all_goals simp at h
      case _ r2 =>
        simp only [Option.some.injEq, Prod.mk.injEq] at h
        obtain ⟨hb, hrest⟩ := h
        subst hrest
        refine ⟨?_, ?_, ?_⟩
        · subst hsplit1
          rw [← hb]
          simp
        · rw [← hb, bitsLowHigh_brack_single hne1 hdig1]
          rfl
        · rw [← hb, stripBrackets_wrap_single hne1 hdig1, bitsLowHigh_single hne1 hdig1]
          rfl
      all_goals simp at h
  all_goals simp at h

theorem attrMatchTemplate_bits {l : List Char} {b f rem : String}
    (h : attrMatchTemplate l = some (b, f, rem)) : (bitsLowHigh b).isSome = true := by
  simp only [attrMatchTemplate, Option.bind_eq_bind, Option.bind_eq_some] at h
  obtain ⟨⟨bits0, r0⟩, hbt, h⟩ := h
  obtain ⟨r1, _, h⟩ := h
  obtain ⟨⟨fc, r2⟩, _, h⟩ := h
  obtain ⟨r3, _, h⟩ := h
  simp only [Option.pure_def, Option.some.injEq, Prod.mk.injEq] at h
  obtain ⟨hb, -, -⟩ := h
  exact hb ▸ (bitsTokenEat_inv hbt).2.1

theorem attrMatchSimple_bits {l : List Char} {b f rem : String}
    (h : attrMatchSimple l = some (b, f, rem)) : (bitsLowHigh b).isSome = true := by
  simp only [attrMatchSimple, Option.bind_eq_bind, Option.bind_eq_some] at h
  obtain ⟨⟨bits0, r0⟩, hbt, h⟩ := h
  obtain ⟨r1, _, h⟩ := h
  obtain ⟨⟨fc, r2⟩, _, h⟩ := h
  simp only [Option.pure_def, Option.some.injEq, Prod.mk.injEq] at h
  obtain ⟨hb, -, -⟩ := h
  exact hb ▸ (bitsTokenEat_inv hbt).2.1

theorem attrMatchNew_bits {l : List Char} {b f rem : String}
    (h : attrMatchNew l = some (b, f, rem)) : (bitsLowHigh b).isSome = true := by
  unfold attrMatchNew at h
  cases htm : attrMatchTemplate l with
  | some r =>
    rw [htm] at h
    simp only [Option.some.injEq] at h
    exact attrMatchTemplate_bits (htm.trans (congrArg some h))
  | none =>
    rw [htm] at h
    exact attrMatchSimple_bits h

theorem is_bits_token_strip_wf {s : String} (h : is_bits_token s = true) :
    (bitsLowHigh (pyStripChars ['[', ']'] s)).isSome = true := by
  unfold is_bits_token at h
  cases hbt : bitsTokenEat s.data with
  | none => rw [hbt] at h; simp at h
  | some p =>
    obtain ⟨b, rest⟩ := p
    rw [hbt] at h
    cases rest with
    | nil =>
      obtain ⟨hsplit, -, hwf⟩ := bitsTokenEat_inv hbt
      have hsb : s = b := by
        cases s with
        | mk sd =>
          cases b with
          | mk bd =>
            congr 1
            simpa using hsplit
      exact hsb ▸ hwf
    | cons c cs => simp at h

theorem oldBitsBranch_bits (lines : List String) (i : Nat) (t rn : Option String) :
    (oldBitsBranch lines i t rn).2.bits = pyStripChars ['[', ']'] (getLine lines i) := rfl

theorem cleanRowAttr_bits {r r' : AttributeRow} (h : cleanRowAttr r = some r') :
    r'.bits = fixDash r.bits := by
  unfold cleanRowAttr at h
  by_cases hd : nameChecksDrop r.field_name = true
  · simp [hd] at h
  · simp only [Bool.not_eq_true] at hd
    simp only [hd, Bool.false_eq_true, if_false] at h
    cases h
    rfl

theorem fixDash_of_wf {b : String} (h : (bitsLowHigh b).isSome = true) : fixDash b = b := by
  rw [fixDash, if_neg]
  rintro (rfl | rfl)
  · exact absurd h (by decide)
  · exact absurd h (by decide)

theorem bitsLowHigh_le {s : String} {lo hi : Nat}
    (h : bitsLowHigh s = some (lo, hi)) : lo ≤ hi := by
  simp only [bitsLowHigh] at h
  split at h
  · simp only [Option.some.injEq, Prod.mk.injEq] at h
    omega
  · split at h
    · simp only [Option.some.injEq, Prod.mk.injEq] at h
      obtain ⟨h1, h2⟩ := h
      subst h1
      subst h2
      exact min_le_max
    · simp at h
  · simp at h

theorem parseAttrLoop_bits (lines : List String) :
    ∀ fuel i m t rn acc rows,
      (∀ r ∈ acc, (bitsLowHigh r.bits).isSome = true) →
      parseAttrLoop lines fuel i m t rn acc = some rows →
      ∀ r ∈ rows, (bitsLowHigh r.bits).isSome = true := by
  intro fuel
  induction fuel with
  | zero =>
    intro i m t rn acc rows hacc heq
    simp [parseAttrLoop] at heq
  | succ fuel ih =>
    intro i m t rn acc rows hacc heq
    rw [parseAttrLoop] at heq
    by_cases hi : i < lines.length
    · rw [if_pos hi] at heq
      split at heq
      · exact ih _ _ _ _ _ _ hacc heq
      · split at heq
        · exact ih _ _ _ _ _ _ hacc heq
        · split at heq
          · exact ih _ _ _ _ _ _ hacc heq
          · split at heq
            case _ bits field remaining hm =>
              split at heq
              · exact ih _ _ _ _ _ _ hacc heq
              · refine ih _ _ _ _ _ _ ?_ heq
                intro r hr
                split at hr
                · rcases List.mem_append.mp hr with h | h
                  · exact hacc r h
                  · have hrb : r.bits = bits := by
                      rcases List.mem_singleton.mp h with rfl
                      rfl
                    exact hrb ▸ attrMatchNew_bits hm
                · exact hacc r hr
            case _ hm =>
              split at heq
              case _ hbits =>
                split at heq
                · exact ih _ _ _ _ _ _ hacc heq
                · refine ih _ _ _ _ _ _ ?_ heq
                  intro r hr
                  rcases List.mem_append.mp hr with h | h
                  · exact hacc r h
                  · rcases List.mem_singleton.mp h with rfl
                    rw [oldBitsBranch_bits]
                    exact is_bits_token_strip_wf hbits
              case _ => exact ih _ _ _ _ _ _ hacc heq
    · rw [if_neg hi] at heq
      injection heq with h
      subst h
      exact hacc

/-- C7: every attribute row surviving the `extract` pipeline carries a
well-formed `bits` field: it parses (brackets aside) to one or two decimal
numbers, and the normalized pair `(low, high)` — single bits giving
`low = high`, two-ended ranges giving `(min, max)` irrespective of the
order the ends appeared in — satisfies `low ≤ high` (values in `Nat` are
non-negative by construction). -/
theorem C7_bits_wellformed :
    ∀ (lines : List String), ∀ r ∈ attrPipeline lines,
      ∃ lo hi, bitsLowHigh r.bits = some (lo, hi) ∧ lo ≤ hi := by
  intro lines r hr
  have hr1 : r ∈ clean_rows_attr (parse_attribute_tables lines) :=
    dedupBySeen_subset _ _ [] r hr
  rw [clean_rows_attr, List.mem_filterMap] at hr1
  obtain ⟨r0, hr0, hclean⟩ := hr1
  have hwf0 : (bitsLowHigh r0.bits).isSome = true := by
    unfold parse_attribute_tables at hr0
    cases hopt : parse_attribute_tablesOpt lines with
    | none => rw [hopt] at hr0; simp at hr0
    | some rows0 =>
      rw [hopt] at hr0
      exact parseAttrLoop_bits lines _ _ _ _ _ [] rows0 (by simp) hopt r0 hr0
  have hbits : r.bits = r0.bits := by
    rw [cleanRowAttr_bits hclean, fixDash_of_wf hwf0]
  rw [hbits]
  cases hlh : bitsLowHigh r0.bits with
  | none => rw [hlh] at hwf0; simp at hwf0
  | some p =>
    obtain ⟨lo, hi⟩ := p
    exact ⟨lo, hi, rfl, bitsLowHigh_le hlh⟩

/-- The concrete pipeline output row used to witness C7. -/
def binaryResetRow : AttributeRow :=
  ⟨"Table 2-2: myreg attributes", "myreg", "[3:0]", "myfield", "some text", "RW", "0b101"⟩

/-- Witness for C7: the bits invariant evaluated at a concrete pipeline
output row. -/
theorem C7_witness :
    ∃ lo hi, bitsLowHigh binaryResetRow.bits = some (lo, hi) ∧ lo ≤ hi :=
  C7_bits_wellformed ["Table 2-2: myreg attributes",
    "[3:0] myfield some text RW 0b101"] binaryResetRow (by decide)

/-! The register-summary scanner `parse_register_tables` and its row-shape
regexes.  Matchers track the exact consumed text because the source keeps
the matched offset substring verbatim (modulo a final `strip`). -/

/-- Split a leading `\s+` into the consumed spaces and the rest. -/
def spacesSplit1 (s : List Char) : Option (List Char × List Char) :=
  match s with
  | c :: _ => if pySpace c then some (s.takeWhile pySpace, s.dropWhile pySpace) else none
  | [] => none

/-- Split a leading `\s*` into the consumed spaces and the rest. -/
def spacesSplit0 (s : List Char) : List Char × List Char :=
  (s.takeWhile pySpace, s.dropWhile pySpace)

/-- Consume one hex token `(?:0x|16\'h)[0-9A-Fa-f]+`, returning the
matched text and the rest. -/
def hexTokenEat (s : List Char) : Option (List Char × List Char) :=
  match s with
  | '0' :: 'x' :: r =>
    (match eatRun1 isHexChar r with
     | some (run, r2) => some ('0' :: 'x' :: run, r2)
     | none => none)
  | _ =>
    match eatLit ['1', '6', tick, 'h'] s with
    | some r =>
      (match eatRun1 isHexChar r with
       | some (run, r2) => some ('1' :: '6' :: tick :: 'h' :: run, r2)
       | none => none)
    | none => none

/-- One multi-segment piece `\{[\d-]+\}\s+HEX\s*:\s*HEX` of the
multi-segment offset regex, keeping the consumed text. -/
def segEat (s : List Char) : Option (List Char × List Char) :=
  match s with
  | '{' :: r =>
    (match eatRun1 (fun c => c.isDigit || c = '-') r with
     | some (body, '}' :: r2) =>
       (match spacesSplit1 r2 with
        | some (sp1, r3) =>
          (match hexTokenEat r3 with
           | some (h1, r4) =>
             let sp2r := spacesSplit0 r4
             (match sp2r.2 with
              | ':' :: r6 =>
                let sp3r := spacesSplit0 r6
                (match hexTokenEat sp3r.2 with
                 | some (h2, r8) =>
                   some ('{' :: (body ++ '}' :: (sp1 ++ (h1 ++ (sp2r.1 ++ ':' ::
                     (sp3r.1 ++ h2))))), r8)
                 | none => none)
              | _ => none)
           | none => none)
        | none => none)
     | _ => none)
  | _ => none

/-- One continuation `\s*;\s*` plus a further segment. -/
def segContEat (s : List Char) : Option (List Char × List Char) :=
  let sp1r := spacesSplit0 s
  match sp1r.2 with
  | ';' :: r2 =>
    let sp2r := spacesSplit0 r2
    (match segEat sp2r.2 with
     | some (seg, r4) => some (sp1r.1 ++ ';' :: (sp2r.1 ++ seg), r4)
     | none => none)
  | _ => none

/-- Snapshots after one, two, ... further segments (the greedy `(...)+`);
the regex backtracks from the greediest snapshot, so they are tried in
reverse order. -/
def segSnaps : Nat → List Char → List Char → List (List Char × List Char)
  | 0, _, _ => []
  | fuel + 1, consumed, rest =>
    match segContEat rest with
    | some (add, rest') =>
      (consumed ++ add, rest') :: segSnaps fuel (consumed ++ add) rest'
    | none => []

/-- The shared tail `(\S+)\s+(\S+)?\s*(.*)?` of all five row-shape
regexes: name, optional type token, raw rest-of-line. -/
def tailSVD (s : List Char) : Option (String × Option String × String) :=
  match eatRun1 (fun c => !pySpace c) s with
  | none => none
  | some (nm, r) =>
    match eatSpaces1 r with
    | none => none
    | some r2 =>
      match eatRun1 (fun c => !pySpace c) r2 with
      | some (ty, r3) => some (String.mk nm, some (String.mk ty), String.mk (eatSpaces0 r3))
      | none => some (String.mk nm, none, String.mk r2)

/-- Pattern 1 of `parse_register_tables`: the multi-segment array row
regex.  Returns `(group1, name, type?, raw description)`. -/
def multiSegMatch (s : List Char) : Option (String × String × Option String × String) :=
  match segEat s with
  | none => none
  | some (seg1, r1) =>
    firstSome (fun snap =>
      match tailSVD (eatSpaces0 snap.2) with
      | some (nm, ty, d) => some (String.mk snap.1, nm, ty, d)
      | none => none) (segSnaps (r1.length + 1) seg1 r1).reverse

/-- Pattern 2: the single-array row regex
`^(\{\d+-\d+\}\s+HEX\s*:\s*HEX)\s*(\S+)\s+(\S+)?\s*(.*)?`, whose braces
hold exactly `\d+-\d+`. -/
def singleArrayEat (s : List Char) : Option (List Char × List Char) :=
  match s with
  | '{' :: r =>
    (match eatRun1 Char.isDigit r with
     | some (d1, '-' :: r2) =>
       (match eatRun1 Char.isDigit r2 with
        | some (d2, '}' :: r3) =>
          (match spacesSplit1 r3 with
           | some (sp1, r4) =>
             (match hexTokenEat r4 with
              | some (h1, r5) =>
                let sp2r := spacesSplit0 r5
                (match sp2r.2 with
                 | ':' :: r7 =>
                   let sp3r := spacesSplit0 r7
                   (match hexTokenEat sp3r.2 with
                    | some (h2, r9) =>
                      some ('{' :: (d1 ++ '-' :: (d2 ++ '}' :: (sp1 ++ (h1 ++ (sp2r.1 ++
                        ':' :: (sp3r.1 ++ h2)))))), r9)
                    | none => none)
                 | _ => none)
              | none => none)
           | none => none)
        | _ => none)
     | _ => none)
  | _ => none

/-- Pattern 3 offset part: `HEX\s*:\s*HEX`. -/
def rangePairEat (s : List Char) : Option (List Char × List Char) :=
  match hexTokenEat s with
  | some (h1, r1) =>
    let sp1r := spacesSplit0 r1
    (match sp1r.2 with
     | ':' :: r2 =>
       let sp2r := spacesSplit0 r2
       (match hexTokenEat sp2r.2 with
        | some (h2, r3) => some (h1 ++ (sp1r.1 ++ ':' :: (sp2r.1 ++ h2)), r3)
        | none => none)
     | _ => none)
  | none => none

/-- Pattern 4 offset part: `HEX\s*\+\s*HEX`. -/
def plusPairEat (s : List Char) : Option (List Char × List Char) :=
  match hexTokenEat s with
  | some (h1, r1) =>
    let sp1r := spacesSplit0 r1
    (match sp1r.2 with
     | '+' :: r2 =>
       let sp2r := spacesSplit0 r2
       (match hexTokenEat sp2r.2 with
        | some (h2, r3) => some (h1 ++ (sp1r.1 ++ '+' :: (sp2r.1 ++ h2)), r3)
        | none => none)
     | _ => none)
  | none => none

/-- Offset-and-tail combination for patterns 2-5: the gap between the
offset group and the name is `\s*` for pattern 2 and `\s+` for 3-5. -/
def offsetTail (gapRequired : Bool) (off : List Char) (rest : List Char) :
    Option (String × String × Option String × String) :=
  if gapRequired then
    match spacesSplit1 rest with
    | some (_, r) =>
      (match tailSVD r with
       | some (nm, ty, d) => some (String.mk off, nm, ty, d)
       | none => none)
    | none => none
  else
    match tailSVD (eatSpaces0 rest) with
    | some (nm, ty, d) => some (String.mk off, nm, ty, d)
    | none => none

/-- Group-wise post-processing shared by patterns 1-5: strip the name,
default a missing type to `-`, default an empty rest to the name, and
demote an unrecognized type token into the description. -/
def regFields (nm : String) (tyOpt : Option String) (descRaw : String) :
    String × String × String :=
  let name := pyStrip nm
  let ty0 := match tyOpt with
             | some t => pyStrip t
             | none => "-"
  let d0 := if descRaw ≠ "" then pyStrip descRaw else name
  if is_type_token ty0 then (name, ty0, d0)
  else (name, "-", if ty0 ≠ "-" then ty0 ++ " " ++ d0 else d0)

/-- `parse_array_indices` brace scanner: `\{(\d+)-(\d+)\}`. -/
def braceIdxEat (s : List Char) : Option (Nat × Nat × List Char) :=
  match eatRun1 Char.isDigit s with
  | some (d1, '-' :: r2) =>
    (match eatRun1 Char.isDigit r2 with
     | some (d2, '}' :: r3) => some (digitsToNat d1, digitsToNat d2, r3)
     | _ => none)
  | _ => none

/-- `re.finditer(r'\{(\d+)-(\d+)\}', ...)` scan. -/
def paiGo : Nat → List Char → List (Nat × Nat)
  | 0, _ => []
  | fuel + 1, s =>
    match s with
    | [] => []
    | c :: rest =>
      if c = '{' then
        match braceIdxEat rest with
        | some (a, b, r2) => (a, b) :: paiGo fuel r2
        | none => paiGo fuel rest
      else paiGo fuel rest

/-- Source function `parse_array_indices`. -/
def parse_array_indices (s : String) : List (Nat × Nat) :=
  paiGo (s.data.length + 1) s.data

/-- Python `str.split(sep)` for a one-character separator: split at every
occurrence, keeping empty fields. -/
def splitOnSep (sep : Char) : List Char → List Char → List (List Char)
  | [], acc => [acc.reverse]
  | c :: r, acc =>
    if c = sep then acc.reverse :: splitOnSep sep r []
    else splitOnSep sep r (c :: acc)

/-- Source function `extract_segment_offset` (`offset.split(';')`). -/
def extract_segment_offset (offset : String) (idx : Nat) : String :=
  let segments := (splitOnSep ';' offset.data []).map String.mk
  match segments.get? idx with
  | some seg => pyStrip seg
  | none => offset

/-- Trailing index-range test `\d+-\d+` reaching the end of the string at
the current position (the body of `re.sub(r'\d+-\d+$', '', ...)`). -/
def idxSuffixHere (s : List Char) : Bool :=
  let run := s.takeWhile Char.isDigit
  let r := s.dropWhile Char.isDigit
  (!run.isEmpty) && (match r with
    | '-' :: r2 => (!r2.isEmpty) && r2.all Char.isDigit
    | _ => false)

/-- Leftmost start of a trailing `\d+-\d+` suffix. -/
def stripIdxGo (pos : Nat) : List Char → Option Nat
  | [] => none
  | c :: rest =>
    if idxSuffixHere (c :: rest) then some pos else stripIdxGo (pos + 1) rest

/-- Source function `generate_segmented_register_name`: remove a prior
trailing index-range suffix and append this segment's range. -/
def generate_segmented_register_name (base : String) (start_idx end_idx : Nat) : String :=
  let baseClean :=
    match stripIdxGo 0 base.data with
    | some p => String.mk (base.data.take p)
    | none => base
  baseClean ++ natStr start_idx ++ "-" ++ natStr end_idx

/-- Rows emitted by the multi-segment branch (pattern 1): one row per
`{start-end}` segment when several, else a single row. -/
def multiSegRows (table : Option String) (offset name ty desc : String) :
    List RegisterRow :=
  let indices := parse_array_indices offset
  if 1 < indices.length then
    indices.enum.map (fun p =>
      { table := table.getD "", offset := extract_segment_offset offset p.1,
        name := generate_segmented_register_name name p.2.1 p.2.2,
        type := ty, description := desc })
  else
    [{ table := table.getD "", offset := offset, name := name,
       type := ty, description := desc }]

/-- Pattern 5: the simple `HEX\s+(\S+)\s+(\S+)?\s*(.*)?` row (with the
`is_probable_name` guard on emission). -/
def tryPatternRows5 (table : Option String) (s : String) : Option (List RegisterRow) :=
  match hexTokenEat s.data with
  | some (off, rest) =>
    (match offsetTail true off rest with
     | some (offText, nm, tyOpt, descRaw) =>
       let f := regFields nm tyOpt descRaw
       some (if is_probable_name f.1 then
         [{ table := table.getD "", offset := pyStrip offText, name := f.1,
            type := f.2.1, description := f.2.2 }]
       else [])
     | none => none)
  | none => none

/-- Patterns 4-5 (pattern 4 is the `HEX + HEX` offset-plus-size shape,
also guarded by `is_probable_name`). -/
def tryPatternRows4 (table : Option String) (s : String) : Option (List RegisterRow) :=
  match plusPairEat s.data with
  | some (off, rest) =>
    (match offsetTail true off rest with
     | some (offText, nm, tyOpt, descRaw) =>
       let f := regFields nm tyOpt descRaw
       some (if is_probable_name f.1 then
         [{ table := table.getD "", offset := pyStrip offText, name := f.1,
            type := f.2.1, description := f.2.2 }]
       else [])
     | none => tryPatternRows5 table s)
  | none => tryPatternRows5 table s

/-- Patterns 3-5 (pattern 3 is the `HEX : HEX` range shape). -/
def tryPatternRows3 (table : Option String) (s : String) : Option (List RegisterRow) :=
  match rangePairEat s.data with
  | some (off, rest) =>
    (match offsetTail true off rest with
     | some (offText, nm, tyOpt, descRaw) =>
       let f := regFields nm tyOpt descRaw
       some [{ table := table.getD "", offset := pyStrip offText, name := f.1,
               type := f.2.1, description := f.2.2 }]
     | none => tryPatternRows4 table s)
  | none => tryPatternRows4 table s

/-- Patterns 1-5 of `parse_register_tables` in priority order; `some rows`
means a pattern matched (possibly yielding no row when the
`is_probable_name` guard of patterns 4/5 rejects the name), `none` means no
pattern matched and the scanner falls through to the later branches. -/
def tryPatternRows (table : Option String) (s : String) : Option (List RegisterRow) :=
  match multiSegMatch s.data with
  | some (offText, nm, tyOpt, descRaw) =>
    let offset := pyStrip offText
    let f := regFields nm tyOpt descRaw
    some (multiSegRows table offset f.1 f.2.1 f.2.2)
  | none =>
    match singleArrayEat s.data with
    | some (off, rest) =>
      (match offsetTail false off rest with
       | some (offText, nm, tyOpt, descRaw) =>
         let f := regFields nm tyOpt descRaw
         some [{ table := table.getD "", offset := pyStrip offText, name := f.1,
                 type := f.2.1, description := f.2.2 }]
       | none => tryPatternRows3 table s)
    | none => tryPatternRows3 table s

/-! The fallback branches of `parse_register_tables`: the offset+name
line, the pending-address buffer, and the probable-name row builder. -/

/-- Identifier-sequence check `[A-Za-z_][A-Za-z0-9_]*(?:[+-][A-Za-z0-9_]+)*$`
for the offset+name regex (anchored at the end of the line). -/
def identSeqTail : Nat → List Char → Bool
  | _, [] => true
  | 0, _ => false
  | fuel + 1, c :: r =>
    if c = '+' ∨ c = '-' then
      let run := r.takeWhile isIdentChar
      if run.isEmpty then false
      else identSeqTail fuel (r.dropWhile isIdentChar)
    else false

/-- Whole-string identifier-sequence check. -/
def identSeqValid (s : List Char) : Bool :=
  match s with
  | c :: r => isIdentHead c && identSeqTail (r.length + 1) (r.dropWhile isIdentChar)
  | [] => false

/-- The offset+name regex
`^((?:0x|16\'h)[0-9A-Fa-f]+)\s+([A-Za-z_][A-Za-z0-9_]*(?:[+-][A-Za-z0-9_]+)*)$`. -/
def offsetNameMatch (s : List Char) : Option (String × String) :=
  match hexTokenEat s with
  | some (off, r) =>
    (match eatSpaces1 r with
     | some r2 => if identSeqValid r2 then some (String.mk off, String.mk r2) else none
     | none => none)
  | none => none

/-- The `^Oﬀset\s+Name\s+` ligature column-header pattern. -/
def ofsNameHeader (s : String) : Bool :=
  (do
    let r ← eatLit ['O', Char.ofNat 0xFB00, 's', 'e', 't'] s.data
    let r ← eatSpaces1 r
    let r ← eatLit "Name".data r
    eatSpaces1 r).isSome

/-- The `^\s*8\.3\.` detailed-register-section test that closes a summary
table. -/
def sectionEnd83 (s : String) : Bool :=
  (eatLit "8.3.".data (eatSpaces0 s.data)).isSome

/-- `re.sub` of all `document_boilerplate_re` matches by the empty string
(only the length of the result is consumed, in the description-quality
test of the probable-name branch). -/
def docSubAllGo : Nat → Bool → List Char → List Char
  | 0, _, s => s
  | fuel + 1, prevW, s =>
    match s with
    | [] => []
    | c :: rest =>
      if prevW != isWordChar c then
        match docAltAny (c :: rest) with
        | some r =>
          if tailBoundaryOK r then docSubAllGo fuel true r
          else c :: docSubAllGo fuel (isWordChar c) rest
        | none => c :: docSubAllGo fuel (isWordChar c) rest
      else c :: docSubAllGo fuel (isWordChar c) rest

/-- `document_boilerplate_re.sub('', s)`. -/
def docSubAll (s : String) : String :=
  String.mk (docSubAllGo (s.data.length + 1) false s.data)

/-- `normalize_addr` pass normalising `\s*:\s*` to ` : `. -/
def normColonGo : Nat → List Char → List Char
  | 0, s => s
  | fuel + 1, s =>
    match s with
    | [] => []
    | c :: rest =>
      match eatSpaces0 (c :: rest) with
      | ':' :: r => ' ' :: ':' :: ' ' :: normColonGo fuel (eatSpaces0 r)
      | _ => c :: normColonGo fuel rest

/-- `normalize_addr` pass normalising `\s*,\s*` to `, `. -/
def normCommaGo : Nat → List Char → List Char
  | 0, s => s
  | fuel + 1, s =>
    match s with
    | [] => []
    | c :: rest =>
      match eatSpaces0 (c :: rest) with
      | ',' :: r => ',' :: ' ' :: normCommaGo fuel (eatSpaces0 r)
      | _ => c :: normCommaGo fuel rest

/-- Whitespace-run collapse `re.sub(r'\s+', ' ', s)` (fuelled for
structural recursion; each step consumes at least one character). -/
def collapseWSGo : Nat → List Char → List Char
  | 0, s => s
  | _ + 1, [] => []
  | fuel + 1, c :: rest =>
    if pySpace c then ' ' :: collapseWSGo fuel (rest.dropWhile pySpace)
    else c :: collapseWSGo fuel rest

/-- Whitespace-run collapse on a character list. -/
def collapseWS (s : List Char) : List Char := collapseWSGo (s.length + 1) s

/-- Source function `normalize_addr`. -/
def normalize_addr (expr : String) : String :=
  let e1 := collapseWS (pyStripL expr.data)
  let e2 := normColonGo (e1.length + 1) e1
  let e3 := normCommaGo (e2.length + 1) e2
  String.mk (collapseWS e3)

/-- Shared description-accumulation loop of the offset+name and
probable-name branches (`parse_register_tables` lines 941-962/1040-1067). -/
def regDescLoop (lines : List String) : Nat → Nat → List String → Nat × List String
  | 0, i, acc => (i, acc)
  | fuel + 1, i, acc =>
    if i < lines.length then
      let t := getLine lines i
      if pyStartsWith t "__PAGE_BREAK_" || HEADER_LABELS.contains (pyLower t) then
        regDescLoop lines fuel (i + 1) acc
      else if isHeading t || isSectionHeading t || is_bits_token t then (i, acc)
      else if is_addr_line t || is_offset_token t || is_range_token t || is_addr_token t then
        (i, acc)
      else if BAD_NAME_STARTS.any (fun p => pyStartsWith (pyLower t) p) ||
          reset_noise_search t then (i, acc)
      else if boilerplate_sentence_match t then regDescLoop lines fuel (i + 1) acc
      else if document_boilerplate_search t then
        (i, (let clean := pyStrip (document_boilerplate_split0 t)
             if clean ≠ "" then acc ++ [clean] else acc))
      else regDescLoop lines fuel (i + 1) (acc ++ [t])
    else (i, acc)

/-- Type lookahead of the probable-name branch: scan up to five lines for
an access token, stopping early at row/section boundaries; returns the
found type (possibly empty) and the new index. -/
def typeLookahead (lines : List String) (limit : Nat) : Nat → Nat → String × Nat
  | 0, j => ("", j)
  | fuel + 1, j =>
    if j < limit then
      let t := getLine lines j
      if pyStartsWith t "__PAGE_BREAK_" || HEADER_LABELS.contains (pyLower t) then
        typeLookahead lines limit fuel (j + 1)
      else if is_type_token t then (t, j + 1)
      else if is_addr_line t || is_offset_token t || is_range_token t || is_addr_token t ||
          isHeading t || isSectionHeading t then ("", j)
      else if BAD_NAME_STARTS.any (fun p => pyStartsWith (pyLower t) p) ||
          reset_noise_search t then ("", j)
      else typeLookahead lines limit fuel (j + 1)
    else ("", j)

/-- The boilerplate re-check applied to a joined name in the probable-name
branch (both after joining and before the row commit). -/
def joinedNameBad (name : String) (withDocCheck : Bool) : Bool :=
  let stripped := pyStrip (pyStripChars ['"'] name)
  boilerplate_sentence_match name ||
  (withDocCheck && document_boilerplate_search name) ||
  decide (120 < name.length) ||
  multiSentence name.data ||
  EXPLICIT_BOILERPLATE_STRINGS.contains stripped ||
  pyStartsWith stripped "This register is owned in the Non-secure space"

/-- The mostly-boilerplate description downgrade of the probable-name
branch.  The source compares against `len(...) * 0.2` in floating point;
the rational reading `5 * remaining < total` is used here (the branch is
not load-bearing for any claim). -/
def descQualityFix (d : String) : String :=
  if d ≠ "" ∧ 50 < d.length then
    if boilerplate_sentence_match d ∨
        (document_boilerplate_search d ∧ 5 * (pyStrip (docSubAll d)).length < d.length) then
      "-"
    else d
  else d

/-- The probable-name branch of `parse_register_tables` (lines 988-1104):
join wrapped fragments, look ahead for a type, accumulate a description,
and commit a row against the pending address buffer.  Returns the new
index and the rows to append (empty on the bail-out paths). -/
def regNameBranch (lines : List String) (i : Nat) (table : Option String)
    (pending : String) : Nat × List RegisterRow :=
  let N := lines.length
  let nc := nameContLoop lines (N - (i + 1) + 1) (i + 1) (getLine lines i)
  let i2 := nc.1
  let name1 := nc.2
  if joinedNameBad name1 false then (i2, [])
  else
    let tl := typeLookahead lines (min (i2 + 5) N) (min (i2 + 5) N - i2 + 1) i2
    let typ := tl.1
    let i3 := tl.2
    let dl := regDescLoop lines (N - i3 + 1) i3 []
    let i4 := dl.1
    let descParts := dl.2
    if pyStrip pending ≠ "" then
      let final_name := pyStrip name1
      let final_description := pyStrip (" ".intercalate descParts)
      if joinedNameBad final_name true then (i4, [])
      else
        (i4, [{ table := table.getD "", offset := normalize_addr pending,
                name := final_name, type := pyStrip typ,
                description := descQualityFix final_description }])
    else (i4, [])

/-- The offset+name branch of `parse_register_tables` (lines 927-973). -/
def regOffsetNameBranch (lines : List String) (i : Nat) (table : Option String)
    (off name : String) : Nat × RegisterRow :=
  let N := lines.length
  let tp :=
    if i + 1 < N ∧ is_type_token (getLine lines (i + 1)) then
      (getLine lines (i + 1), i + 2)
    else ("", i + 1)
  let dl := regDescLoop lines (N - tp.2 + 1) tp.2 []
  (dl.1,
   { table := table.getD "", offset := off, name := name,
     type := if tp.1 ≠ "" then pyStrip tp.1 else "-",
     description := if dl.2 ≠ [] then pyStrip (" ".intercalate dl.2) else name })

/-- The main scanning loop of `parse_register_tables`.  `none` means the
fuel was exhausted; claim C9 proves the bound `2*length + 1` suffices
(every iteration advances the index except the `8.3.` section close,
which flips the mode flag instead). -/
def parseRegLoop (lines : List String) : Nat → Nat → Option String → Bool → String →
    List RegisterRow → Option (List RegisterRow)
  | 0, _, _, _, _, _ => none
  | fuel + 1, i, table, mode, pending, acc =>
    if i < lines.length then
      if isHeading (getLine lines i) then
        parseRegLoop lines fuel (i + 1) (some (getLine lines i))
          (containsSub (pyLower (getLine lines i)) "register summary") "" acc
      else if mode = false then parseRegLoop lines fuel (i + 1) table mode pending acc
      else if pyStartsWith (getLine lines i) "__PAGE_BREAK_" ||
          HEADER_LABELS.contains (pyLower (getLine lines i)) ||
          ofsNameHeader (getLine lines i) then
        parseRegLoop lines fuel (i + 1) table mode pending acc
      else if sectionEnd83 (getLine lines i) then
        parseRegLoop lines fuel i table false pending acc
      else
        match tryPatternRows table (getLine lines i) with
        | some rows => parseRegLoop lines fuel (i + 1) table mode pending (acc ++ rows)
        | none =>
          match offsetNameMatch (getLine lines i).data with
          | some (off, name) =>
            parseRegLoop lines fuel (regOffsetNameBranch lines i table off name).1
              table mode ""
              (acc ++ [(regOffsetNameBranch lines i table off name).2])
          | none =>
            if is_addr_line (getLine lines i) || is_offset_token (getLine lines i) ||
                is_range_token (getLine lines i) || is_addr_token (getLine lines i) then
              parseRegLoop lines fuel (i + 1) table mode
                (pyStrip (pending ++ " " ++ getLine lines i)) acc
            else if isSectionHeading (getLine lines i) then
              parseRegLoop lines fuel (i + 1) table mode "" acc
            else if is_probable_name (getLine lines i) then
              parseRegLoop lines fuel (regNameBranch lines i table pending).1 table mode ""
                (acc ++ (regNameBranch lines i table pending).2)
            else parseRegLoop lines fuel (i + 1) table mode pending acc
    else some acc

/-- `parse_register_tables` with the fuel bound of claim C9. -/
def parse_register_tablesOpt (lines : List String) : Option (List RegisterRow) :=
  parseRegLoop lines (2 * lines.length + 1) 0 none false "" []

/-- `parse_register_tables` as a total function. -/
def parse_register_tables (lines : List String) : List RegisterRow :=
  (parse_register_tablesOpt lines).getD []

/-! `split_concatenated_registers` and `remove_spurious_reserved_entries`. -/

/-- Character class `[a-zA-Z0-9_\- ]` of the embedded-register name. -/
def rpNameChar (c : Char) : Bool :=
  isLetterChar c || c.isDigit || c = '_' || c = '-' || c = ' '

/-- The `\s+(TOK)\b` part of the embedded-register pattern at the current
position (at most one token can fit a given position thanks to the word
boundary). -/
def rpTokAt (s : List Char) : Option (String × List Char) :=
  match spacesSplit1 s with
  | some (_, r) =>
    firstSome (fun tok =>
      match eatLit tok.data r with
      | some r2 => if tailBoundaryOK r2 then some (tok, r2) else none
      | none => none) TYPE_TOKENS
  | none => none

/-- Lazy growth of the embedded-register name: stop at the first point
where `\s+(TOK)\b` continues the match. -/
def rpNameGrow : Nat → List Char → List Char → Option (List Char × String × List Char)
  | 0, _, _ => none
  | fuel + 1, nameRev, rest =>
    match rpTokAt rest with
    | some (tok, r2) => some (nameRev.reverse, tok, r2)
    | none =>
      match rest with
      | c :: r2 => if rpNameChar c then rpNameGrow fuel (c :: nameRev) r2 else none
      | [] => none

/-- One attempt of the embedded-register pattern
`(0x[0-9A-Fa-f]+)\s+([a-zA-Z_][a-zA-Z0-9_\- ]*?)\s+(TOK)\b` at the current
position; returns `(rest, offset, name, token)`. -/
def rpMatchAt (s : List Char) : Option (List Char × String × String × String) :=
  match s with
  | '0' :: 'x' :: r =>
    (match eatRun1 isHexChar r with
     | some (run, r2) =>
       (match spacesSplit1 r2 with
        | some (_, r3) =>
          (match r3 with
           | c :: r4 =>
             if isIdentHead c then
               match rpNameGrow (r4.length + 1) [c] r4 with
               | some (nameCs, tok, r5) =>
                 some (r5, "0x" ++ String.mk run, String.mk nameCs, tok)
               | none => none
             else none
           | [] => none)
        | none => none)
     | none => none)
  | _ => none

/-- `re.finditer` scan for the embedded-register pattern, collecting
`(start, end, offset, name, token)` for each non-overlapping match. -/
def rpGo : Nat → Nat → List Char → List (Nat × Nat × String × String × String)
  | 0, _, _ => []
  | fuel + 1, pos, s =>
    match s with
    | [] => []
    | c :: rest =>
      match rpMatchAt (c :: rest) with
      | some (r5, off, name, tok) =>
        (pos, pos + ((c :: rest).length - r5.length), off, name, tok) ::
          rpGo fuel (pos + ((c :: rest).length - r5.length))
            ((c :: rest).drop ((c :: rest).length - r5.length))
      | none => rpGo fuel (pos + 1) rest

/-- All embedded-register matches of a description. -/
def rpFindAll (s : String) : List (Nat × Nat × String × String × String) :=
  rpGo (s.data.length + 1) 0 s.data

/-- Python `str.replace('_ ', '_')`. -/
def replUS : List Char → List Char
  | '_' :: ' ' :: r => '_' :: replUS r
  | c :: r => c :: replUS r
  | [] => []

/-- End of the description slice for one embedded match: the start of the
first later match, or the end of the text. -/
def rpDescEnd (mlist : List (Nat × Nat × String × String × String))
    (mEnd total : Nat) : Nat :=
  match mlist.find? (fun m => mEnd < m.1) with
  | some m => m.1
  | none => total

/-- New rows produced from the embedded matches of one row's description. -/
def rpNewRows (row : RegisterRow) (desc : String)
    (mlist : List (Nat × Nat × String × String × String)) : List RegisterRow :=
  mlist.filterMap (fun m =>
    let name := String.mk (replUS m.2.2.2.1.data)
    let dEnd := rpDescEnd mlist m.2.1 desc.data.length
    let regDesc0 := pyStrip (String.mk ((desc.data.take dEnd).drop m.2.1))
    let regDesc := if pyStartsWith regDesc0 name
      then pyStrip (String.mk (regDesc0.data.drop name.data.length))
      else regDesc0
    if name ≠ "" ∧ ¬pyStartsWith name "0x" then
      some { table := row.table, offset := m.2.2.1, name := name, type := m.2.2.2.2,
             description := if regDesc ≠ "" then regDesc else name }
    else none)

/-- Source function `split_concatenated_registers`. -/
def split_concatenated_registers (rows : List RegisterRow) : List RegisterRow :=
  rows.flatMap (fun row =>
    if row.description ≠ "" then
      let mlist := rpFindAll row.description
      match mlist with
      | [] => [row]
      | m :: _ =>
        let headRow :=
          if 0 < m.1 then
            let cleanDesc := pyStrip (String.mk (row.description.data.take m.1))
            { row with description := if cleanDesc ≠ "" then cleanDesc else row.name }
          else { row with description := row.name }
        headRow :: rpNewRows row row.description mlist
    else [row])

/-- The single-row spurious-name test of
`remove_spurious_reserved_entries` (bit-diagram noise patterns). -/
def spuriousSingleName (name : String) : Bool :=
  let low := pyLower name
  low = "reserved" ||
  containsSub low "reserved logical_id" ||
  containsSub low "reserveddtc_domain" ||
  containsSub low "reserved mem_data_credits" ||
  (pyStartsWith low "reserved" &&
    (containsSub low "mem_data_credits" || containsSub low "logical_id" ||
     containsSub low "dtc_domain" || containsSub low "num_device_port"))

/-- Source function `remove_spurious_reserved_entries`: drop co-located
`Reserved` rows that share `(table, offset)` with a non-Reserved row, and
lone rows whose names match the known bit-diagram noise patterns. -/
def remove_spurious_reserved_entries (rows : List RegisterRow) : List RegisterRow :=
  (rows.enum.filter (fun p =>
    let grp := rows.enum.filter (fun q => q.2.table = p.2.table ∧ q.2.offset = p.2.offset)
    let name := pyStrip p.2.name
    if 1 < grp.length then
      ¬(pyStartsWith (pyLower name) "reserved" = true ∧
        grp.any (fun q => q.1 ≠ p.1 ∧
          pyStartsWith (pyLower (pyStrip q.2.name)) "reserved" = false))
    else spuriousSingleName name = false)).map Prod.snd

/-- The register half of the `extract` pipeline: parse, split concatenated
rows, repair, drop reset-noise names, drop spurious Reserved rows, and
de-duplicate by `(table, offset, name)` keeping the first occurrence. -/
def regPipeline (lines : List String) : List RegisterRow :=
  let rows := parse_register_tables lines
  let rows := split_concatenated_registers rows
  let rows := clean_rows_reg rows
  let rows := rows.filter (fun r => reset_noise_search r.name = false)
  let rows := remove_spurious_reserved_entries rows
  dedupBy regKey rows

/-- C6 counterexample: the offset+name fallback branch emits its name
without the `is_probable_name` reject-list, so the column-header label
`Offset` — a member of the claim's boilerplate reject set — survives the
whole pipeline as a register name. -/
theorem C6_counterexample :
    regPipeline ["Table 1-1: cfg register summary", "0x100 Offset"] =
      [{ table := "Table 1-1: cfg register summary", offset := "0x100",
         name := "Offset", type := "-", description := "Offset" }] ∧
    HEADER_LABELS.contains (pyLower "Offset") = true := by
  constructor
  · decide
  · decide


/-! Lemmas for the amended C6 invariant: every register name that survives
the pipeline is non-empty and at most 120 characters long. -/

theorem strDataAppend (a b : String) : (a ++ b).data = a.data ++ b.data := by
  cases a
  cases b
  rfl

theorem strMkLen (l : List Char) : (String.mk l).length = l.length := rfl

theorem strNe_lenPos {t : String} (h : t ≠ "") : 0 < t.length := by
  cases t with
  | mk l =>
    cases l with
    | nil => exact absurd rfl h
    | cons c r => simp [strMkLen]

theorem strAppend_len (a b : String) : (a ++ b).length = a.length + b.length := by
  show (a ++ b).data.length = a.data.length + b.data.length
  rw [strDataAppend, List.length_append]

theorem identHead_not_space {c : Char} (h : isIdentHead c = true) : pySpace c = false := by
  cases hps : pySpace c with
  | false => rfl
  | true =>
    exfalso
    simp only [pySpace, Bool.or_eq_true, decide_eq_true_eq] at hps
    rcases hps with ((((h1 | h1) | h1) | h1) | h1) | h1 <;>
      (subst h1; exact absurd h (by decide))

theorem probable_name_inv {s : String} (h : is_probable_name s = true) :
    s = "ReservedReserved" ∨ (s = "+" ∨ s = "*" ∨ s = "/" ∨ s = "%") ∨
      s.data.any isIdentHead = true := by
  simp only [is_probable_name] at h
  simp_all
  obtain ⟨-, -, -, -, -, -, -, -, -, -, -, -, -, -, hd⟩ := h
  rcases hd with h1 | h2 | h3
  · exact Or.inl h1
  · exact Or.inr (Or.inl h2)
  · exact Or.inr (Or.inr h3.2.2)

theorem probable_nonspace {s : String} (h : is_probable_name s = true) :
    ∃ c ∈ s.data, pySpace c = false := by
  rcases probable_name_inv h with rfl | hlit | hany
  · exact ⟨'R', by decide, by decide⟩
  · rcases hlit with rfl | rfl | rfl | rfl
    · exact ⟨'+', by decide, by decide⟩
    · exact ⟨'*', by decide, by decide⟩
    · exact ⟨'/', by decide, by decide⟩
    · exact ⟨'%', by decide, by decide⟩
  · rw [List.any_eq_true] at hany
    obtain ⟨c, hc, hic⟩ := hany
    exact ⟨c, hc, identHead_not_space hic⟩

theorem dropWhile_nil_all {p : Char → Bool} :
    ∀ {l : List Char}, l.dropWhile p = [] → ∀ x ∈ l, p x = true := by
  intro l
  induction l with
  | nil => intro _ x hx; simp at hx
  | cons a r ih =>
    intro h x hx
    rw [List.dropWhile_cons] at h
    by_cases hp : p a = true
    · rw [if_pos hp] at h
      rcases List.mem_cons.mp hx with rfl | hx2
      · exact hp
      · exact ih h x hx2
    · rw [if_neg hp] at h
      exact absurd h (by simp)

theorem pyStrip_ne_of_nonspace {s : String} (h : ∃ c ∈ s.data, pySpace c = false) :
    pyStrip s ≠ "" := by
  obtain ⟨c, hc, hcs⟩ := h
  intro he
  have hnil : pyStripL s.data = [] := congrArg String.data he
  unfold pyStripL at hnil
  rw [List.reverse_eq_nil_iff] at hnil
  have hsplit := (List.takeWhile_append_dropWhile (p := pySpace) (l := s.data)).symm
  rw [hsplit] at hc
  have hcd : c ∈ s.data.dropWhile pySpace := by
    rcases List.mem_append.mp hc with h1 | h1
    · exact absurd (List.mem_takeWhile_imp h1) (by simp [hcs])
    · exact h1
  have hct := dropWhile_nil_all hnil c (List.mem_reverse.mpr hcd)
  rw [hct] at hcs
  exact absurd hcs (by simp)

theorem tailSVD_name {s : List Char} {p : String × Option String × String}
    (h : tailSVD s = some p) : pyStrip p.1 ≠ "" := by
  unfold tailSVD at h
  cases h1 : eatRun1 (fun c => !pySpace c) s with
  | none => rw [h1] at h; exact absurd h (by simp)
  | some q =>
    obtain ⟨nm, r⟩ := q
    obtain ⟨_, hne, hall⟩ := eatRun1_inv h1
    rw [h1] at h
    simp only at h
    have hex : ∃ c ∈ (String.mk nm).data, pySpace c = false := by
      cases nm with
      | nil => exact absurd rfl hne
      | cons c rest =>
        refine ⟨c, by simp, ?_⟩
        have hb := hall c (by simp)
        cases hps : pySpace c with
        | false => rfl
        | true => rw [hps] at hb; exact absurd hb (by simp)
    cases h2 : eatSpaces1 r with
    | none => rw [h2] at h; exact absurd h (by simp)
    | some r2 =>
      rw [h2] at h
      simp only at h
      cases h3 : eatRun1 (fun c => !pySpace c) r2 with
      | some q2 =>
        obtain ⟨ty, r3⟩ := q2
        rw [h3] at h
        simp only [Option.some.injEq] at h
        rw [← h]
        exact pyStrip_ne_of_nonspace hex
      | none =>
        rw [h3] at h
        simp only [Option.some.injEq] at h
        rw [← h]
        exact pyStrip_ne_of_nonspace hex

theorem offsetTail_name {g : Bool} {off rest : List Char}
    {q : String × String × Option String × String}
    (h : offsetTail g off rest = some q) : pyStrip q.2.1 ≠ "" := by
  unfold offsetTail at h
  split at h
  · cases h1 : spacesSplit1 rest with
    | none => rw [h1] at h; exact absurd h (by simp)
    | some pr =>
      obtain ⟨sp, r⟩ := pr
      rw [h1] at h
      simp only at h
      cases h2 : tailSVD r with
      | none => rw [h2] at h; exact absurd h (by simp)
      | some p3 =>
        obtain ⟨nm, ty, d⟩ := p3
        rw [h2] at h
        simp only [Option.some.injEq] at h
        rw [← h]
        exact tailSVD_name h2
  · cases h2 : tailSVD (eatSpaces0 rest) with
    | none => rw [h2] at h; exact absurd h (by simp)
    | some p3 =>
      obtain ⟨nm, ty, d⟩ := p3
      rw [h2] at h
      simp only [Option.some.injEq] at h
      rw [← h]
      exact tailSVD_name h2

theorem regFields_fst (nm : String) (tyOpt : Option String) (d : String) :
    (regFields nm tyOpt d).1 = pyStrip nm := by
  simp only [regFields]
  split <;> rfl

theorem dash_append_ne (x y z : String) : x ++ y ++ "-" ++ z ≠ "" := by
  intro he
  have hlen := congrArg String.length he
  rw [strAppend_len, strAppend_len, strAppend_len] at hlen
  have h1 : ("-" : String).length = 1 := rfl
  have h0 : ("" : String).length = 0 := rfl
  rw [h1, h0] at hlen
  omega

theorem gsrn_ne_empty (base : String) (a b : Nat) :
    generate_segmented_register_name base a b ≠ "" := by
  simp only [generate_segmented_register_name]
  exact dash_append_ne _ _ _

theorem multiSegRows_names {table : Option String} {offset name ty desc : String}
    (hn : name ≠ "") :
    ∀ r ∈ multiSegRows table offset name ty desc, r.name ≠ "" := by
  intro r hr
  simp only [multiSegRows] at hr
  split at hr
  · rw [List.mem_map] at hr
    obtain ⟨p, _, hp⟩ := hr
    rw [← hp]
    exact gsrn_ne_empty name p.2.1 p.2.2
  · rw [List.mem_singleton] at hr
    rw [hr]
    exact hn

theorem firstSome_inv {α β : Type} {f : α → Option β} {l : List α} {b : β}
    (h : firstSome f l = some b) : ∃ a ∈ l, f a = some b := by
  induction l with
  | nil => simp [firstSome] at h
  | cons a rest ih =>
    rw [firstSome] at h
    cases hf : f a with
    | some c =>
      rw [hf] at h
      simp only [Option.some.injEq] at h
      exact ⟨a, by simp, by rw [hf, h]⟩
    | none =>
      rw [hf] at h
      obtain ⟨x, hx, hfx⟩ := ih h
      exact ⟨x, by simp [hx], hfx⟩

theorem multiSegMatch_name {s : List Char} {q : String × String × Option String × String}
    (h : multiSegMatch s = some q) : pyStrip q.2.1 ≠ "" := by
  unfold multiSegMatch at h
  cases h1 : segEat s with
  | none => rw [h1] at h; exact absurd h (by simp)
  | some pr =>
    obtain ⟨seg1, r1⟩ := pr
    rw [h1] at h
    simp only at h
    obtain ⟨snap, _, hsnap⟩ := firstSome_inv h
    cases h2 : tailSVD (eatSpaces0 snap.2) with
    | none => rw [h2] at hsnap; exact absurd hsnap (by simp)
    | some p3 =>
      obtain ⟨nm, ty, d⟩ := p3
      rw [h2] at hsnap
      simp only [Option.some.injEq] at hsnap
      rw [← hsnap]
      exact tailSVD_name h2

theorem tryPatternRows5_names {table : Option String} {s : String}
    {rows : List RegisterRow} (h : tryPatternRows5 table s = some rows) :
    ∀ r ∈ rows, r.name ≠ "" := by
  unfold tryPatternRows5 at h
  cases h1 : hexTokenEat s.data with
  | none => rw [h1] at h; exact absurd h (by simp)
  | some pr =>
    obtain ⟨off, rest⟩ := pr
    rw [h1] at h
    simp only at h
    cases h2 : offsetTail true off rest with
    | none => rw [h2] at h; exact absurd h (by simp)
    | some q =>
      obtain ⟨offText, nm, tyOpt, descRaw⟩ := q
      rw [h2] at h
      simp only [Option.some.injEq] at h
      intro r hr
      rw [← h] at hr
      split at hr
      · rw [List.mem_singleton] at hr
        rw [hr]
        show (regFields nm tyOpt descRaw).1 ≠ ""
        rw [regFields_fst]
        exact offsetTail_name h2
      · simp at hr

theorem tryPatternRows4_names {table : Option String} {s : String}
    {rows : List RegisterRow} (h : tryPatternRows4 table s = some rows) :
    ∀ r ∈ rows, r.name ≠ "" := by
  unfold tryPatternRows4 at h
  cases h1 : plusPairEat s.data with
  | none =>
    rw [h1] at h
    simp only at h
    exact tryPatternRows5_names h
  | some pr =>
    obtain ⟨off, rest⟩ := pr
    rw [h1] at h
    simp only at h
    cases h2 : offsetTail true off rest with
    | none =>
      rw [h2] at h
      simp only at h
      exact tryPatternRows5_names h
    | some q =>
      obtain ⟨offText, nm, tyOpt, descRaw⟩ := q
      rw [h2] at h
      simp only [Option.some.injEq] at h
      intro r hr
      rw [← h] at hr
      split at hr
      · rw [List.mem_singleton] at hr
        rw [hr]
        show (regFields nm tyOpt descRaw).1 ≠ ""
        rw [regFields_fst]
        exact offsetTail_name h2
      · simp at hr

theorem tryPatternRows3_names {table : Option String} {s : String}
    {rows : List RegisterRow} (h : tryPatternRows3 table s = some rows) :
    ∀ r ∈ rows, r.name ≠ "" := by
  unfold tryPatternRows3 at h
  cases h1 : rangePairEat s.data with
  | none =>
    rw [h1] at h
    simp only at h
    exact tryPatternRows4_names h
  | some pr =>
    obtain ⟨off, rest⟩ := pr
    rw [h1] at h
    simp only at h
    cases h2 : offsetTail true off rest with
    | none =>
      rw [h2] at h
      simp only at h
      exact tryPatternRows4_names h
    | some q =>
      obtain ⟨offText, nm, tyOpt, descRaw⟩ := q
      rw [h2] at h
      simp only [Option.some.injEq] at h
      intro r hr
      rw [← h] at hr
      rw [List.mem_singleton] at hr
      rw [hr]
      show (regFields nm tyOpt descRaw).1 ≠ ""
      rw [regFields_fst]
      exact offsetTail_name h2

theorem tryPatternRows_names {table : Option String} {s : String}
    {rows : List RegisterRow} (h : tryPatternRows table s = some rows) :
    ∀ r ∈ rows, r.name ≠ "" := by
  unfold tryPatternRows at h
  cases h1 : multiSegMatch s.data with
  | some q =>
    obtain ⟨offText, nm, tyOpt, descRaw⟩ := q
    rw [h1] at h
    simp only [Option.some.injEq] at h
    intro r hr
    rw [← h] at hr
    refine multiSegRows_names ?_ r hr
    rw [regFields_fst]
    exact multiSegMatch_name h1
  | none =>
    rw [h1] at h
    simp only at h
    cases h2 : singleArrayEat s.data with
    | none =>
      rw [h2] at h
      simp only at h
      exact tryPatternRows3_names h
    | some pr =>
      obtain ⟨off, rest⟩ := pr
      rw [h2] at h
      simp only at h
      cases h3 : offsetTail false off rest with
      | none =>
        rw [h3] at h
        simp only at h
        exact tryPatternRows3_names h
      | some q =>
        obtain ⟨offText, nm, tyOpt, descRaw⟩ := q
        rw [h3] at h
        simp only [Option.some.injEq] at h
        intro r hr
        rw [← h] at hr
        rw [List.mem_singleton] at hr
        rw [hr]
        show (regFields nm tyOpt descRaw).1 ≠ ""
        rw [regFields_fst]
        exact offsetTail_name h3

theorem offsetNameMatch_name {s : List Char} {off name : String}
    (h : offsetNameMatch s = some (off, name)) : name ≠ "" := by
  unfold offsetNameMatch at h
  cases h1 : hexTokenEat s with
  | none => rw [h1] at h; exact absurd h (by simp)
  | some pr =>
    obtain ⟨o, r⟩ := pr
    rw [h1] at h
    simp only at h
    cases h2 : eatSpaces1 r with
    | none => rw [h2] at h; exact absurd h (by simp)
    | some r2 =>
      rw [h2] at h
      simp only at h
      split at h
      case isTrue hv =>
        simp only [Option.some.injEq, Prod.mk.injEq] at h
        obtain ⟨_, hn⟩ := h
        rw [← hn]
        cases r2 with
        | nil => exact absurd hv (by simp [identSeqValid])
        | cons c r3 =>
          intro he
          simpa using congrArg String.data he
      case isFalse _ => exact absurd h (by simp)

theorem regOffsetNameBranch_name (lines : List String) (i : Nat) (table : Option String)
    (off name : String) :
    (regOffsetNameBranch lines i table off name).2.name = name := rfl

theorem nameContLoop_keep (lines : List String) :
    ∀ (fuel i : Nat) (init : String), (∃ c ∈ init.data, pySpace c = false) →
      ∃ c ∈ ((nameContLoop lines fuel i init).2).data, pySpace c = false := by
  intro fuel
  induction fuel with
  | zero => intro i init h; exact h
  | succ n ih =>
    intro i init h
    rw [nameContLoop]
    split
    · apply ih
      obtain ⟨c, hc, hcs⟩ := h
      refine ⟨c, ?_, hcs⟩
      rw [strDataAppend]
      exact List.mem_append_left _ hc
    · exact h

theorem regNameBranch_names (lines : List String) (i : Nat) (table : Option String)
    (pending : String) (hp : is_probable_name (getLine lines i) = true) :
    ∀ r ∈ (regNameBranch lines i table pending).2, r.name ≠ "" := by
  intro r hr
  have hjoin := nameContLoop_keep lines (lines.length - (i + 1) + 1) (i + 1)
    (getLine lines i) (probable_nonspace hp)
  simp only [regNameBranch] at hr
  split at hr
  · simp at hr
  · split at hr
    · split at hr
      · simp at hr
      · simp only [List.mem_singleton] at hr
        subst hr
        exact pyStrip_ne_of_nonspace hjoin
    · simp at hr

theorem parseRegLoop_names (lines : List String) :
    ∀ fuel i table mode pending acc rows,
      (∀ r ∈ acc, r.name ≠ "") →
      parseRegLoop lines fuel i table mode pending acc = some rows →
      ∀ r ∈ rows, r.name ≠ "" := by
  intro fuel
  induction fuel with
  | zero =>
    intro i table mode pending acc rows hacc heq
    simp [parseRegLoop] at heq
  | succ fuel ih =>
    intro i table mode pending acc rows hacc heq
    rw [parseRegLoop] at heq
    by_cases hi : i < lines.length
    · rw [if_pos hi] at heq
      split at heq
      · exact ih _ _ _ _ _ _ hacc heq
      · split at heq
        · exact ih _ _ _ _ _ _ hacc heq
        · split at heq
          · exact ih _ _ _ _ _ _ hacc heq
          · split at heq
            · exact ih _ _ _ _ _ _ hacc heq
            · split at heq
              case _ rows1 hrows =>
                refine ih _ _ _ _ _ _ ?_ heq
                intro r hr
                rcases List.mem_append.mp hr with h | h
                · exact hacc r h
                · exact tryPatternRows_names hrows r h
              case _ hnone =>
                split at heq
                case _ off name hmatch =>
                  refine ih _ _ _ _ _ _ ?_ heq
                  intro r hr
                  rcases List.mem_append.mp hr with h | h
                  · exact hacc r h
                  · rw [List.mem_singleton] at h
                    rw [h, regOffsetNameBranch_name]
                    exact offsetNameMatch_name hmatch
                case _ =>
                  split at heq
                  · exact ih _ _ _ _ _ _ hacc heq
                  · split at heq
                    · exact ih _ _ _ _ _ _ hacc heq
                    · split at heq
                      case _ hprob =>
                        refine ih _ _ _ _ _ _ ?_ heq
                        intro r hr
                        rcases List.mem_append.mp hr with h | h
                        · exact hacc r h
                        · exact regNameBranch_names lines _ table pending hprob r h
                      case _ => exact ih _ _ _ _ _ _ hacc heq
    · rw [if_neg hi] at heq
      injection heq with h
      subst h
      exact hacc

theorem parse_register_tables_names (lines : List String) :
    ∀ r ∈ parse_register_tables lines, r.name ≠ "" := by
  intro r hr
  unfold parse_register_tables parse_register_tablesOpt at hr
  cases hopt : parseRegLoop lines (2 * lines.length + 1) 0 none false "" [] with
  | none => rw [hopt] at hr; simp at hr
  | some rows =>
    rw [hopt] at hr
    exact parseRegLoop_names lines _ _ _ _ _ [] rows (by simp) hopt r hr

theorem rpNewRows_names (row : RegisterRow) (desc : String)
    (mlist : List (Nat × Nat × String × String × String)) :
    ∀ r ∈ rpNewRows row desc mlist, r.name ≠ "" := by
  intro r hr
  simp only [rpNewRows, List.mem_filterMap] at hr
  obtain ⟨m, _, hm⟩ := hr
  split at hm
  case isTrue hcond =>
    simp only [Option.some.injEq] at hm
    rw [← hm]
    exact hcond.1
  case isFalse _ => exact absurd hm (by simp)

theorem split_concat_names {rows : List RegisterRow}
    (h : ∀ r ∈ rows, r.name ≠ "") :
    ∀ r ∈ split_concatenated_registers rows, r.name ≠ "" := by
  intro r hr
  simp only [split_concatenated_registers, List.mem_flatMap] at hr
  obtain ⟨row, hrow, hr⟩ := hr
  split at hr
  · split at hr
    · rw [List.mem_singleton] at hr
      rw [hr]
      exact h row hrow
    · rcases List.mem_cons.mp hr with rfl | hr2
      · split
        · exact h row hrow
        · exact h row hrow
      · exact rpNewRows_names row row.description _ r hr2
  · rw [List.mem_singleton] at hr
    rw [hr]
    exact h row hrow

/-! `separate_name_and_type` keeps names non-empty and no longer than the
input; the supporting facts about `str.split()` and `' '.join`. -/

theorem splitWSAux_parts_ne :
    ∀ (l acc : List Char), ∀ p ∈ splitWSAux l acc, p ≠ "" := by
  intro l
  induction l with
  | nil =>
    intro acc p hp
    simp only [splitWSAux] at hp
    split at hp
    · simp at hp
    case isFalse hne =>
      rw [List.mem_singleton] at hp
      rw [hp]
      intro he
      have hd : acc.reverse = [] := congrArg String.data he
      rw [List.reverse_eq_nil_iff] at hd
      exact hne (by rw [hd]; rfl)
  | cons c rest ih =>
    intro acc p hp
    simp only [splitWSAux] at hp
    split at hp
    · split at hp
      · exact ih [] p hp
      case isFalse hne =>
        rcases List.mem_cons.mp hp with rfl | hp2
        · intro he
          have hd : acc.reverse = [] := congrArg String.data he
          rw [List.reverse_eq_nil_iff] at hd
          exact hne (by rw [hd]; rfl)
        · exact ih [] p hp2
    · exact ih (c :: acc) p hp

theorem splitWSAux_len_bound :
    ∀ (l acc : List Char),
      ((splitWSAux l acc).map String.length).sum + (splitWSAux l acc).length ≤
        l.length + acc.length + 1 := by
  intro l
  induction l with
  | nil =>
    intro acc
    simp only [splitWSAux]
    split
    · simp
    · simp only [List.map_cons, List.map_nil, List.sum_cons, List.sum_nil,
        List.length_cons, List.length_nil, strMkLen, List.length_reverse,
        List.length_nil]
      omega
  | cons c rest ih =>
    intro acc
    simp only [splitWSAux]
    split
    · split
      · have hb := ih []
        simp only [List.length_nil, List.length_cons] at hb ⊢
        omega
      · have hb := ih []
        simp only [List.map_cons, List.sum_cons, List.length_cons, List.length_nil,
          strMkLen, List.length_reverse] at hb ⊢
        omega
    · have hb := ih (c :: acc)
      simp only [List.length_cons] at hb ⊢
      omega

theorem getLast?_split {α : Type} :
    ∀ {l : List α} {a : α}, l.getLast? = some a → l = l.dropLast ++ [a] := by
  intro l
  induction l with
  | nil => intro a h; simp at h
  | cons x rest ih =>
    intro a h
    cases rest with
    | nil =>
      have hxa : x = a := by simpa using h
      simp [hxa]
    | cons y t =>
      rw [List.getLast?_cons_cons] at h
      have h2 := ih h
      have h3 : (x :: y :: t).dropLast = x :: (y :: t).dropLast := rfl
      rw [h3, List.cons_append, ← h2]

theorem interGo_ne :
    ∀ (l : List String) (acc : String), acc ≠ "" →
      String.intercalate.go acc " " l ≠ "" := by
  intro l
  induction l with
  | nil =>
    intro acc h
    rw [String.intercalate.go]
    exact h
  | cons a as ih =>
    intro acc h
    rw [String.intercalate.go]
    apply ih
    intro he
    have hlen := congrArg String.length he
    rw [strAppend_len, strAppend_len] at hlen
    have h0 : ("" : String).length = 0 := rfl
    rw [h0] at hlen
    have hpos := strNe_lenPos h
    omega

theorem interGo_len :
    ∀ (l : List String) (acc : String),
      (String.intercalate.go acc " " l).length ≤
        acc.length + ((l.map String.length).sum + l.length) := by
  intro l
  induction l with
  | nil =>
    intro acc
    rw [String.intercalate.go]
    simp
  | cons a as ih =>
    intro acc
    rw [String.intercalate.go]
    have h2 := ih (acc ++ " " ++ a)
    rw [strAppend_len, strAppend_len] at h2
    have hsp : (" " : String).length = 1 := rfl
    rw [hsp] at h2
    simp only [List.map_cons, List.sum_cons, List.length_cons]
    omega

theorem intercalate_sp_len (ps : List String) :
    (" ".intercalate ps).length ≤ (ps.map String.length).sum + ps.length := by
  cases ps with
  | nil => simp [String.intercalate]
  | cons p rest =>
    rw [String.intercalate]
    have hb := interGo_len rest p
    simp only [List.map_cons, List.sum_cons, List.length_cons]
    omega

theorem intercalate_sp_ne {ps : List String} (hne : ps ≠ [])
    (hall : ∀ p ∈ ps, p ≠ "") : " ".intercalate ps ≠ "" := by
  cases ps with
  | nil => exact absurd rfl hne
  | cons p rest =>
    rw [String.intercalate]
    exact interGo_ne rest p (hall p (by simp))

theorem valid_sep_ne {n t name : String}
    (h : is_valid_name_type_separation n t name = true) : n ≠ "" := by
  intro he
  subst he
  simp [is_valid_name_type_separation] at h

theorem dropEnd_len_le (s : String) (n : Nat) : (dropEnd s n).length ≤ s.length := by
  show (s.data.take (s.data.length - n)).length ≤ s.data.length
  rw [List.length_take]
  omega

theorem sep_name_props {name : String} (hn : name ≠ "") :
    (separate_name_and_type name).1 ≠ "" ∧
      (separate_name_and_type name).1.length ≤ name.length := by
  simp only [separate_name_and_type]
  rw [if_neg hn]
  cases hlast : (pySplitWS name).getLast? with
  | none =>
    cases hf : findConcatSplit SORTED_TYPE_TOKENS name with
    | none => exact ⟨hn, le_refl _⟩
    | some p =>
      obtain ⟨n2, t2⟩ := p
      obtain ⟨_, _, hdrop, hvalid⟩ := findConcatSplit_sound hf
      refine ⟨valid_sep_ne hvalid, ?_⟩
      rw [hdrop]
      exact dropEnd_len_le name t2.length
  | some last =>
    dsimp only
    split
    case isTrue hcond =>
      have hparts := getLast?_split hlast
      have hdlne : (pySplitWS name).dropLast ≠ [] := by
        have hlen := congrArg List.length hparts
        rw [List.length_append] at hlen
        intro hnil
        rw [hnil] at hlen
        simp at hlen
        omega
      have hmem : ∀ p ∈ (pySplitWS name).dropLast, p ≠ "" := by
        intro p hp
        apply splitWSAux_parts_ne name.data []
        show p ∈ pySplitWS name
        rw [hparts]
        exact List.mem_append_left _ hp
      constructor
      · exact intercalate_sp_ne hdlne hmem
      · show (" ".intercalate (pySplitWS name).dropLast).length ≤ name.length
        have hi := intercalate_sp_len (pySplitWS name).dropLast
        have hbound := splitWSAux_len_bound name.data []
        have hbeq : splitWSAux name.data [] = pySplitWS name := rfl
        rw [hbeq] at hbound
        have hsum : ((pySplitWS name).map String.length).sum =
            (((pySplitWS name).dropLast.map String.length).sum) + last.length := by
          rw [hparts]
          simp
        have hcnt : (pySplitWS name).length = (pySplitWS name).dropLast.length + 1 := by
          rw [hparts]
          simp
        have hlastne : last ≠ "" := by
          apply splitWSAux_parts_ne name.data []
          show last ∈ pySplitWS name
          rw [hparts]
          exact List.mem_append_right _ (by simp)
        have hlp := strNe_lenPos hlastne
        have hnl : name.data.length = name.length := rfl
        simp only [List.length_nil] at hbound
        omega
    case isFalse _ =>
      cases hf : findConcatSplit SORTED_TYPE_TOKENS name with
      | none => exact ⟨hn, le_refl _⟩
      | some p =>
        obtain ⟨n2, t2⟩ := p
        obtain ⟨_, _, hdrop, hvalid⟩ := findConcatSplit_sound hf
        refine ⟨valid_sep_ne hvalid, ?_⟩
        rw [hdrop]
        exact dropEnd_len_le name t2.length

theorem clean_reserved_props {name : String} (hn : name ≠ "") (hl : name.length ≤ 120) :
    clean_reserved_name name ≠ "" ∧ (clean_reserved_name name).length ≤ 120 := by
  unfold clean_reserved_name
  split
  · exact ⟨by decide, by decide⟩
  · split
    · exact ⟨by decide, by decide⟩
    · exact ⟨hn, hl⟩

theorem fixDash_props {v : String} (hn : v ≠ "") (hl : v.length ≤ 120) :
    fixDash v ≠ "" ∧ (fixDash v).length ≤ 120 := by
  unfold fixDash
  split
  · exact ⟨by decide, by decide⟩
  · exact ⟨hn, hl⟩

theorem cleanRowReg_name {row r' : RegisterRow} (h : cleanRowReg row = some r')
    (hn : row.name ≠ "") : r'.name ≠ "" ∧ r'.name.length ≤ 120 := by
  simp only [cleanRowReg] at h
  split at h
  · exact absurd h (by simp)
  case isFalse hdrop =>
    simp only [Option.some.injEq] at h
    have h120 : row.name.length ≤ 120 := by
      by_contra hgt
      apply hdrop
      simp only [nameChecksDrop, Bool.or_eq_true, decide_eq_true_eq]
      have hlt : 120 < row.name.length := by omega
      tauto
    obtain ⟨hne, hle⟩ := sep_name_props hn
    have hr'name : r'.name =
        fixDash (clean_reserved_name (separate_name_and_type row.name).1) := by
      rw [← h]
    have hcrn := clean_reserved_props hne (le_trans hle h120)
    have hfd := fixDash_props hcrn.1 hcrn.2
    rw [hr'name]
    exact hfd

theorem clean_rows_reg_names {rows : List RegisterRow}
    (h : ∀ r ∈ rows, r.name ≠ "") :
    ∀ r ∈ clean_rows_reg rows, r.name ≠ "" ∧ r.name.length ≤ 120 := by
  intro r hr
  rw [clean_rows_reg, List.mem_filterMap] at hr
  obtain ⟨row, hrow, hcl⟩ := hr
  exact cleanRowReg_name hcl (h row hrow)

theorem enumFrom_snd_mem {α : Type} :
    ∀ (l : List α) (n : Nat) (p : Nat × α), p ∈ List.enumFrom n l → p.2 ∈ l := by
  intro l
  induction l with
  | nil => intro n p hp; simp at hp
  | cons a t ih =>
    intro n p hp
    have hp2 : p = (n, a) ∨ p ∈ List.enumFrom (n + 1) t := by
      simpa [List.enumFrom] using hp
    rcases hp2 with h | h
    · rw [h]; simp
    · exact List.mem_cons_of_mem _ (ih (n + 1) p h)

theorem remove_spurious_subset (rows : List RegisterRow) :
    ∀ r ∈ remove_spurious_reserved_entries rows, r ∈ rows := by
  intro r hr
  simp only [remove_spurious_reserved_entries, List.mem_map] at hr
  obtain ⟨p, hp, hpr⟩ := hr
  rw [List.mem_filter] at hp
  rw [← hpr]
  exact enumFrom_snd_mem rows 0 p hp.1

/-- C6 amended: registers in the final cleaned output all carry a non-empty
name of at most 120 characters (the claim's boilerplate reject set is not
re-checked after parsing, so reject-set labels can survive — see the
counterexample — but emptiness and the length cap do hold). -/
theorem C6_name_invariant (lines : List String) :
    ∀ r ∈ regPipeline lines, r.name ≠ "" ∧ r.name.length ≤ 120 := by
  intro r hr
  simp only [regPipeline, dedupBy] at hr
  have h1 := dedupBySeen_subset regKey _ [] r hr
  have h2 := remove_spurious_subset _ r h1
  have h3 := (List.mem_filter.mp h2).1
  exact clean_rows_reg_names
    (split_concat_names (parse_register_tables_names lines)) r h3

/-- The concrete pipeline output row used to witness the amended C6. -/
def rowC6 : RegisterRow :=
  { table := "Table 1-1: cfg register summary", offset := "0x100",
    name := "Offset", type := "-", description := "Offset" }

theorem C6_witness :
    rowC6 ∈ regPipeline ["Table 1-1: cfg register summary", "0x100 Offset"] ∧
      rowC6.name ≠ "" ∧ rowC6.name.length ≤ 120 :=
  ⟨by decide,
   C6_name_invariant ["Table 1-1: cfg register summary", "0x100 Offset"] rowC6 (by decide)⟩

/-! Lemmas for C9: the fuel bounds `length + 1` (attribute loop) and
`2 * length + 1` (register loop) always suffice — the source loops always
advance the line index, except the `8.3.` section close of the register
loop, which instead flips the in-summary mode flag (hence the factor 2 in
its measure). -/

theorem skipHdrLoop_ge (lines : List String) :
    ∀ (fuel i : Nat), i ≤ skipHdrLoop lines fuel i := by
  intro fuel
  induction fuel with
  | zero => intro i; exact le_refl i
  | succ n ih =>
    intro i
    rw [skipHdrLoop]
    split
    · exact le_trans (Nat.le_succ i) (ih (i + 1))
    · exact le_refl i

theorem nameContLoop_ge (lines : List String) :
    ∀ (fuel i : Nat) (s : String), i ≤ (nameContLoop lines fuel i s).1 := by
  intro fuel
  induction fuel with
  | zero => intro i s; exact le_refl i
  | succ n ih =>
    intro i s
    rw [nameContLoop]
    split
    · exact le_trans (Nat.le_succ i) (ih (i + 1) _)
    · exact le_refl i

theorem attrContLoop_ge (lines : List String) :
    ∀ (fuel j : Nat) (acc : List String), j ≤ (attrContLoop lines fuel j acc).1 := by
  intro fuel
  induction fuel with
  | zero => intro j acc; exact le_refl j
  | succ n ih =>
    intro j acc
    simp only [attrContLoop]
    split
    · split
      · split
        · exact le_trans (Nat.le_succ j) (ih (j + 1) _)
        · exact le_refl j
      · exact le_refl j
    · exact le_refl j

theorem oldDescLoop_ge (lines : List String) :
    ∀ (fuel i : Nat) (name : String) (acc : List String),
      i ≤ (oldDescLoop lines fuel i name acc).1 := by
  intro fuel
  induction fuel with
  | zero => intro i name acc; exact le_refl i
  | succ n ih =>
    intro i name acc
    simp only [oldDescLoop]
    split
    · split
      · exact le_refl i
      · split
        · exact le_trans (Nat.le_succ i) (ih (i + 1) _ _)
        · split
          · exact le_refl i
          · split
            · exact le_refl i
            · split
              · exact le_refl i
              · split
                · split
                  · exact le_trans (Nat.le_succ i) (ih (i + 1) _ _)
                  · exact le_trans (Nat.le_succ i) (ih (i + 1) _ _)
                · exact le_trans (Nat.le_succ i) (ih (i + 1) _ _)
    · exact le_refl i

theorem regDescLoop_ge (lines : List String) :
    ∀ (fuel i : Nat) (acc : List String), i ≤ (regDescLoop lines fuel i acc).1 := by
  intro fuel
  induction fuel with
  | zero => intro i acc; exact le_refl i
  | succ n ih =>
    intro i acc
    simp only [regDescLoop]
    split
    · split
      · exact le_trans (Nat.le_succ i) (ih (i + 1) _)
      · split
        · exact le_refl i
        · split
          · exact le_refl i
          · split
            · exact le_refl i
            · split
              · exact le_trans (Nat.le_succ i) (ih (i + 1) _)
              · split
                · exact le_refl i
                · exact le_trans (Nat.le_succ i) (ih (i + 1) _)
    · exact le_refl i

theorem typeLookahead_ge (lines : List String) (limit : Nat) :
    ∀ (fuel j : Nat), j ≤ (typeLookahead lines limit fuel j).2 := by
  intro fuel
  induction fuel with
  | zero => intro j; exact le_refl j
  | succ n ih =>
    intro j
    simp only [typeLookahead]
    split
    · split
      · exact le_trans (Nat.le_succ j) (ih (j + 1))
      · split
        · exact Nat.le_succ j
        · split
          · exact le_refl j
          · split
            · exact le_refl j
            · exact le_trans (Nat.le_succ j) (ih (j + 1))
    · exact le_refl j

theorem regOffsetNameBranch_ge (lines : List String) (i : Nat) (table : Option String)
    (off name : String) : i + 1 ≤ (regOffsetNameBranch lines i table off name).1 := by
  simp only [regOffsetNameBranch]
  split
  · have hd := regDescLoop_ge lines (lines.length - (i + 2) + 1) (i + 2) []
    dsimp only
    omega
  · have hd := regDescLoop_ge lines (lines.length - (i + 1) + 1) (i + 1) []
    dsimp only
    omega

theorem regNameBranch_ge (lines : List String) (i : Nat) (table : Option String)
    (pending : String) : i + 1 ≤ (regNameBranch lines i table pending).1 := by
  have ha := nameContLoop_ge lines (lines.length - (i + 1) + 1) (i + 1) (getLine lines i)
  have hb := typeLookahead_ge lines
    (min ((nameContLoop lines (lines.length - (i + 1) + 1) (i + 1) (getLine lines i)).1 + 5)
      lines.length)
    (min ((nameContLoop lines (lines.length - (i + 1) + 1) (i + 1) (getLine lines i)).1 + 5)
      lines.length -
      (nameContLoop lines (lines.length - (i + 1) + 1) (i + 1) (getLine lines i)).1 + 1)
    ((nameContLoop lines (lines.length - (i + 1) + 1) (i + 1) (getLine lines i)).1)
  have hc := regDescLoop_ge lines
    (lines.length -
      (typeLookahead lines
        (min ((nameContLoop lines (lines.length - (i + 1) + 1) (i + 1)
          (getLine lines i)).1 + 5) lines.length)
        (min ((nameContLoop lines (lines.length - (i + 1) + 1) (i + 1)
          (getLine lines i)).1 + 5) lines.length -
          (nameContLoop lines (lines.length - (i + 1) + 1) (i + 1) (getLine lines i)).1 + 1)
        ((nameContLoop lines (lines.length - (i + 1) + 1) (i + 1)
          (getLine lines i)).1)).2 + 1)
    ((typeLookahead lines
        (min ((nameContLoop lines (lines.length - (i + 1) + 1) (i + 1)
          (getLine lines i)).1 + 5) lines.length)
        (min ((nameContLoop lines (lines.length - (i + 1) + 1) (i + 1)
          (getLine lines i)).1 + 5) lines.length -
          (nameContLoop lines (lines.length - (i + 1) + 1) (i + 1) (getLine lines i)).1 + 1)
        ((nameContLoop lines (lines.length - (i + 1) + 1) (i + 1)
          (getLine lines i)).1)).2) []
  simp only [regNameBranch]
  split
  · dsimp only
    omega
  · split
    · split
      · dsimp only
        omega
      · dsimp only
        omega
    · dsimp only
      omega

theorem oldBitsBranch_ge (lines : List String) (i : Nat) (t rn : Option String) :
    i + 1 ≤ (oldBitsBranch lines i t rn).1 := by
  simp only [oldBitsBranch]
  set i1 := skipHdrLoop lines (lines.length - (i + 1) + 1) (i + 1) with hi1
  have h1 : i + 1 ≤ i1 := by
    rw [hi1]
    exact skipHdrLoop_ge lines _ _
  split
  · set nc := nameContLoop lines (lines.length - (i1 + 1) + 1) (i1 + 1)
      (pyStrip (getLine lines i1)) with hnc
    have h2 : i1 + 1 ≤ nc.1 := by
      rw [hnc]
      exact nameContLoop_ge lines _ _ _
    set dl := oldDescLoop lines (lines.length - nc.1 + 1) nc.1 nc.2 [] with hdl
    have h3 : nc.1 ≤ dl.1 := by
      rw [hdl]
      exact oldDescLoop_ge lines _ _ _ _
    set s2 := skipHdrLoop lines (lines.length - (dl.1 + 1) + 1) (dl.1 + 1) with hs2
    have h4 : dl.1 + 1 ≤ s2 := by
      rw [hs2]
      exact skipHdrLoop_ge lines _ _
    repeat' split
    all_goals dsimp only
    all_goals omega
  · dsimp only
    set dl := oldDescLoop lines (lines.length - i1 + 1) i1 "" [] with hdl
    have h3 : i1 ≤ dl.1 := by
      rw [hdl]
      exact oldDescLoop_ge lines _ _ _ _
    set s2 := skipHdrLoop lines (lines.length - (dl.1 + 1) + 1) (dl.1 + 1) with hs2
    have h4 : dl.1 + 1 ≤ s2 := by
      rw [hs2]
      exact skipHdrLoop_ge lines _ _
    repeat' split
    all_goals dsimp only
    all_goals omega

theorem parseAttrLoop_some (lines : List String) :
    ∀ fuel i inAttr table regName acc, lines.length - i < fuel →
      (parseAttrLoop lines fuel i inAttr table regName acc).isSome = true := by
  intro fuel
  induction fuel with
  | zero =>
    intro i inAttr table regName acc h
    exact absurd h (by omega)
  | succ fuel ih =>
    intro i inAttr table regName acc h
    rw [parseAttrLoop]
    by_cases hi : i < lines.length
    · rw [if_pos hi]
      split
      · exact ih _ _ _ _ _ (by omega)
      · split
        · exact ih _ _ _ _ _ (by omega)
        · split
          · exact ih _ _ _ _ _ (by omega)
          · split
            case _ bits field remaining hm =>
              split
              · exact ih _ _ _ _ _ (by omega)
              · have hcont := attrContLoop_ge lines (lines.length - (i + 1) + 1) (i + 1) []
                apply ih
                split
                · omega
                · omega
            case _ hm =>
              split
              case _ hbits =>
                split
                · exact ih _ _ _ _ _ (by omega)
                · have hb := oldBitsBranch_ge lines i table regName
                  exact ih _ _ _ _ _ (by omega)
              case _ => exact ih _ _ _ _ _ (by omega)
    · rw [if_neg hi]
      rfl

theorem parseRegLoop_some (lines : List String) :
    ∀ fuel i table mode pending acc,
      2 * (lines.length - i) + (if mode = true then 1 else 0) < fuel →
      (parseRegLoop lines fuel i table mode pending acc).isSome = true := by
  intro fuel
  induction fuel with
  | zero =>
    intro i table mode pending acc h
    exact absurd h (by omega)
  | succ fuel ih =>
    intro i table mode pending acc h
    rw [parseRegLoop]
    by_cases hi : i < lines.length
    · rw [if_pos hi]
      split
      · apply ih
        have hle : (if containsSub (pyLower (getLine lines i)) "register summary" = true
            then 1 else 0) ≤ 1 := by split <;> omega
        omega
      case _ =>
        split
        case isTrue hmode =>
          subst hmode
          simp only [if_neg (by simp : ¬(false = true))] at h
          exact ih _ _ _ _ _
            (by simp only [if_neg (by simp : ¬(false = true))]; omega)
        case isFalse hmode =>
          have hmt : mode = true := by
            cases mode
            · exact absurd rfl hmode
            · rfl
          subst hmt
          rw [if_pos rfl] at h
          split
          · exact ih _ _ _ _ _ (by rw [if_pos rfl]; omega)
          · split
            · exact ih _ _ _ _ _ (by simp only [if_neg (by simp : ¬(false = true))]; omega)
            · split
              case _ rows1 hrows =>
                exact ih _ _ _ _ _ (by rw [if_pos rfl]; omega)
              case _ hnone =>
                split
                case _ off name hmatch =>
                  have hge := regOffsetNameBranch_ge lines i table off name
                  exact ih _ _ _ _ _ (by rw [if_pos rfl]; omega)
                case _ =>
                  split
                  · exact ih _ _ _ _ _ (by rw [if_pos rfl]; omega)
                  · split
                    · exact ih _ _ _ _ _ (by rw [if_pos rfl]; omega)
                    · split
                      case _ hprob =>
                        have hge := regNameBranch_ge lines i table pending
                        exact ih _ _ _ _ _ (by rw [if_pos rfl]; omega)
                      case _ => exact ih _ _ _ _ _ (by rw [if_pos rfl]; omega)
    · rw [if_neg hi]
      rfl

/-- C9: both parser scanning loops terminate on every input line list —
the chosen fuel bounds are never exhausted, so the embedded
`parse_register_tables` and `parse_attribute_tables` always return a
result (no unbounded scanning and no exception-like failure). -/
theorem C9_parsers_terminate (lines : List String) :
    (parse_register_tablesOpt lines).isSome = true ∧
      (parse_attribute_tablesOpt lines).isSome = true := by
  constructor
  · unfold parse_register_tablesOpt
    apply parseRegLoop_some
    simp only [if_neg (by simp : ¬(false = true))]
    omega
  · unfold parse_attribute_tablesOpt
    apply parseAttrLoop_some
    omega

/-! Machinery for C1: the multi-segment array row family.  A two-segment
line is rendered from arbitrary segment indices, hex offsets, name, type
token and description, and the register parser is computed on it. -/

theorem strMkData (s : String) : String.mk s.data = s := rfl

theorem digitChar_isDigit {d : Nat} (h : d < 10) : (digitChar d).isDigit = true := by
  unfold digitChar
  rw [if_pos h]
  interval_cases d <;> decide

theorem digitChar_val {d : Nat} (h : d < 10) : (digitChar d).toNat - 48 = d := by
  unfold digitChar
  rw [if_pos h]
  interval_cases d <;> decide

theorem toDigitsAux_digits : ∀ fuel n : Nat, ∀ c ∈ toDigitsAux 10 fuel n, c.isDigit = true := by
  intro fuel
  induction fuel with
  | zero => intro n c hc; simp [toDigitsAux] at hc
  | succ f ih =>
    intro n c hc
    cases n with
    | zero => simp [toDigitsAux] at hc
    | succ m =>
      rw [show toDigitsAux 10 (f + 1) (m + 1) =
          toDigitsAux 10 f ((m + 1) / 10) ++ [digitChar ((m + 1) % 10)] from rfl] at hc
      rcases List.mem_append.mp hc with h | h
      · exact ih _ c h
      · rw [List.mem_singleton] at h
        subst h
        exact digitChar_isDigit (Nat.mod_lt _ (by omega))

theorem natStr_digits (n : Nat) : ∀ c ∈ (natStr n).data, c.isDigit = true := by
  unfold natStr
  split
  · intro c hc
    have : c = '0' := by simpa using hc
    subst this
    decide
  · intro c hc
    exact toDigitsAux_digits n n c hc

theorem natStr_ne_nil (n : Nat) : (natStr n).data ≠ [] := by
  unfold natStr
  split
  · decide
  case isFalse h =>
    cases n with
    | zero => exact absurd rfl h
    | succ m => simp [natDigitChars, toDigitsAux]

theorem digitsToNat_append (l : List Char) (d : Char) :
    digitsToNat (l ++ [d]) = digitsToNat l * 10 + (d.toNat - 48) := by
  unfold digitsToNat
  rw [List.foldl_append]
  rfl

theorem toDigitsAux_val : ∀ fuel n : Nat, n ≤ fuel → digitsToNat (toDigitsAux 10 fuel n) = n := by
  intro fuel
  induction fuel with
  | zero =>
    intro n h
    have hn : n = 0 := Nat.le_zero.mp h
    subst hn
    rfl
  | succ f ih =>
    intro n h
    cases n with
    | zero => rfl
    | succ m =>
      show digitsToNat (toDigitsAux 10 f ((m + 1) / 10) ++ [digitChar ((m + 1) % 10)]) = m + 1
      have hdiv : (m + 1) / 10 ≤ f := by
        have := Nat.div_lt_self (Nat.succ_pos m) (by omega : 1 < 10)
        omega
      rw [digitsToNat_append, ih _ hdiv, digitChar_val (Nat.mod_lt _ (by omega))]
      omega

theorem digitsToNat_natStr (n : Nat) : digitsToNat (natStr n).data = n := by
  unfold natStr
  split
  case isTrue h => subst h; rfl
  case isFalse h => exact toDigitsAux_val n n (le_refl n)

theorem digit_ne {c x : Char} (h : c.isDigit = true) (hx : x.isDigit = false) : c ≠ x := by
  intro he
  subst he
  rw [h] at hx
  exact absurd hx (by simp)

theorem hex_ne {c x : Char} (h : isHexChar c = true) (hx : isHexChar x = false) : c ≠ x := by
  intro he
  subst he
  rw [h] at hx
  exact absurd hx (by simp)

theorem digit_isHex {c : Char} (h : c.isDigit = true) : isHexChar c = true := by
  simp [isHexChar, h]

theorem digit_nonspace {c : Char} (h : c.isDigit = true) : pySpace c = false := by
  cases hps : pySpace c with
  | false => rfl
  | true =>
    exfalso
    simp only [pySpace, Bool.or_eq_true, decide_eq_true_eq] at hps
    rcases hps with ((((h1 | h1) | h1) | h1) | h1) | h1 <;> (subst h1; simp at h)

theorem hex_nonspace {c : Char} (h : isHexChar c = true) : pySpace c = false := by
  cases hps : pySpace c with
  | false => rfl
  | true =>
    exfalso
    simp only [pySpace, Bool.or_eq_true, decide_eq_true_eq] at hps
    rcases hps with ((((h1 | h1) | h1) | h1) | h1) | h1 <;>
      (subst h1; simp [isHexChar] at h)

/-- The rendered `\x7ba-b\x7d 0xLO : 0xHI` segment of the C1 input family. -/
def renderSeg (a b : Nat) (lo hi : String) : String :=
  "\x7b" ++ natStr a ++ "-" ++ natStr b ++ "\x7d 0x" ++ lo ++ " : 0x" ++ hi

/-- The rendered two-segment multi-segment array line of the C1 family. -/
def renderLine (a1 b1 a2 b2 : Nat) (lo1 hi1 lo2 hi2 nm ty desc : String) : String :=
  renderSeg a1 b1 lo1 hi1 ++ "; " ++ renderSeg a2 b2 lo2 hi2 ++ " " ++ nm ++ " " ++ ty ++
    " " ++ desc

theorem renderSeg_data (a b : Nat) (lo hi : String) :
    (renderSeg a b lo hi).data =
      '{' :: ((natStr a).data ++ '-' :: ((natStr b).data ++ '}' :: ' ' :: '0' :: 'x' ::
        (lo.data ++ ' ' :: ':' :: ' ' :: '0' :: 'x' :: hi.data))) := by
  simp [renderSeg, strDataAppend]

theorem spacesSplit1_one {c : Char} (r : List Char) (hc : pySpace c = false) :
    spacesSplit1 (' ' :: c :: r) = some ([' '], c :: r) := by
  have h1 : pySpace ' ' = true := by decide
  simp [spacesSplit1, List.takeWhile_cons, List.dropWhile_cons, hc, h1]

theorem spacesSplit0_one {c : Char} (r : List Char) (hc : pySpace c = false) :
    spacesSplit0 (' ' :: c :: r) = ([' '], c :: r) := by
  have h1 : pySpace ' ' = true := by decide
  simp [spacesSplit0, List.takeWhile_cons, List.dropWhile_cons, hc, h1]

theorem spacesSplit0_zero {c : Char} (r : List Char) (hc : pySpace c = false) :
    spacesSplit0 (c :: r) = ([], c :: r) := by
  simp [spacesSplit0, List.takeWhile_cons, List.dropWhile_cons, hc]

theorem hexTokenEat_render {hex : List Char} {c : Char} (r : List Char)
    (hne : hex ≠ []) (hall : ∀ d ∈ hex, isHexChar d = true) (hc : isHexChar c = false) :
    hexTokenEat ('0' :: 'x' :: (hex ++ c :: r)) = some ('0' :: 'x' :: hex, c :: r) := by
  have he := eatRun1_exact (p := isHexChar) r hall hne hc
  simp [hexTokenEat, he]

theorem segEat_render {a b : Nat} {lo hi : String} {c : Char} (r : List Char)
    (hlo : lo.data ≠ []) (hloh : ∀ d ∈ lo.data, isHexChar d = true)
    (hhi : hi.data ≠ []) (hhih : ∀ d ∈ hi.data, isHexChar d = true)
    (hc : isHexChar c = false) :
    segEat ((renderSeg a b lo hi).data ++ c :: r) =
      some ((renderSeg a b lo hi).data, c :: r) := by
  have hbody : ∀ d ∈ (natStr a).data ++ '-' :: (natStr b).data,
      (d.isDigit || d = '-') = true := by
    intro d hd
    rcases List.mem_append.mp hd with h | h
    · simp [natStr_digits a d h]
    · rcases List.mem_cons.mp h with rfl | h
      · simp
      · simp [natStr_digits b d h]
  have h1 : eatRun1 (fun d => d.isDigit || d = '-')
      ((natStr a).data ++ '-' :: ((natStr b).data ++ '}' :: ' ' :: '0' :: 'x' ::
        (lo.data ++ ' ' :: ':' :: ' ' :: '0' :: 'x' :: (hi.data ++ c :: r)))) =
      some ((natStr a).data ++ '-' :: (natStr b).data, '}' :: ' ' :: '0' :: 'x' ::
        (lo.data ++ ' ' :: ':' :: ' ' :: '0' :: 'x' :: (hi.data ++ c :: r))) := by
    have := eatRun1_exact (p := fun d => d.isDigit || d = '-') (c := '}')
      (' ' :: '0' :: 'x' :: (lo.data ++ ' ' :: ':' :: ' ' :: '0' :: 'x' ::
        (hi.data ++ c :: r))) hbody (by simp) (by decide)
    simpa [List.append_assoc] using this
  have h2 := hexTokenEat_render (c := ' ')
    (':' :: ' ' :: '0' :: 'x' :: (hi.data ++ c :: r)) hlo hloh (by decide)
  have h3 := hexTokenEat_render (c := c) r hhi hhih hc
  have d0 : pySpace '0' = false := by decide
  have dcolon : pySpace ':' = false := by decide
  rw [renderSeg_data]
  simp only [List.cons_append, List.append_assoc]
  simp [segEat, h1, h2, h3, spacesSplit1_one, spacesSplit0_one, d0, dcolon,
    List.append_assoc]

theorem eatSpaces1_one {c : Char} (r : List Char) (hc : pySpace c = false) :
    eatSpaces1 (' ' :: c :: r) = some (c :: r) := by
  have h1 : pySpace ' ' = true := by decide
  simp [eatSpaces1, h1, List.dropWhile_cons, hc]

theorem eatSpaces0_one {c : Char} (r : List Char) (hc : pySpace c = false) :
    eatSpaces0 (' ' :: c :: r) = c :: r := by
  have h1 : pySpace ' ' = true := by decide
  simp [eatSpaces0, List.dropWhile_cons, h1, hc]

theorem segContEat_render {a b : Nat} {lo hi : String} {c : Char} (r : List Char)
    (hlo : lo.data ≠ []) (hloh : ∀ d ∈ lo.data, isHexChar d = true)
    (hhi : hi.data ≠ []) (hhih : ∀ d ∈ hi.data, isHexChar d = true)
    (hc : isHexChar c = false) :
    segContEat (';' :: ' ' :: ((renderSeg a b lo hi).data ++ c :: r)) =
      some (';' :: ' ' :: (renderSeg a b lo hi).data, c :: r) := by
  have hseg := segEat_render (a := a) (b := b) r hlo hloh hhi hhih hc
  have hsp : spacesSplit0 (' ' :: ((renderSeg a b lo hi).data ++ c :: r)) =
      ([' '], (renderSeg a b lo hi).data ++ c :: r) := by
    rw [renderSeg_data]
    simp only [List.cons_append, List.append_assoc]
    rw [spacesSplit0_one _ (by decide : pySpace '{' = false)]
  have dsemi : pySpace ';' = false := by decide
  simp [segContEat, spacesSplit0_zero, dsemi, hsp, hseg]

theorem segContEat_none {c : Char} (r : List Char) (hcs : pySpace c = false)
    (hcne : (c = ';') = false) :
    segContEat (' ' :: c :: r) = none := by
  have hsp := spacesSplit0_one r hcs
  simp only [segContEat, hsp]
  split
  case _ r2 heq =>
    obtain ⟨hc1, -⟩ := List.cons.inj heq
    rw [hc1] at hcne
    simp at hcne
  case _ => rfl

theorem tailSVD_render {nm ty desc : String}
    (hnm : nm.data ≠ []) (hnms : ∀ c ∈ nm.data, pySpace c = false)
    (hty : ty.data ≠ []) (htys : ∀ c ∈ ty.data, pySpace c = false)
    (hdesc : desc.data ≠ []) (hdhead : ∀ c, desc.data.head? = some c → pySpace c = false) :
    tailSVD (nm.data ++ ' ' :: (ty.data ++ ' ' :: desc.data)) =
      some (nm, some ty, desc) := by
  have h1 := eatRun1_exact (p := fun c => !pySpace c) (c := ' ')
    (ty.data ++ ' ' :: desc.data) (fun d hd => by simp [hnms d hd]) hnm (by decide)
  obtain ⟨t0, ttl, htd⟩ := List.exists_cons_of_ne_nil hty
  obtain ⟨d0, dtl, hdd⟩ := List.exists_cons_of_ne_nil hdesc
  have h2 : eatSpaces1 (' ' :: (ty.data ++ ' ' :: desc.data)) =
      some (ty.data ++ ' ' :: desc.data) := by
    rw [htd]
    simp only [List.cons_append]
    exact eatSpaces1_one _ (htys t0 (by rw [htd]; simp))
  have h3 := eatRun1_exact (p := fun c => !pySpace c) (c := ' ')
    desc.data (fun d hd => by simp [htys d hd]) hty (by decide)
  have h4 : eatSpaces0 (' ' :: desc.data) = desc.data := by
    rw [hdd]
    exact eatSpaces0_one _ (hdhead d0 (by rw [hdd]; rfl))
  simp [tailSVD, h1, h2, h3, h4, strMkData]

theorem multiSegMatch_render
    (a1 b1 a2 b2 : Nat) {lo1 hi1 lo2 hi2 nm ty desc : String}
    (hlo1 : lo1.data ≠ []) (hloh1 : ∀ d ∈ lo1.data, isHexChar d = true)
    (hhi1 : hi1.data ≠ []) (hhih1 : ∀ d ∈ hi1.data, isHexChar d = true)
    (hlo2 : lo2.data ≠ []) (hloh2 : ∀ d ∈ lo2.data, isHexChar d = true)
    (hhi2 : hi2.data ≠ []) (hhih2 : ∀ d ∈ hi2.data, isHexChar d = true)
    (hnm : nm.data ≠ []) (hnms : ∀ c ∈ nm.data, pySpace c = false)
    (hnsemi : ∀ c, nm.data.head? = some c → (c = ';') = false)
    (hty : ty.data ≠ []) (htys : ∀ c ∈ ty.data, pySpace c = false)
    (hdesc : desc.data ≠ []) (hdhead : ∀ c, desc.data.head? = some c → pySpace c = false) :
    multiSegMatch (renderLine a1 b1 a2 b2 lo1 hi1 lo2 hi2 nm ty desc).data =
      some (String.mk ((renderSeg a1 b1 lo1 hi1).data ++ ';' :: ' ' ::
              (renderSeg a2 b2 lo2 hi2).data),
            nm, some ty, desc) := by
  have hld : (renderLine a1 b1 a2 b2 lo1 hi1 lo2 hi2 nm ty desc).data =
      (renderSeg a1 b1 lo1 hi1).data ++ ';' :: ' ' :: ((renderSeg a2 b2 lo2 hi2).data ++
        ' ' :: (nm.data ++ ' ' :: (ty.data ++ ' ' :: desc.data))) := by
    simp [renderLine, strDataAppend, List.append_assoc]
  have h1 := segEat_render (a := a1) (b := b1) (c := ';')
    (' ' :: ((renderSeg a2 b2 lo2 hi2).data ++
      ' ' :: (nm.data ++ ' ' :: (ty.data ++ ' ' :: desc.data))))
    hlo1 hloh1 hhi1 hhih1 (by decide)
  have h2 := segContEat_render (a := a2) (b := b2) (c := ' ')
    (nm.data ++ ' ' :: (ty.data ++ ' ' :: desc.data)) hlo2 hloh2 hhi2 hhih2 (by decide)
  obtain ⟨n0, ntl, hnd⟩ := List.exists_cons_of_ne_nil hnm
  have h3 : segContEat (' ' :: (nm.data ++ ' ' :: (ty.data ++ ' ' :: desc.data))) =
      none := by
    rw [hnd]
    simp only [List.cons_append]
    exact segContEat_none _ (hnms n0 (by rw [hnd]; simp)) (hnsemi n0 (by rw [hnd]; rfl))
  have h4 := tailSVD_render hnm hnms hty htys hdesc hdhead
  have h5 : eatSpaces0 (' ' :: (nm.data ++ ' ' :: (ty.data ++ ' ' :: desc.data))) =
      nm.data ++ ' ' :: (ty.data ++ ' ' :: desc.data) := by
    rw [hnd]
    simp only [List.cons_append]
    exact eatSpaces0_one _ (hnms n0 (by rw [hnd]; simp))
  have hsnap : segSnaps
      ((';' :: ' ' :: ((renderSeg a2 b2 lo2 hi2).data ++
        ' ' :: (nm.data ++ ' ' :: (ty.data ++ ' ' :: desc.data)))).length + 1)
      (renderSeg a1 b1 lo1 hi1).data
      (';' :: ' ' :: ((renderSeg a2 b2 lo2 hi2).data ++
        ' ' :: (nm.data ++ ' ' :: (ty.data ++ ' ' :: desc.data)))) =
      [((renderSeg a1 b1 lo1 hi1).data ++ ';' :: ' ' :: (renderSeg a2 b2 lo2 hi2).data,
        ' ' :: (nm.data ++ ' ' :: (ty.data ++ ' ' :: desc.data)))] := by
    simp only [List.length_cons]
    rw [segSnaps, h2]
    simp only
    rw [segSnaps, h3]
  unfold multiSegMatch
  rw [hld, h1]
  simp only
  rw [hsnap]
  simp only [List.reverse_singleton]
  rw [firstSome]
  simp only
  rw [h5, h4]

theorem head?_mem {α : Type} {l : List α} {c : α} (h : l.head? = some c) : c ∈ l := by
  cases l with
  | nil => simp at h
  | cons a r =>
    have : a = c := by simpa using h
    simp [← this]

theorem pyStrip_noop {s : String}
    (hh : ∀ c, s.data.head? = some c → pySpace c = false)
    (hl : ∀ c, s.data.getLast? = some c → pySpace c = false) :
    pyStrip s = s := by
  unfold pyStrip pyStripL
  cases hx : s.data with
  | nil => rw [← strMkData s, hx]; rfl
  | cons c rest =>
    rw [← hx]
    have h1 : s.data.dropWhile pySpace = s.data :=
      dropWhile_head_neg (by rw [hx]; simp) hh
    rw [h1]
    have h2 : s.data.reverse.dropWhile pySpace = s.data.reverse := by
      refine dropWhile_head_neg (by rw [hx]; simp) ?_
      intro d hd
      apply hl
      rw [List.getLast?_eq_head?_reverse]
      exact hd
    rw [h2, List.reverse_reverse, strMkData]

theorem pyStrip_noop_of_all {s : String} (h : ∀ c ∈ s.data, pySpace c = false) :
    pyStrip s = s := by
  apply pyStrip_noop
  · intro c hc
    exact h c (head?_mem hc)
  · intro c hc
    exact h c (getLast?_mem_own hc)

theorem type_token_facts {t : String} (h : is_type_token t = true) :
    t.data ≠ [] ∧ (∀ c ∈ t.data, pySpace c = false) ∧ pyStrip t = t := by
  have hmem : t ∈ TYPE_TOKENS := by simpa [is_type_token] using h
  fin_cases hmem <;> exact ⟨by decide, by decide, by decide⟩

theorem regFields_render {nm ty desc : String}
    (hnms : ∀ c ∈ nm.data, pySpace c = false)
    (hty : is_type_token ty = true)
    (hdesc : desc.data ≠ []) (hdstrip : pyStrip desc = desc) :
    regFields nm (some ty) desc = (nm, ty, desc) := by
  obtain ⟨-, htysp, htystrip⟩ := type_token_facts hty
  have hdne : desc ≠ "" := by
    intro he
    rw [he] at hdesc
    exact hdesc rfl
  simp only [regFields]
  rw [pyStrip_noop_of_all hnms, htystrip, hdstrip]
  simp [hty, hdne]

theorem braceIdxEat_len {s : List Char} {a b : Nat} {r : List Char}
    (h : braceIdxEat s = some (a, b, r)) : r.length < s.length := by
  unfold braceIdxEat at h
  cases h1 : eatRun1 Char.isDigit s with
  | none => rw [h1] at h; exact absurd h (by simp)
  | some p =>
    obtain ⟨d1, r1⟩ := p
    obtain ⟨hs, -, -⟩ := eatRun1_inv h1
    rw [h1] at h
    cases r1 with
    | nil => simp at h
    | cons c r2 =>
      by_cases hc : c = '-'
      · subst hc
        simp only at h
        cases h2 : eatRun1 Char.isDigit r2 with
        | none => rw [h2] at h; simp at h
        | some q =>
          obtain ⟨d2, r3⟩ := q
          obtain ⟨hs2, -, -⟩ := eatRun1_inv h2
          rw [h2] at h
          cases r3 with
          | nil => simp at h
          | cons c2 r4 =>
            by_cases hc2 : c2 = '}'
            · subst hc2
              simp only [Option.some.injEq, Prod.mk.injEq] at h
              obtain ⟨-, -, hr⟩ := h
              subst hr
              rw [hs, hs2]
              simp [List.length_append]
              omega
            · simp [hc2] at h
      · simp [hc] at h

theorem paiGo_fuel : ∀ (n : Nat) (s : List Char) (f g : Nat), s.length ≤ n →
    s.length < f → s.length < g → paiGo f s = paiGo g s := by
  intro n
  induction n with
  | zero =>
    intro s f g hn hf hg
    have hs : s = [] := List.eq_nil_of_length_eq_zero (by omega)
    subst hs
    cases f with
    | zero => omega
    | succ f' =>
      cases g with
      | zero => omega
      | succ g' => rfl
  | succ n ih =>
    intro s f g hn hf hg
    cases s with
    | nil =>
      cases f with
      | zero => omega
      | succ f' =>
        cases g with
        | zero => omega
        | succ g' => rfl
    | cons c rest =>
      simp only [List.length_cons] at hn hf hg
      cases f with
      | zero => omega
      | succ f' =>
        cases g with
        | zero => omega
        | succ g' =>
          by_cases hc : c = '{'
          · subst hc
            cases hb : braceIdxEat rest with
            | some t =>
              obtain ⟨a, b, r2⟩ := t
              have hlen := braceIdxEat_len hb
              simp only [paiGo, hb, if_pos rfl]
              exact congrArg _ (ih r2 f' g' (by omega) (by omega) (by omega))
            | none =>
              simp only [paiGo, hb, if_pos rfl]
              exact ih rest f' g' (by omega) (by omega) (by omega)
          · simp only [paiGo, if_neg hc]
            exact ih rest f' g' (by omega) (by omega) (by omega)

theorem paiGo_skip : ∀ (l : List Char) (fuel : Nat) (r : List Char),
    (∀ c ∈ l, c ≠ '{') → paiGo (l.length + fuel) (l ++ r) = paiGo fuel r := by
  intro l
  induction l with
  | nil => intro fuel r _; simp
  | cons c cs ih =>
    intro fuel r h
    have he : (c :: cs).length + fuel = cs.length + fuel + 1 := by
      simp [List.length_cons]
      omega
    rw [he, List.cons_append, paiGo]
    rw [if_neg (h c (by simp))]
    exact ih fuel r (fun d hd => h d (by simp [hd]))

theorem paiGo_nil : ∀ (fuel : Nat) (l : List Char), (∀ c ∈ l, c ≠ '{') →
    paiGo fuel l = [] := by
  intro fuel
  induction fuel with
  | zero => intro l _; rfl
  | succ f ih =>
    intro l h
    cases l with
    | nil => rfl
    | cons c cs =>
      rw [paiGo, if_neg (h c (by simp))]
      exact ih cs (fun d hd => h d (by simp [hd]))

theorem paiGo_hit (a b : Nat) (fuel : Nat) (r : List Char) :
    paiGo (fuel + 1) ('{' :: ((natStr a).data ++ '-' :: ((natStr b).data ++ '}' :: r))) =
      (a, b) :: paiGo fuel r := by
  have h1 := eatRun1_exact (p := Char.isDigit) (c := '-')
    ((natStr b).data ++ '}' :: r) (natStr_digits a) (natStr_ne_nil a) (by decide)
  have h2 := eatRun1_exact (p := Char.isDigit) (c := '}') r (natStr_digits b)
    (natStr_ne_nil b) (by decide)
  have hb : braceIdxEat ((natStr a).data ++ '-' :: ((natStr b).data ++ '}' :: r)) =
      some (a, b, r) := by
    simp [braceIdxEat, h1, h2, digitsToNat_natStr]
  rw [paiGo, if_pos rfl, hb]

theorem paiGo_skip_any (l : List Char) (fuel : Nat) (r : List Char)
    (hch : ∀ c ∈ l, c ≠ '{') (hf : (l ++ r).length < fuel) :
    paiGo fuel (l ++ r) = paiGo (r.length + 1) r := by
  rw [paiGo_fuel ((l ++ r).length) (l ++ r) fuel (l.length + (r.length + 1))
    (le_refl _) hf (by simp [List.length_append])]
  exact paiGo_skip l (r.length + 1) r hch

theorem paiGo_hit_any (a b : Nat) (fuel : Nat) (r : List Char)
    (hf : ('{' :: ((natStr a).data ++ '-' :: ((natStr b).data ++ '}' :: r))).length ≤ fuel) :
    paiGo fuel ('{' :: ((natStr a).data ++ '-' :: ((natStr b).data ++ '}' :: r))) =
      (a, b) :: paiGo (r.length + 1) r := by
  cases fuel with
  | zero => exact absurd hf (by simp)
  | succ f =>
    rw [paiGo_hit]
    refine congrArg _ ?_
    refine paiGo_fuel r.length r f (r.length + 1) (le_refl _) ?_ (by omega)
    simp only [List.length_cons, List.length_append] at hf
    omega

theorem no_brace_tail {lo hi : String} (hloh : ∀ d ∈ lo.data, isHexChar d = true)
    (hhih : ∀ d ∈ hi.data, isHexChar d = true) {tail : List Char}
    (htail : ∀ c ∈ tail, c ≠ '{') :
    ∀ c ∈ ' ' :: '0' :: 'x' :: (lo.data ++ ' ' :: ':' :: ' ' :: '0' :: 'x' ::
      (hi.data ++ tail)), c ≠ '{' := by
  intro c hc he
  subst he
  simp only [List.mem_cons, List.mem_append] at hc
  rcases hc with h | h | h | h | h | h | h | h | h | h | h
  all_goals first
    | exact absurd h (by decide)
    | exact absurd (hloh _ h) (by decide)
    | exact absurd (hhih _ h) (by decide)
    | exact htail _ h rfl

theorem no_brace_mid {lo hi : String} (hloh : ∀ d ∈ lo.data, isHexChar d = true)
    (hhih : ∀ d ∈ hi.data, isHexChar d = true) :
    ∀ c ∈ ' ' :: '0' :: 'x' :: (lo.data ++ ' ' :: ':' :: ' ' :: '0' :: 'x' :: hi.data),
      c ≠ '{' := by
  intro c hc he
  subst he
  simp only [List.mem_cons, List.mem_append] at hc
  rcases hc with h | h | h | h | h | h | h | h | h | h
  all_goals first
    | exact absurd h (by decide)
    | exact absurd (hloh _ h) (by decide)
    | exact absurd (hhih _ h) (by decide)

theorem paiGroup {a1 b1 a2 b2 : Nat} {lo1 hi1 lo2 hi2 : String}
    (hloh1 : ∀ d ∈ lo1.data, isHexChar d = true)
    (hhih1 : ∀ d ∈ hi1.data, isHexChar d = true)
    (hloh2 : ∀ d ∈ lo2.data, isHexChar d = true)
    (hhih2 : ∀ d ∈ hi2.data, isHexChar d = true) :
    parse_array_indices (String.mk ((renderSeg a1 b1 lo1 hi1).data ++ ';' :: ' ' ::
      (renderSeg a2 b2 lo2 hi2).data)) = [(a1, b1), (a2, b2)] := by
  unfold parse_array_indices
  show paiGo (((renderSeg a1 b1 lo1 hi1).data ++ ';' :: ' ' ::
      (renderSeg a2 b2 lo2 hi2).data).length + 1)
    ((renderSeg a1 b1 lo1 hi1).data ++ ';' :: ' ' :: (renderSeg a2 b2 lo2 hi2).data) =
    [(a1, b1), (a2, b2)]
  rw [renderSeg_data a1 b1 lo1 hi1, renderSeg_data a2 b2 lo2 hi2]
  simp only [List.cons_append, List.append_assoc]
  rw [paiGo_hit_any a1 b1 _ _ (by simp only [List.length_cons]; omega)]
  have hre : ' ' :: '0' :: 'x' :: (lo1.data ++ ' ' :: ':' :: ' ' :: '0' :: 'x' ::
        (hi1.data ++ ';' :: ' ' :: '{' :: ((natStr a2).data ++ '-' ::
          ((natStr b2).data ++ '}' :: ' ' :: '0' :: 'x' ::
            (lo2.data ++ ' ' :: ':' :: ' ' :: '0' :: 'x' :: hi2.data))))) =
      (' ' :: '0' :: 'x' :: (lo1.data ++ ' ' :: ':' :: ' ' :: '0' :: 'x' ::
        (hi1.data ++ [';', ' ']))) ++
      ('{' :: ((natStr a2).data ++ '-' :: ((natStr b2).data ++ '}' :: ' ' :: '0' :: 'x' ::
        (lo2.data ++ ' ' :: ':' :: ' ' :: '0' :: 'x' :: hi2.data)))) := by
    simp [List.append_assoc]
  rw [hre]
  rw [paiGo_skip_any _ _ _
    (no_brace_tail hloh1 hhih1 (by decide)) (by simp [List.length_append])]
  rw [paiGo_hit_any a2 b2 _ _ (by simp only [List.length_cons]; omega)]
  rw [paiGo_nil _ _ (no_brace_mid hloh2 hhih2)]

theorem splitOnSep_break : ∀ (l acc r : List Char), (∀ c ∈ l, c ≠ ';') →
    splitOnSep ';' (l ++ ';' :: r) acc = (acc.reverse ++ l) :: splitOnSep ';' r [] := by
  intro l
  induction l with
  | nil => intro acc r _; simp [splitOnSep]
  | cons c cs ih =>
    intro acc r h
    simp only [List.cons_append, List.append_eq, splitOnSep]
    rw [if_neg (h c (by simp))]
    rw [ih (c :: acc) r (fun d hd => h d (by simp [hd]))]
    simp

theorem splitOnSep_last : ∀ (l acc : List Char), (∀ c ∈ l, c ≠ ';') →
    splitOnSep ';' l acc = [acc.reverse ++ l] := by
  intro l
  induction l with
  | nil => intro acc _; simp [splitOnSep]
  | cons c cs ih =>
    intro acc h
    simp only [List.append_eq, splitOnSep]
    rw [if_neg (h c (by simp))]
    rw [ih (c :: acc) (fun d hd => h d (by simp [hd]))]
    simp

theorem renderSeg_no_semi {a b : Nat} {lo hi : String}
    (hloh : ∀ d ∈ lo.data, isHexChar d = true)
    (hhih : ∀ d ∈ hi.data, isHexChar d = true) :
    ∀ c ∈ (renderSeg a b lo hi).data, c ≠ ';' := by
  rw [renderSeg_data]
  intro c hc he
  subst he
  simp only [List.mem_cons, List.mem_append] at hc
  rcases hc with h | h | h | h | h | h | h | h | h | h | h | h | h | h | h
  all_goals first
    | exact absurd h (by decide)
    | exact absurd (natStr_digits _ _ h) (by decide)
    | exact absurd (hloh _ h) (by decide)
    | exact absurd (hhih _ h) (by decide)

theorem getLast?_app {α : Type} : ∀ (l : List α) {m : List α}, m ≠ [] →
    (l ++ m).getLast? = m.getLast? := by
  intro l
  induction l with
  | nil => intro m _; rfl
  | cons a t ih =>
    intro m hm
    rw [List.cons_append]
    have hne : t ++ m ≠ [] := fun hx => hm (List.append_eq_nil.mp hx).2
    cases hx : t ++ m with
    | nil => exact absurd hx hne
    | cons b u =>
      rw [List.getLast?_cons_cons, ← hx]
      exact ih hm

theorem renderSeg_last {a b : Nat} {lo hi : String} (hhi : hi.data ≠ []) :
    ∀ c, (renderSeg a b lo hi).data.getLast? = some c → c ∈ hi.data := by
  intro c hc
  have hsplit : (renderSeg a b lo hi).data =
      ('{' :: ((natStr a).data ++ '-' :: ((natStr b).data ++ '}' :: ' ' :: '0' :: 'x' ::
        (lo.data ++ [' ', ':', ' ', '0', 'x'])))) ++ hi.data := by
    rw [renderSeg_data]
    simp [List.append_assoc]
  rw [hsplit, getLast?_app _ hhi] at hc
  exact getLast?_mem_own hc

theorem renderSeg_strip {a b : Nat} {lo hi : String} (hhi : hi.data ≠ [])
    (hhih : ∀ d ∈ hi.data, isHexChar d = true) :
    pyStrip (renderSeg a b lo hi) = renderSeg a b lo hi := by
  apply pyStrip_noop
  · intro c hc
    rw [renderSeg_data] at hc
    have : '{' = c := by simpa using hc
    subst this
    decide
  · intro c hc
    exact hex_nonspace (hhih c (renderSeg_last hhi c hc))

theorem strip_space_renderSeg {a b : Nat} {lo hi : String} (hhi : hi.data ≠ [])
    (hhih : ∀ d ∈ hi.data, isHexChar d = true) :
    pyStrip (String.mk (' ' :: (renderSeg a b lo hi).data)) = renderSeg a b lo hi := by
  unfold pyStrip pyStripL
  have h1 : (' ' :: (renderSeg a b lo hi).data).dropWhile pySpace =
      (renderSeg a b lo hi).data := by
    rw [List.dropWhile_cons, if_pos (by decide)]
    refine dropWhile_head_neg ?_ ?_
    · rw [renderSeg_data]; simp
    · intro c hc
      rw [renderSeg_data] at hc
      have : '{' = c := by simpa using hc
      subst this
      decide
  have h2 : (renderSeg a b lo hi).data.reverse.dropWhile pySpace =
      (renderSeg a b lo hi).data.reverse := by
    refine dropWhile_head_neg (by rw [renderSeg_data]; simp) ?_
    intro c hc
    have hcl : (renderSeg a b lo hi).data.getLast? = some c := by
      rw [List.getLast?_eq_head?_reverse]
      exact hc
    exact hex_nonspace (hhih c (renderSeg_last hhi c hcl))
  show String.mk ((((' ' :: (renderSeg a b lo hi).data).dropWhile
    pySpace).reverse.dropWhile pySpace).reverse) = renderSeg a b lo hi
  rw [h1, h2, List.reverse_reverse, strMkData]

theorem group_strip {a1 b1 a2 b2 : Nat} {lo1 hi1 lo2 hi2 : String} (hhi2 : hi2.data ≠ [])
    (hhih2 : ∀ d ∈ hi2.data, isHexChar d = true) :
    pyStrip (String.mk ((renderSeg a1 b1 lo1 hi1).data ++ ';' :: ' ' ::
        (renderSeg a2 b2 lo2 hi2).data)) =
      String.mk ((renderSeg a1 b1 lo1 hi1).data ++ ';' :: ' ' ::
        (renderSeg a2 b2 lo2 hi2).data) := by
  apply pyStrip_noop
  · intro c hc
    rw [renderSeg_data a1 b1 lo1 hi1] at hc
    have : '{' = c := by simpa using hc
    subst this
    decide
  · intro c hc
    have hgl : (String.mk ((renderSeg a1 b1 lo1 hi1).data ++ ';' :: ' ' ::
        (renderSeg a2 b2 lo2 hi2).data)).data.getLast? =
        (renderSeg a2 b2 lo2 hi2).data.getLast? := by
      show ((renderSeg a1 b1 lo1 hi1).data ++ ';' :: ' ' ::
        (renderSeg a2 b2 lo2 hi2).data).getLast? = _
      have hsp : (renderSeg a1 b1 lo1 hi1).data ++ ';' :: ' ' ::
          (renderSeg a2 b2 lo2 hi2).data =
          ((renderSeg a1 b1 lo1 hi1).data ++ [';', ' ']) ++
            (renderSeg a2 b2 lo2 hi2).data := by
        simp [List.append_assoc]
      rw [hsp, getLast?_app _ (by rw [renderSeg_data]; simp)]
    rw [hgl] at hc
    exact hex_nonspace (hhih2 c (renderSeg_last hhi2 c hc))

theorem extract_group_0 {a1 b1 a2 b2 : Nat} {lo1 hi1 lo2 hi2 : String}
    (hloh1 : ∀ d ∈ lo1.data, isHexChar d = true)
    (hhih1 : ∀ d ∈ hi1.data, isHexChar d = true)
    (hhi1 : hi1.data ≠ [])
    (hloh2 : ∀ d ∈ lo2.data, isHexChar d = true)
    (hhih2 : ∀ d ∈ hi2.data, isHexChar d = true) :
    extract_segment_offset (String.mk ((renderSeg a1 b1 lo1 hi1).data ++ ';' :: ' ' ::
      (renderSeg a2 b2 lo2 hi2).data)) 0 = renderSeg a1 b1 lo1 hi1 := by
  unfold extract_segment_offset
  rw [show (String.mk ((renderSeg a1 b1 lo1 hi1).data ++ ';' :: ' ' ::
    (renderSeg a2 b2 lo2 hi2).data)).data = (renderSeg a1 b1 lo1 hi1).data ++ ';' :: ' ' ::
    (renderSeg a2 b2 lo2 hi2).data from rfl]
  rw [splitOnSep_break _ _ _ (renderSeg_no_semi hloh1 hhih1)]
  rw [splitOnSep_last (' ' :: (renderSeg a2 b2 lo2 hi2).data) []
    (by
      intro c hc
      rcases List.mem_cons.mp hc with rfl | hc2
      · decide
      · exact renderSeg_no_semi hloh2 hhih2 c hc2)]
  simp only [List.reverse_nil, List.nil_append, List.map_cons, List.map_nil]
  show pyStrip (String.mk (renderSeg a1 b1 lo1 hi1).data) = _
  rw [strMkData]
  exact renderSeg_strip hhi1 hhih1

theorem extract_group_1 {a1 b1 a2 b2 : Nat} {lo1 hi1 lo2 hi2 : String}
    (hloh1 : ∀ d ∈ lo1.data, isHexChar d = true)
    (hhih1 : ∀ d ∈ hi1.data, isHexChar d = true)
    (hhi2 : hi2.data ≠ [])
    (hloh2 : ∀ d ∈ lo2.data, isHexChar d = true)
    (hhih2 : ∀ d ∈ hi2.data, isHexChar d = true) :
    extract_segment_offset (String.mk ((renderSeg a1 b1 lo1 hi1).data ++ ';' :: ' ' ::
      (renderSeg a2 b2 lo2 hi2).data)) 1 = renderSeg a2 b2 lo2 hi2 := by
  unfold extract_segment_offset
  rw [show (String.mk ((renderSeg a1 b1 lo1 hi1).data ++ ';' :: ' ' ::
    (renderSeg a2 b2 lo2 hi2).data)).data = (renderSeg a1 b1 lo1 hi1).data ++ ';' :: ' ' ::
    (renderSeg a2 b2 lo2 hi2).data from rfl]
  rw [splitOnSep_break _ _ _ (renderSeg_no_semi hloh1 hhih1)]
  rw [splitOnSep_last (' ' :: (renderSeg a2 b2 lo2 hi2).data) []
    (by
      intro c hc
      rcases List.mem_cons.mp hc with rfl | hc2
      · decide
      · exact renderSeg_no_semi hloh2 hhih2 c hc2)]
  simp only [List.reverse_nil, List.nil_append, List.map_cons, List.map_nil]
  show pyStrip (String.mk (' ' :: (renderSeg a2 b2 lo2 hi2).data)) = _
  exact strip_space_renderSeg hhi2 hhih2

theorem gsrn_of_none {base : String} (h : stripIdxGo 0 base.data = none) (s e : Nat) :
    generate_segmented_register_name base s e =
      base ++ natStr s ++ "-" ++ natStr e := by
  unfold generate_segmented_register_name
  rw [h]

theorem tryPatternRows_render (table : Option String)
    (a1 b1 a2 b2 : Nat) {lo1 hi1 lo2 hi2 nm ty desc : String}
    (hlo1 : lo1.data ≠ []) (hloh1 : ∀ d ∈ lo1.data, isHexChar d = true)
    (hhi1 : hi1.data ≠ []) (hhih1 : ∀ d ∈ hi1.data, isHexChar d = true)
    (hlo2 : lo2.data ≠ []) (hloh2 : ∀ d ∈ lo2.data, isHexChar d = true)
    (hhi2 : hi2.data ≠ []) (hhih2 : ∀ d ∈ hi2.data, isHexChar d = true)
    (hnm : nm.data ≠ []) (hnms : ∀ c ∈ nm.data, pySpace c = false)
    (hnsemi : ∀ c, nm.data.head? = some c → (c = ';') = false)
    (hty : is_type_token ty = true)
    (hdesc : desc.data ≠ []) (hdhead : ∀ c, desc.data.head? = some c → pySpace c = false)
    (hdstrip : pyStrip desc = desc) (hstrip : stripIdxGo 0 nm.data = none) :
    tryPatternRows table (renderLine a1 b1 a2 b2 lo1 hi1 lo2 hi2 nm ty desc) =
      some [{ table := table.getD "", offset := renderSeg a1 b1 lo1 hi1,
              name := nm ++ natStr a1 ++ "-" ++ natStr b1, type := ty,
              description := desc },
            { table := table.getD "", offset := renderSeg a2 b2 lo2 hi2,
              name := nm ++ natStr a2 ++ "-" ++ natStr b2, type := ty,
              description := desc }] := by
  have hmm0 := multiSegMatch_render a1 b1 a2 b2
    hlo1 hloh1 hhi1 hhih1 hlo2 hloh2 hhi2 hhih2
    hnm hnms hnsemi (type_token_facts hty).1 (type_token_facts hty).2.1 hdesc hdhead
  unfold tryPatternRows
  rw [hmm0]
  simp only
  rw [group_strip hhi2 hhih2]
  rw [regFields_render hnms hty hdesc hdstrip]
  simp only [multiSegRows]
  rw [paiGroup hloh1 hhih1 hloh2 hhih2]
  rw [if_pos (by simp)]
  have henum : ([(a1, b1), (a2, b2)] : List (Nat × Nat)).enum =
      [(0, (a1, b1)), (1, (a2, b2))] := rfl
  rw [henum]
  simp only [List.map_cons, List.map_nil]
  rw [extract_group_0 hloh1 hhih1 hhi1 hloh2 hhih2,
    extract_group_1 hloh1 hhih1 hhi2 hloh2 hhih2,
    gsrn_of_none hstrip a1 b1, gsrn_of_none hstrip a2 b2]

theorem isHeading_brace {s : String} {r : List Char} (h : s.data = '{' :: r) :
    isHeading s = false := by
  unfold isHeading
  rw [h]
  rfl

theorem pagebreak_brace {s : String} {r : List Char} (h : s.data = '{' :: r) :
    pyStartsWith s "__PAGE_BREAK_" = false := by
  unfold pyStartsWith
  rw [h]
  simp only [decide_eq_false_iff_not]
  intro hpre
  obtain ⟨t, ht⟩ := hpre
  have h3 := congrArg List.head? ht
  simp at h3

theorem hdr_brace {s : String} {r : List Char} (h : s.data = '{' :: r) :
    HEADER_LABELS.contains (pyLower s) = false := by
  cases hc : HEADER_LABELS.contains (pyLower s) with
  | false => rfl
  | true =>
    exfalso
    rw [List.contains_iff_exists_mem_beq] at hc
    obtain ⟨x, hx, hbeq⟩ := hc
    have hxeq : pyLower s = x := eq_of_beq hbeq
    have hd : (pyLower s).data.head? = some '{' := by
      unfold pyLower
      rw [h]
      rfl
    rw [hxeq] at hd
    simp only [HEADER_LABELS, List.mem_cons, List.not_mem_nil, or_false] at hx
    rcases hx with rfl | rfl | rfl | rfl | rfl | rfl <;> exact absurd hd (by decide)

theorem ofsNameHeader_brace {s : String} {r : List Char} (h : s.data = '{' :: r) :
    ofsNameHeader s = false := by
  unfold ofsNameHeader
  rw [h]
  rfl

theorem sectionEnd83_brace {s : String} {r : List Char} (h : s.data = '{' :: r) :
    sectionEnd83 s = false := by
  unfold sectionEnd83
  rw [h]
  have hb : pySpace '{' = false := by decide
  have h1 : eatSpaces0 ('{' :: r) = '{' :: r := by
    simp [eatSpaces0, List.dropWhile_cons, hb]
  rw [h1]
  rfl

theorem renderLine_head (a1 b1 a2 b2 : Nat) (lo1 hi1 lo2 hi2 nm ty desc : String) :
    ∃ r, (renderLine a1 b1 a2 b2 lo1 hi1 lo2 hi2 nm ty desc).data = '{' :: r := by
  have h : (renderLine a1 b1 a2 b2 lo1 hi1 lo2 hi2 nm ty desc).data =
      '{' :: ((natStr a1).data ++ '-' :: ((natStr b1).data ++ '}' :: ' ' :: '0' :: 'x' ::
        (lo1.data ++ ' ' :: ':' :: ' ' :: '0' :: 'x' :: (hi1.data ++ ';' :: ' ' ::
          ((renderSeg a2 b2 lo2 hi2).data ++ ' ' :: (nm.data ++ ' ' :: (ty.data ++ ' ' ::
            desc.data))))))) := by
    simp [renderLine, strDataAppend, renderSeg_data a1 b1 lo1 hi1, List.append_assoc]
  exact ⟨_, h⟩

/-- C1: a two-segment multi-segment array row inside an open
register-summary table splits into one `RegisterRow` per `\x7bstart-end\x7d`
segment.  The first conjunct is the claim's concrete round-trip example;
the second shows a prior trailing digits-hyphen-digits suffix of the base
name being replaced by the segment range; the third is the universal
two-segment family: for any heading that opens a register-summary table,
any segment index pairs, hex offset expressions, space-free base name,
recognized access token and stripped description, the parser emits exactly
the two rows, each with its own segment sub-expression as offset, the
indexed names, and the shared type and description. -/
theorem C1_multi_segment_rows :
    parse_register_tables ["Table 9-1: foo register summary",
        "\x7b0-23\x7d 0xC00 : 0xCB8; \x7b24-63\x7d 0x20C0 : 0x24B8 foo_reg RW some description"] =
      [{ table := "Table 9-1: foo register summary", offset := "\x7b0-23\x7d 0xC00 : 0xCB8",
         name := "foo_reg0-23", type := "RW", description := "some description" },
       { table := "Table 9-1: foo register summary",
         offset := "\x7b24-63\x7d 0x20C0 : 0x24B8",
         name := "foo_reg24-63", type := "RW", description := "some description" }] ∧
    generate_segmented_register_name "foo_reg0-3" 24 63 = "foo_reg24-63" ∧
    (∀ (heading : String) (a1 b1 a2 b2 : Nat) (lo1 hi1 lo2 hi2 nm ty desc : String),
      isHeading heading = true →
      containsSub (pyLower heading) "register summary" = true →
      lo1.data ≠ [] → (∀ d ∈ lo1.data, isHexChar d = true) →
      hi1.data ≠ [] → (∀ d ∈ hi1.data, isHexChar d = true) →
      lo2.data ≠ [] → (∀ d ∈ lo2.data, isHexChar d = true) →
      hi2.data ≠ [] → (∀ d ∈ hi2.data, isHexChar d = true) →
      nm.data ≠ [] → (∀ c ∈ nm.data, pySpace c = false) →
      (∀ c, nm.data.head? = some c → (c = ';') = false) →
      is_type_token ty = true →
      desc.data ≠ [] → (∀ c, desc.data.head? = some c → pySpace c = false) →
      pyStrip desc = desc →
      stripIdxGo 0 nm.data = none →
      parse_register_tables [heading, renderLine a1 b1 a2 b2 lo1 hi1 lo2 hi2 nm ty desc] =
        [{ table := heading, offset := renderSeg a1 b1 lo1 hi1,
           name := nm ++ natStr a1 ++ "-" ++ natStr b1, type := ty, description := desc },
         { table := heading, offset := renderSeg a2 b2 lo2 hi2,
           name := nm ++ natStr a2 ++ "-" ++ natStr b2, type := ty,
           description := desc }]) := by
  refine ⟨by decide, by decide, ?_⟩
  intro heading a1 b1 a2 b2 lo1 hi1 lo2 hi2 nm ty desc hH hHs hlo1 hloh1 hhi1 hhih1
    hlo2 hloh2 hhi2 hhih2 hnm hnms hnsemi hty hdesc hdhead hdstrip hstrip
  obtain ⟨lr, hlhead⟩ := renderLine_head a1 b1 a2 b2 lo1 hi1 lo2 hi2 nm ty desc
  have htry := tryPatternRows_render (some heading) a1 b1 a2 b2
    hlo1 hloh1 hhi1 hhih1 hlo2 hloh2
    hhi2 hhih2 hnm hnms hnsemi hty hdesc hdhead hdstrip hstrip
  set line := renderLine a1 b1 a2 b2 lo1 hi1 lo2 hi2 nm ty desc with hlinedef
  unfold parse_register_tables parse_register_tablesOpt
  have hg0 : getLine [heading, line] 0 = heading := rfl
  have hg1 : getLine [heading, line] 1 = line := rfl
  rw [show (2 * ([heading, line] : List String).length + 1) = 4 + 1 from rfl]
  rw [parseRegLoop]
  rw [if_pos (show (0 : Nat) < ([heading, line] : List String).length from by simp)]
  rw [hg0]
  rw [if_pos hH]
  rw [hHs]
  rw [show (4 : Nat) = 3 + 1 from rfl]
  rw [parseRegLoop]
  rw [if_pos (show (1 : Nat) < ([heading, line] : List String).length from by simp)]
  rw [hg1]
  rw [isHeading_brace hlhead]
  simp only [Bool.false_eq_true, if_false]
  rw [if_neg (by simp : ¬(true = false))]
  rw [pagebreak_brace hlhead, hdr_brace hlhead, ofsNameHeader_brace hlhead]
  simp only [Bool.or_self, Bool.false_eq_true, if_false]
  rw [sectionEnd83_brace hlhead]
  simp only [Bool.false_eq_true, if_false]
  rw [htry]
  simp only
  rw [show (3 : Nat) = 2 + 1 from rfl]
  rw [parseRegLoop]
  rw [if_neg (by simp : ¬((2 : Nat) < ([heading, line] : List String).length))]
  simp

theorem C1_witness :
    parse_register_tables ["Table 9-1: foo register summary",
        renderLine 0 23 24 63 "C00" "CB8" "20C0" "24B8" "foo_reg" "RW" "some description"] =
      [{ table := "Table 9-1: foo register summary", offset := renderSeg 0 23 "C00" "CB8",
         name := "foo_reg" ++ natStr 0 ++ "-" ++ natStr 23, type := "RW",
         description := "some description" },
       { table := "Table 9-1: foo register summary",
         offset := renderSeg 24 63 "20C0" "24B8",
         name := "foo_reg" ++ natStr 24 ++ "-" ++ natStr 63, type := "RW",
         description := "some description" }] :=
  C1_multi_segment_rows.2.2 "Table 9-1: foo register summary" 0 23 24 63
    "C00" "CB8" "20C0" "24B8" "foo_reg" "RW" "some description"
    (by decide) (by decide) (by decide) (by decide) (by decide) (by decide)
    (by decide) (by decide) (by decide) (by decide) (by decide) (by decide)
    (by decide) (by decide) (by decide) (by decide) (by decide) (by decide)

/-! ### The Line Normalizer `clean_pdf_text` (source lines 151-570)

The source reads the input file with `readlines` (each line keeps its
trailing newline), runs four in-memory passes, and writes the resulting
list back with `writelines`.  The embedding works directly on the list of
lines, each string carrying its trailing `'\n'` exactly as `readlines`
produces it; re-running the tool on its own output file is then exactly
`clean_pdf_text (clean_pdf_text lines)`, because every emitted line ends
in a single `'\n'`. -/

/-- U+00A9, the copyright sign of the footer test. -/
def copySign : Char := Char.ofNat 169

/-- U+2122, the trademark sign of the product-name footer test. -/
def tmSign : Char := Char.ofNat 8482

/-- U+FB01, the `fi` ligature appearing in the raw footer text. -/
def ligFi : Char := Char.ofNat 0xFB01

/-- The footer-start test of pass 1: both substrings must occur. -/
def copyrightArm (line : String) : Bool :=
  containsSub line ("Copyright " ++ String.mk [copySign]) &&
  containsSub line "Arm Limited"

/-- The disjunction of the pass-1 skip-loop `elif` arms: every arm performs
the same `i += 1; skip_count += 1`, so the chain is one predicate on the
lookahead line. -/
def footerNextSkip (nl : String) : Bool :=
  containsSub nl "Non-Confidential" ||
  containsSub nl (String.mk ("Non-Con".data ++ ligFi :: "dential".data)) ||
  (containsSub nl "Page " && containsSub nl " of ") ||
  containsSub nl (String.mk ("Arm".data ++ [regSign])) ||
  containsSub nl (String.mk ("Neoverse".data ++ [tmSign])) ||
  containsSub nl "Technical Reference Manual" ||
  containsSub nl "Programmers model" ||
  containsSub nl "Issue" ||
  pyStrip nl = ""

/-- The inner footer-skip loop of pass 1: advance `i` while the next line is
footer/header boilerplate, at most 9 times (`skip_count < 9`); returns the
final `i`.  Fuel 10 covers the 9 possible iterations. -/
def footerSkipLoop (lines : List String) : Nat → Nat → Nat → Nat
  | 0, i, _ => i
  | fuel + 1, i, sc =>
    if i < lines.length ∧ sc < 9 then
      if i + 1 < lines.length then
        if footerNextSkip (getLine lines (i + 1)) then
          footerSkipLoop lines fuel (i + 1) (sc + 1)
        else i
      else i
    else i

/-- `re.match(r'^(Table \d+-\d+:.*)', line)`: group 1 reaches up to (not
including) the newline. -/
def tableHeadMatch (line : String) : Option String :=
  match eatLit "Table ".data line.data with
  | some r =>
    (match eatRun1 Char.isDigit r with
     | some (d1, '-' :: r2) =>
       (match eatRun1 Char.isDigit r2 with
        | some (d2, ':' :: r3) =>
          some (String.mk ("Table ".data ++ d1 ++ '-' :: (d2 ++ ':' ::
            r3.takeWhile (fun c => c ≠ '\n'))))
        | _ => none)
     | _ => none)
  | none => none

/-- Pass 1 of `clean_pdf_text`: drop page footers/headers and duplicate
column-header lines, tracking the current table for the dedup key.  A
`None` current table prints as `"None"` in the Python f-string key. -/
def pass1Loop (lines : List String) :
    Nat → Nat → List String → Option String → List String
  | 0, _, _, _ => []
  | fuel + 1, i, seen, curTab =>
    if i < lines.length then
      let line := getLine lines i
      if copyrightArm line then
        pass1Loop lines fuel (footerSkipLoop lines 10 i 0 + 1) seen curTab
      else
        let curTab' :=
          if pyStartsWith line "Table " = true ∧ containsSub line ":" = true then
            match tableHeadMatch line with
            | some t => some t
            | none => curTab
          else curTab
        if ofsNameHeader line || bitsNameHeader line then
          let headerKey :=
            (match curTab' with | some t => t | none => "None") ++ ":" ++ pyStrip line
          if seen.contains headerKey then
            pass1Loop lines fuel (i + 1) seen curTab'
          else
            line :: pass1Loop lines fuel (i + 1) (headerKey :: seen) curTab'
        else
          line :: pass1Loop lines fuel (i + 1) seen curTab'
    else []

/-- `^(?:0x|16\'h)[0-9A-Fa-f]+\s*:$` applied to an already-stripped line. -/
def hexColonEnd (s : String) : Bool :=
  match hexHead s.data with
  | some r =>
    (match eatRun1 isHexChar r with
     | some (_, rest) => eatSpaces0 rest = [':']
     | none => false)
  | none => false

/-- Pass 2 of `clean_pdf_text`: join offset ranges split across lines, in
the two source shapes (`0x.. :` + `0x..`, and `0x..` + `:` + `0x..`). -/
def pass2Loop (cleaned : List String) : Nat → Nat → List String
  | 0, _ => []
  | fuel + 1, i =>
    if i < cleaned.length then
      let line := getLine cleaned i
      if hexColonEnd (pyStrip line) = true ∧ i + 1 < cleaned.length ∧
         is_offset_token (pyStrip (getLine cleaned (i + 1))) = true then
        (pyStrip line ++ " " ++ pyStrip (getLine cleaned (i + 1)) ++ "\n") ::
          pass2Loop cleaned fuel (i + 2)
      else if is_offset_token (pyStrip line) = true ∧ i + 1 < cleaned.length ∧
         pyStrip (getLine cleaned (i + 1)) = ":" ∧ i + 2 < cleaned.length ∧
         is_offset_token (pyStrip (getLine cleaned (i + 2))) = true then
        (pyStrip line ++ " : " ++ pyStrip (getLine cleaned (i + 2)) ++ "\n") ::
          pass2Loop cleaned fuel (i + 3)
      else line :: pass2Loop cleaned fuel (i + 1)
    else []

/-- Scan of `.*\+\s+`: a `'+'` followed by whitespace, with no newline
before it (`.` does not cross `'\n'`). -/
def plusSpaceScan : List Char → Bool
  | '+' :: c :: r => if pySpace c then true else plusSpaceScan (c :: r)
  | c :: r => if c = '\n' then false else plusSpaceScan r
  | [] => false

/-- Pass-3 handler 1 guard `^\[[\d:]+\]\s+.*\+\s+`. -/
def h1Head (line : String) : Bool :=
  match line.data with
  | '[' :: r =>
    (match eatRun1 (fun c => c.isDigit || c = ':') r with
     | some (_, ']' :: r2) =>
       (match eatRun1 pySpace r2 with
        | some (_, r3) => plusSpaceScan r3
        | none => false)
     | _ => false)
  | _ => false

/-- Scan of `.*\}_`: a `"\x7d_"` occurrence with no newline before it. -/
def braceUnderScan : List Char → Bool
  | '}' :: '_' :: _ => true
  | c :: r => if c = '\n' then false else braceUnderScan r
  | [] => false

/-- Pass-3 handler 1 continuation guard `^\s+.*\}_`. -/
def h1Next (s : String) : Bool :=
  match eatRun1 pySpace s.data with
  | some (_, r) => braceUnderScan r
  | none => false

/-- `re.match(r'^(\[[\d:]+\])\s+(\S+\s*\+)\s+(.*)', line)`: the `\S+\s*\+`
group matches either the first nonspace run, its trailing spaces and a
following `'+'` (the greedy first attempt), or — when backtracking — the
first nonspace run itself when it ends in `'+'` and whitespace follows. -/
def h1Groups (line : String) : Option (String × String × String) :=
  match line.data with
  | '[' :: r =>
    (match eatRun1 (fun c => c.isDigit || c = ':') r with
     | some (body, ']' :: r2) =>
       (match eatRun1 pySpace r2 with
        | some (_, r3) =>
          (match eatRun1 (fun c => !pySpace c) r3 with
           | some (run, r4) =>
             let sp := r4.takeWhile pySpace
             let r5 := r4.dropWhile pySpace
             let bits := String.mk ('[' :: (body ++ [']']))
             let altCase :=
               if run.getLast? = some '+' ∧ 2 ≤ run.length ∧ sp ≠ [] then
                 some (bits, String.mk run,
                       String.mk (r5.takeWhile (fun d => d ≠ '\n')))
               else none
             (match r5 with
              | '+' :: c :: r7 =>
                if pySpace c then
                  some (bits, String.mk (run ++ (sp ++ ['+'])),
                        String.mk (((c :: r7).dropWhile pySpace).takeWhile
                          (fun d => d ≠ '\n')))
                else altCase
              | _ => altCase)
           | none => none)
        | none => none)
     | _ => none)
  | _ => none

/-- `re.match(r'^\s+(\S+)', next_line)` group 1. -/
def contFirstTok (s : String) : Option String :=
  match eatRun1 pySpace s.data with
  | some (_, r) =>
    (match eatRun1 (fun c => !pySpace c) r with
     | some (tok, _) => some (String.mk tok)
     | none => none)
  | none => none

/-- Pass-3 handler 1 (wrapped attribute field names): rebuild
`"bits complete_name remaining\n"` and consume two lines. -/
def h1Try (pass2 : List String) (i : Nat) : Option (String × Nat) :=
  let line := getLine pass2 i
  if h1Head line = true ∧ i + 1 < pass2.length then
    let nextLine := getLine pass2 (i + 1)
    if h1Next nextLine then
      match h1Groups line with
      | some (bits, incomplete, remaining) =>
        (match contFirstTok nextLine with
         | some cont =>
           let complete :=
             if pyEndsWith incomplete "+" then incomplete ++ " " ++ cont
             else incomplete ++ cont
           some (bits ++ " " ++ complete ++ " " ++ remaining ++ "\n", i + 2)
         | none => none)
      | none => none
    else none
  else none

/-- The type-token alternation `(RW|RO|WO|RWL|W1C|W1S|R/W)` in source
order. -/
def TYPE_ALT : List String := ["RW", "RO", "WO", "RWL", "W1C", "W1S", "R/W"]

/-- One alternative of the type alternation, each candidate required to be
followed by whitespace (the `\s+` after the group); tried in source
order. -/
def typeAltSpGo : List String → List Char → Option (String × List Char)
  | [], _ => none
  | t :: ts, s =>
    match eatLit t.data s with
    | some (c :: r) => if pySpace c then some (t, c :: r) else typeAltSpGo ts s
    | some [] => typeAltSpGo ts s
    | none => typeAltSpGo ts s

/-- Bare type alternation with no follower requirement (patterns ending in
the type group). -/
def typeAltCond (s : List Char) : Bool :=
  TYPE_ALT.any (fun t => (eatLit t.data s).isSome)

/-- Scan of `.*?\s+(RW|…)`: some whitespace run followed by a type token,
reachable without crossing a newline. -/
def wsTypeScan : List Char → Bool
  | [] => false
  | c :: r =>
    if pySpace c then
      if typeAltCond (eatSpaces0 r) then true
      else if c = '\n' then false
      else wsTypeScan r
    else wsTypeScan r

/-- `^\{[\d-]+\}` with its group: the brace token and the rest. -/
def braceIdxHead (s : List Char) : Option (List Char × List Char) :=
  match s with
  | '{' :: r =>
    (match eatRun1 (fun c => c.isDigit || c = '-') r with
     | some (body, '}' :: rest) => some ('{' :: (body ++ ['}']), rest)
     | _ => none)
  | _ => none

/-- Pass-3 handler 2 guard `^\{[\d-]+\}\s+\w+.*?\s+(RW|RO|WO|RWL|W1C|W1S|R/W)`. -/
def h2Cond (line : String) : Bool :=
  match braceIdxHead line.data with
  | some (_, rest) =>
    (match eatRun1 pySpace rest with
     | some (_, c :: r2) => isWordChar c && wsTypeScan r2
     | _ => false)
  | none => false

/-- Lazy `(.*?)\s+(RW|…)\s+(.*)` from a given start: the leftmost
whitespace-then-type split wins; the group before it cannot cross a
newline. -/
def lazyTypeScan (g2acc : List Char) : List Char → Option (String × String × String)
  | [] => none
  | c :: r =>
    if pySpace c then
      match typeAltSpGo TYPE_ALT (eatSpaces0 r) with
      | some (t, rest) =>
        some (String.mk g2acc.reverse, t,
              String.mk ((rest.dropWhile pySpace).takeWhile (fun d => d ≠ '\n')))
      | none => if c = '\n' then none else lazyTypeScan (c :: g2acc) r
    else lazyTypeScan (c :: g2acc) r

/-- `re.match(r'^(\{[\d-]+\})\s+(.*?)\s+(RW|…)\s+(.*)', line)`.  When no
split exists after the leading whitespace run, backtracking the leading
`\s+` still allows an empty lazy group with the type token immediately
following, provided the run held at least two whitespace characters. -/
def arrayMatchH2 (line : String) : Option (String × String × String × String) :=
  match braceIdxHead line.data with
  | some (braceTok, rest) =>
    (match eatRun1 pySpace rest with
     | some (sp, r2) =>
       (match lazyTypeScan [] r2 with
        | some (g2, t, g4) => some (String.mk braceTok, g2, t, g4)
        | none =>
          if 2 ≤ sp.length then
            match typeAltSpGo TYPE_ALT r2 with
            | some (t, rest2) =>
              some (String.mk braceTok, "", t,
                    String.mk ((rest2.dropWhile pySpace).takeWhile
                      (fun d => d ≠ '\n')))
            | none => none
          else none)
     | none => none)
  | none => none

/-- `^(?:0x|16\'h)[0-9A-Fa-f]+\s+\w+` on a stripped line. -/
def hexSpWord (s : String) : Bool :=
  match hexHead s.data with
  | some r =>
    (match eatRun1 isHexChar r with
     | some (_, rest) =>
       (match eatRun1 pySpace rest with
        | some (_, c :: _) => isWordChar c
        | _ => false)
     | none => false)
  | none => false

/-- `re.match(r'^((?:0x|16\'h)[0-9A-Fa-f]+)\s+(.*)', line1)`. -/
def offsetMatchH2 (s : String) : Option (String × String) :=
  match hexHead s.data with
  | some r =>
    (match eatRun1 isHexChar r with
     | some (run, rest) =>
       (match eatRun1 pySpace rest with
        | some (_, r2) =>
          let pre := s.data.take (s.data.length - r.length)
          some (String.mk (pre ++ run),
                String.mk (r2.takeWhile (fun d => d ≠ '\n')))
        | none => none)
     | none => none)
  | none => none

/-- Pass-3 handler 2 (array indices and partial register name first, the
offset on the three following lines): rebuild one line, consume four. -/
def h2Try (pass2 : List String) (i : Nat) : Option (String × Nat) :=
  let line := getLine pass2 i
  if h2Cond line = true ∧ i + 3 < pass2.length then
    let line1 := pyStrip (getLine pass2 (i + 1))
    let line2 := pyStrip (getLine pass2 (i + 2))
    let line3 := pyStrip (getLine pass2 (i + 3))
    if hexSpWord line1 = true ∧ line2 = ":" ∧ is_offset_token line3 = true then
      match arrayMatchH2 line with
      | some (arr, partialName, ty, desc) =>
        (match offsetMatchH2 line1 with
         | some (offStart, nameCompl) =>
           some (arr ++ " " ++ offStart ++ " : " ++ line3 ++ " " ++
                 (partialName ++ nameCompl) ++ " " ++ ty ++ " " ++ desc ++ "\n",
                 i + 4)
         | none => none)
      | none => none
    else none
  else none

/-- Scan of `.*_\s+(RW|…)`: an underscore followed by whitespace and a type
token, with no newline before the underscore. -/
def underTypeScan : List Char → Bool
  | '_' :: c :: r =>
    if pySpace c && typeAltCond (eatSpaces0 (c :: r)) then true
    else underTypeScan (c :: r)
  | c :: r => if c = '\n' then false else underTypeScan r
  | [] => false

/-- Pass-3 handler 3 guard `^(?:0x|16\'h)[0-9A-Fa-f]+.*_\s+(RW|…)`. -/
def h3Cond (line : String) : Bool :=
  match hexHead line.data with
  | some r =>
    (match eatRun1 isHexChar r with
     | some (_, rest) => underTypeScan rest
     | none => false)
  | none => false

/-- Python `str.rstrip('\n')`. -/
def rstripNl (s : String) : String :=
  String.mk ((s.data.reverse.dropWhile (fun c => c = '\n')).reverse)

/-- `^\s+[a-z_]+\s*$` (ASCII lowercase), the continuation-line shape. -/
def indentLowerLine (s : String) : Bool :=
  match eatRun1 pySpace s.data with
  | some (_, r) =>
    (match eatRun1 (fun c => (97 ≤ c.toNat && c.toNat ≤ 122) || c = '_') r with
     | some (_, rest) => rest.all pySpace
     | none => false)
  | none => false

/-- Pass-3 handler 3 (wrapped register names).  The source consults
`cleaned_lines[i + 1]` — the PASS-1 list — while `i` indexes `pass2_lines`,
and on a hit appends only the current line, silently dropping
`pass2_lines[i + 1]`. -/
def h3Try (cleaned pass2 : List String) (i : Nat) : Option (String × Nat) :=
  let line := getLine pass2 i
  if h3Cond line = true ∧ i + 1 < cleaned.length then
    if indentLowerLine (rstripNl (getLine cleaned (i + 1))) then
      some (line, i + 2)
    else none
  else none

/-- Pass-3 handler 4 guard `^\{[\d-]+\}\s+(?:0x|16\'h)[0-9A-Fa-f]+\s*:`. -/
def h4Cond (line : String) : Bool :=
  match braceIdxHead line.data with
  | some (_, rest) =>
    (match eatRun1 pySpace rest with
     | some (_, r2) =>
       (match hexHead r2 with
        | some r3 =>
          (match eatRun1 isHexChar r3 with
           | some (_, r4) => (eatSpaces0 r4).head? = some ':'
           | none => false)
        | none => false)
     | none => false)
  | none => false

/-- `re.match(r'^(\{[\d-]+\}\s+(?:0x|16\'h)[0-9A-Fa-f]+\s*:)\s*(.*)', line)`. -/
def h4Groups (line : String) : Option (String × String) :=
  match braceIdxHead line.data with
  | some (braceTok, rest) =>
    (match eatRun1 pySpace rest with
     | some (sp, r2) =>
       (match hexHead r2 with
        | some r3 =>
          (match eatRun1 isHexChar r3 with
           | some (run, r4) =>
             let sp2 := r4.takeWhile pySpace
             (match r4.dropWhile pySpace with
              | ':' :: r5 =>
                let hexPre := r2.take (r2.length - r3.length)
                some (String.mk (braceTok ++ (sp ++ (hexPre ++ (run ++ (sp2 ++ [':']))))),
                      String.mk ((r5.dropWhile pySpace).takeWhile
                        (fun d => d ≠ '\n')))
              | _ => none)
           | none => none)
        | none => none)
     | none => none)
  | none => none

/-- Pass-3 handler 4 (array offset split, ending offset on the next line).
The lookahead again reads `cleaned_lines[i + 1]`, the stale pass-1 list. -/
def h4Try (cleaned pass2 : List String) (i : Nat) : Option (String × Nat) :=
  let line := getLine pass2 i
  if h4Cond line = true ∧ i + 1 < cleaned.length then
    let nextLine := pyStrip (getLine cleaned (i + 1))
    if is_offset_token nextLine then
      match h4Groups line with
      | some (offsetPart, rest) =>
        some (offsetPart ++ " " ++ nextLine ++ " " ++ rest ++ "\n", i + 2)
      | none => none
    else none
  else none

/-- Pass-3 handler 5 guard `^\{[\d-]+\}\s+\w+`. -/
def h5CondA (line : String) : Bool :=
  match braceIdxHead line.data with
  | some (_, rest) =>
    (match eatRun1 pySpace rest with
     | some (_, c :: _) => isWordChar c
     | _ => false)
  | none => false

/-- Pass-3 handler 5 exclusion `^\{[\d-]+\}\s+0x`. -/
def h5CondB (line : String) : Bool :=
  match braceIdxHead line.data with
  | some (_, rest) =>
    (match eatRun1 pySpace rest with
     | some (_, '0' :: 'x' :: _) => true
     | _ => false)
  | none => false

/-- `^(?:0x|16\'h)[0-9A-Fa-f]+\s*:\s*(?:0x|16\'h)[0-9A-Fa-f]+\s*$` on a
stripped line. -/
def offsetRangeWhole (s : String) : Bool :=
  match hexHead s.data with
  | some r =>
    (match eatRun1 isHexChar r with
     | some (_, rest) =>
       (match eatSpaces0 rest with
        | ':' :: r2 =>
          (match hexHead (eatSpaces0 r2) with
           | some r3 =>
             (match eatRun1 isHexChar r3 with
              | some (_, r4) => r4.all pySpace
              | none => false)
           | none => false)
        | _ => false)
     | none => false)
  | none => false

/-- `^(\{[\d-]+\})$` on a stripped line, returning the token. -/
def braceOnlyWholeG (s : String) : Option String :=
  match braceIdxHead s.data with
  | some (tok, rest) => if rest.isEmpty then some (String.mk tok) else none
  | none => none

/-- `^\{[\d-]+\}$` as a test. -/
def braceOnlyWhole (s : String) : Bool := (braceOnlyWholeG s).isSome

/-- Handler-5 inner offset search (`k` loop, bounded by `j + 8`): returns
the full offset text and the next `j`, or nothing when the search fails. -/
def h5InnerK (pass2 : List String) (jTop : Nat) : Nat → Nat → Option (String × Nat)
  | 0, _ => none
  | fuel + 1, k =>
    if k < pass2.length ∧ k ≤ jTop + 8 then
      let cand := pyStrip (getLine pass2 k)
      if cand = "" then h5InnerK pass2 jTop fuel (k + 1)
      else if offsetRangeWhole cand then some (cand, k + 1)
      else if is_offset_token cand then
        if k + 2 < pass2.length ∧ pyStrip (getLine pass2 (k + 1)) = ":" ∧
           is_offset_token (pyStrip (getLine pass2 (k + 2))) = true then
          some (cand ++ " : " ++ pyStrip (getLine pass2 (k + 2)), k + 3)
        else h5InnerK pass2 jTop fuel (k + 1)
      else none
    else none

/-- Handler-5 outer continuation search (`j` loop, bounded by `i + 15`):
accumulates `"; \x7bidx\x7d offset"` chunks onto the offset part and
returns it with the final `j`. -/
def h5OuterJ (pass2 : List String) (iTop : Nat) : Nat → Nat → String → String × Nat
  | 0, j, acc => (acc, j)
  | fuel + 1, j, acc =>
    if j < pass2.length ∧ j ≤ iTop + 15 then
      let lookahead := pyStrip (getLine pass2 j)
      if lookahead = "" then h5OuterJ pass2 iTop fuel (j + 1) acc
      else if braceOnlyWhole lookahead then
        match h5InnerK pass2 j 10 (j + 1) with
        | some (fullOff, j') =>
          h5OuterJ pass2 iTop fuel j' (acc ++ "; " ++ lookahead ++ " " ++ fullOff)
        | none => (acc, j)
      else (acc, j)
    else (acc, j)

/-- Pass-3 handler 5 (array index with the offset range on the next line,
plus multi-segment continuations): rebuilds one line and jumps to the
final `j`. -/
def h5Try (pass2 : List String) (i : Nat) : Option (String × Nat) :=
  let line := getLine pass2 i
  if h5CondA line = true ∧ ¬ h5CondB line = true ∧ i + 1 < pass2.length then
    let nextLine := pyStrip (getLine pass2 (i + 1))
    if offsetRangeWhole nextLine then
      match braceIdxHead line.data with
      | some (braceTok, rest) =>
        (match eatRun1 pySpace rest with
         | some (_, r2) =>
           let restOfLine := rstripNl (String.mk (r2.takeWhile (fun d => d ≠ '\n')))
           let init := String.mk braceTok ++ " " ++ nextLine
           let p := h5OuterJ pass2 i 20 (i + 2) init
           some (p.1 ++ " " ++ restOfLine ++ "\n", p.2)
         | none => none)
      | none => none
    else none
  else none

/-- Pass-3 handler 6 guard
`^\{[\d-]+\}\s+(?:0x|16\'h)hex\s*:\s*(?:0x|16\'h)hex\s+\w+`. -/
def h6Cond (line : String) : Bool :=
  match braceIdxHead line.data with
  | some (_, rest) =>
    (match eatRun1 pySpace rest with
     | some (_, r2) =>
       (match hexHead r2 with
        | some r3 =>
          (match eatRun1 isHexChar r3 with
           | some (_, r4) =>
             (match eatSpaces0 r4 with
              | ':' :: r5 =>
                (match hexHead (eatSpaces0 r5) with
                 | some r6 =>
                   (match eatRun1 isHexChar r6 with
                    | some (_, r7) =>
                      (match eatRun1 pySpace r7 with
                       | some (_, c :: _) => isWordChar c
                       | _ => false)
                    | none => false)
                 | none => false)
              | _ => false)
           | none => false)
        | none => false)
     | none => false)
  | none => false

/-- `re.match(r'^(\{[\d-]+\}\s+(?:0x|16\'h)hex\s*:\s*(?:0x|16\'h)hex)\s+(.*)')`:
group 1 as the prefix of the line up to the second hex run, group 2 the
rest. -/
def h6Groups (line : String) : Option (String × String) :=
  match braceIdxHead line.data with
  | some (_, rest) =>
    (match eatRun1 pySpace rest with
     | some (_, r2) =>
       (match hexHead r2 with
        | some r3 =>
          (match eatRun1 isHexChar r3 with
           | some (_, r4) =>
             (match r4.dropWhile pySpace with
              | ':' :: r5 =>
                (match hexHead (r5.dropWhile pySpace) with
                 | some r6 =>
                   (match eatRun1 isHexChar r6 with
                    | some (_, r7) =>
                      (match eatRun1 pySpace r7 with
                       | some (_, r8) =>
                         some (String.mk (line.data.take (line.data.length - r7.length)),
                               String.mk (r8.takeWhile (fun d => d ≠ '\n')))
                       | none => none)
                    | none => none)
                 | none => none)
              | _ => none)
           | none => none)
        | none => none)
     | none => none)
  | none => none

/-- `^\{[\d-]+\}\s+(?:0x|16\'h)hex\s*:\s*(?:0x|16\'h)hex$` on a stripped
lookahead (a continuation offset with no register name). -/
def braceRangeOnly (s : String) : Bool :=
  match braceIdxHead s.data with
  | some (_, rest) =>
    (match eatRun1 pySpace rest with
     | some (_, r2) =>
       (match hexHead r2 with
        | some r3 =>
          (match eatRun1 isHexChar r3 with
           | some (_, r4) =>
             (match eatSpaces0 r4 with
              | ':' :: r5 =>
                (match hexHead (eatSpaces0 r5) with
                 | some r6 =>
                   (match eatRun1 isHexChar r6 with
                    | some (_, r7) => r7.isEmpty
                    | none => false)
                 | none => false)
              | _ => false)
           | none => false)
        | none => false)
     | none => false)
  | none => false

/-- Handler-6 lookahead (`j` loop bounded by `i + 3`): appends a
continuation offset to the offset part when found; returns the new offset
part and the next `i`. -/
def h6Look (pass2 : List String) (iTop : Nat) : Nat → Nat → String → String × Nat
  | 0, _, op => (op, iTop + 1)
  | fuel + 1, j, op =>
    if j < pass2.length ∧ j ≤ iTop + 3 then
      let lookahead := pyStrip (getLine pass2 j)
      if braceRangeOnly lookahead then (op ++ "; " ++ lookahead, j + 1)
      else if lookahead ≠ "" ∧ lookahead.data.head? ≠ some '{' then (op, iTop + 1)
      else h6Look pass2 iTop fuel (j + 1) op
    else (op, iTop + 1)

/-- Pass 3 of `clean_pdf_text`: the six wrapped-line handlers tried in
source order, each falling through to the next on any inner mismatch.
Handlers 3 and 4 read their lookahead from `cleaned` (the pass-1 list),
exactly as the source does. -/
def pass3Loop (cleaned pass2 : List String) : Nat → Nat → List String
  | 0, _ => []
  | fuel + 1, i =>
    if i < pass2.length then
      let line := getLine pass2 i
      match h1Try pass2 i with
      | some p => p.1 :: pass3Loop cleaned pass2 fuel p.2
      | none =>
        match h2Try pass2 i with
        | some p => p.1 :: pass3Loop cleaned pass2 fuel p.2
        | none =>
          match h3Try cleaned pass2 i with
          | some p => p.1 :: pass3Loop cleaned pass2 fuel p.2
          | none =>
            match h4Try cleaned pass2 i with
            | some p => p.1 :: pass3Loop cleaned pass2 fuel p.2
            | none =>
              match h5Try pass2 i with
              | some p => p.1 :: pass3Loop cleaned pass2 fuel p.2
              | none =>
                if h6Cond line = true then
                  match h6Groups line with
                  | some g =>
                    let q := h6Look pass2 i 5 (i + 1) g.1
                    (q.1 ++ " " ++ g.2 ++ "\n") :: pass3Loop cleaned pass2 fuel q.2
                  | none => line :: pass3Loop cleaned pass2 fuel (i + 1)
                else line :: pass3Loop cleaned pass2 fuel (i + 1)
    else []

/-- `^16\'h([0-9A-Fa-f]+)\s*:$` on a stripped line, returning group 1. -/
def tickHexColonEnd (s : String) : Option String :=
  match eatLit ['1', '6', tick, 'h'] s.data with
  | some r =>
    (match eatRun1 isHexChar r with
     | some (run, rest) =>
       if eatSpaces0 rest = [':'] then some (String.mk run) else none
     | none => none)
  | none => none

/-- `^16\'h([0-9A-Fa-f]+)$` on a stripped line, returning group 1. -/
def tickHexWhole (s : String) : Option String :=
  match eatLit ['1', '6', tick, 'h'] s.data with
  | some r =>
    (match eatRun1 isHexChar r with
     | some (run, rest) => if rest.isEmpty then some (String.mk run) else none
     | none => none)
  | none => none

/-- `^(\{[\d-]+\})\s+(\w+.*?)\s+(RW|…)\s+(.*)` — the pass-4 register-line
shape; the lazy group must start with a word character. -/
def firstSegMatch (line : String) : Option (String × String × String × String) :=
  match braceIdxHead line.data with
  | some (braceTok, rest) =>
    (match eatRun1 pySpace rest with
     | some (_, c :: r2) =>
       if isWordChar c then
         match lazyTypeScan [c] r2 with
         | some (g2, t, g4) => some (String.mk braceTok, g2, t, g4)
         | none => none
       else none
     | _ => none)
  | none => none

/-- Pass-4 additional-segment collection: `\x7bX-Y\x7d` lines each followed
by `16'h.. :` and `16'h..`; stops (keeping what was read so far) at the
first shape break. -/
def pass4SegLoop (finalL : List String) :
    Nat → Nat → List String → List String → List String × List String × Nat
  | 0, j, idxs, offs => (idxs, offs, j)
  | fuel + 1, j, idxs, offs =>
    if j < finalL.length then
      match braceOnlyWholeG (pyStrip (getLine finalL j)) with
      | some seg =>
        if j + 1 < finalL.length then
          match tickHexColonEnd (pyStrip (getLine finalL (j + 1))) with
          | some a =>
            if j + 2 < finalL.length then
              match tickHexWhole (pyStrip (getLine finalL (j + 2))) with
              | some b =>
                pass4SegLoop finalL fuel (j + 3) (idxs ++ [seg])
                  (offs ++ ["0x" ++ a ++ " : 0x" ++ b])
              | none => (idxs ++ [seg], offs, j + 2)
            else (idxs ++ [seg], offs, j + 2)
          | none => (idxs ++ [seg], offs, j + 1)
        else (idxs ++ [seg], offs, j + 1)
      | none => (idxs, offs, j)
    else (idxs, offs, j)

/-- Pass-4 join attempt at line `i`: succeeds only when more than one
segment was found and every segment got an offset pair. -/
def pass4Try (finalL : List String) (i : Nat) : Option (String × Nat) :=
  let line := getLine finalL i
  match firstSegMatch line with
  | some (idx0, regName, ty, desc) =>
    let j0 := i + 1
    let firstOff :=
      if j0 < finalL.length then
        match tickHexColonEnd (pyStrip (getLine finalL j0)) with
        | some a =>
          if j0 + 1 < finalL.length then
            match tickHexWhole (pyStrip (getLine finalL (j0 + 1))) with
            | some b => (["0x" ++ a ++ " : 0x" ++ b], j0 + 2)
            | none => ([], j0 + 1)
          else ([], j0 + 1)
        | none => ([], j0)
      else ([], j0)
    let r := pass4SegLoop finalL (finalL.length + 1) firstOff.2 [idx0] firstOff.1
    if 1 < r.1.length ∧ r.2.1.length = r.1.length then
      let parts := (r.1.zip r.2.1).map (fun p => p.1 ++ " " ++ p.2)
      some (String.intercalate "; " parts ++ " " ++ regName ++ " " ++ ty ++ " " ++
            desc ++ "\n", r.2.2)
    else none
  | none => none

/-- Pass 4 of `clean_pdf_text`: join multi-segment CMN-700 arrays. -/
def pass4Loop (finalL : List String) : Nat → Nat → List String
  | 0, _ => []
  | fuel + 1, i =>
    if i < finalL.length then
      match pass4Try finalL i with
      | some p => p.1 :: pass4Loop finalL fuel p.2
      | none => getLine finalL i :: pass4Loop finalL fuel (i + 1)
    else []

/-- Source function `clean_pdf_text` on its line list (file I/O modelled as
the `readlines` list in and the `writelines` list out). -/
def clean_pdf_text (lines : List String) : List String :=
  let cleaned := pass1Loop lines (lines.length + 1) 0 [] none
  let pass2 := pass2Loop cleaned (cleaned.length + 1) 0
  let finalL := pass3Loop cleaned pass2 (pass2.length + 1) 0
  pass4Loop finalL (finalL.length + 1) 0

/-- The three-line input on which re-application changes the output. -/
def c8Input : List String :=
  ["0x2080 por_foo_ RW desc\n", "   continuation\n", "   another\n"]

/-- C8: the claim that `clean_pdf_text` is idempotent — re-applying the
Line Normalizer to its own output alters nothing — fails.  The
wrapped-register-name handler of pass 3 tests `cleaned_lines[i + 1]` (the
pass-1 list) while consuming `pass2_lines`, and drops the lookahead line
without joining it; on the input below the first run keeps the third line
but the second run deletes it, so the function is not idempotent. -/
theorem C8_not_idempotent :
    clean_pdf_text (clean_pdf_text c8Input) ≠ clean_pdf_text c8Input ∧
    clean_pdf_text c8Input = ["0x2080 por_foo_ RW desc\n", "   another\n"] ∧
    clean_pdf_text (clean_pdf_text c8Input) = ["0x2080 por_foo_ RW desc\n"] := by
  decide

end CmnRead
